import Mathlib

/-!
# cs1550: a two-level FAT file system kept in a disk image

A shallow embedding of `project4/cs1550.c`.  The disk image `.disk` is a
sequence of 512-byte blocks: block 0 holds the root directory table, block 1
the file allocation table, every later block either a directory entry table
or file bytes.  Each callback of the C program becomes a function from the
image (and the call's arguments) to the value the callback returns and the
image it leaves behind.  The last section embeds two functions of the graphics
library `project1/library.c`, `sleep_ms` and `draw_pixel`.

Conventions of the embedding.

* C strings (paths, names, extensions) are lists of characters without the
  terminating NUL; a `char *` that may be `NULL` is an `Option`.
* A structure read from the image is the structure value itself: the byte
  layout of the packed structures is not represented.  A block is tagged with
  the type it was last written under; an all-zero block reads under either
  type.
* The arrays `directories[29]`, `files[17]`, `table[256]` and `data[512]` are
  lists; a loop over a whole array is a traversal of the list.
* Byte counts, offsets and block numbers are taken to fit the C types that
  hold them (`int`, `long`, `size_t`).
* A run of the C code that leaves defined behaviour ends in a `Fault`.
-/

namespace CS1550

/-! ## Constants of the source -/

/-- Size of a disk block. -/
def BLOCK_SIZE : Nat := 512

/-- Longest file or directory name (8.3 names). -/
def MAX_FILENAME : Nat := 8

/-- Longest extension. -/
def MAX_EXTENSION : Nat := 3

/-- Value of `sizeof(int)` on the LP64 targets the program is built for. -/
def sizeof_int : Nat := 4

/-- Value of `sizeof(long)`. -/
def sizeof_long : Nat := 8

/-- Value of `sizeof(size_t)`. -/
def sizeof_size_t : Nat := 8

/-- Value of `sizeof(short)`. -/
def sizeof_short : Nat := 2

/-- How many files fit in one directory block. -/
def MAX_FILES_IN_DIR : Nat :=
  (BLOCK_SIZE - sizeof_int) / ((MAX_FILENAME + 1) + (MAX_EXTENSION + 1) + sizeof_size_t + sizeof_long)

/-- How many directories fit in the root block. -/
def MAX_DIRS_IN_ROOT : Nat :=
  (BLOCK_SIZE - sizeof_int) / ((MAX_FILENAME + 1) + sizeof_long)

/-- How much data one block holds. -/
def MAX_DATA_IN_BLOCK : Nat := BLOCK_SIZE

/-- Number of `short` entries of the allocation table. -/
def MAX_FAT_ENTRIES : Nat := BLOCK_SIZE / sizeof_short

/-- First block that may be allocated (block 0 is the root, block 1 the FAT). -/
def START_ALLOC_BLOCK : Nat := 2

/-- The `EOF` of `stdio.h`, stored in the table as the end-of-chain mark. -/
def EOF : Int := -1

/-- Linux `errno` value. -/
def EPERM : Int := 1

/-- Linux `errno` value. -/
def ENOENT : Int := 2

/-- Linux `errno` value. -/
def EEXIST : Int := 17

/-- Linux `errno` value. -/
def EISDIR : Int := 21

/-- Linux `errno` value. -/
def EFBIG : Int := 27

/-- Linux `errno` value. -/
def ENAMETOOLONG : Int := 36

/-- File type bits of a directory in `st_mode`. -/
def S_IFDIR : Nat := 0o040000

/-- File type bits of a regular file in `st_mode`. -/
def S_IFREG : Nat := 0o100000

/-! ## Data model -/

/-- One file entry of a directory block (`struct cs1550_file_directory`). -/
structure cs1550_file_directory where
  fname : List Char
  fext : List Char
  fsize : Nat
  nStartBlock : Int
deriving DecidableEq, Repr

/-- A directory block (`struct cs1550_directory_entry`). -/
structure cs1550_directory_entry where
  nFiles : Int
  files : List cs1550_file_directory
deriving DecidableEq, Repr

/-- One directory entry of the root block (`struct cs1550_directory`). -/
structure cs1550_directory where
  dname : List Char
  nStartBlock : Int
deriving DecidableEq, Repr

/-- The root block (`struct cs1550_root_directory`). -/
structure cs1550_root_directory where
  nDirectories : Int
  directories : List cs1550_directory
deriving DecidableEq, Repr

/-- The allocation table block (`struct cs1550_file_alloc_table_block`). -/
structure cs1550_file_alloc_table_block where
  table : List Int
deriving DecidableEq, Repr

/-- The typedef of the source. -/
abbrev cs1550_fat_block := cs1550_file_alloc_table_block

/-- The fields of `struct stat` the program sets. -/
structure stat where
  st_mode : Nat
  st_nlink : Nat
  st_size : Nat
deriving DecidableEq, Repr

/-- A block of the image from block 2 on, tagged with the type of the last
write to it. -/
inductive Block where
  | dir (e : cs1550_directory_entry)
  | data (bytes : List Nat)
deriving DecidableEq, Repr

/-- The disk image: block 0, block 1, and the blocks from block 2 on
(`blocks[k]` is disk block `k + 2`). -/
structure Disk where
  root : cs1550_root_directory
  fat : cs1550_fat_block
  blocks : List Block
deriving DecidableEq, Repr

/-- Ways in which a run of the C code leaves defined behaviour. -/
inductive Fault where
  /-- a `NULL` pointer is handed to `strlen` or `strcmp` -/
  | null_pointer
  /-- a local variable is read before anything was assigned to it -/
  | uninitialised
  /-- an array is indexed, or a buffer copied into, outside its bounds -/
  | out_of_bounds
  /-- `strlen` runs over an array that holds no NUL -/
  | unterminated
  /-- a loop never ends -/
  | no_termination
  /-- a seek before block 2 or a write past the last block of the image -/
  | outside_image
  /-- a block is read under the type it was not written under -/
  | retyped
deriving DecidableEq, Repr

deriving instance DecidableEq for Except

/-- The directory block `memset` to zero. -/
def zero_directory_entry : cs1550_directory_entry :=
  ⟨0, List.replicate MAX_FILES_IN_DIR ⟨[], [], 0, 0⟩⟩

/-- A block of zero bytes. -/
def zero_data : List Nat := List.replicate BLOCK_SIZE 0

/-- The block read as a directory entry table. -/
def Block.asDir : Block → Option cs1550_directory_entry
  | .dir e => some e
  | .data bytes => if bytes.all (fun b => b == 0) then some zero_directory_entry else none

/-- The block read as bytes. -/
def Block.asData : Block → Option (List Nat)
  | .data bytes => some bytes
  | .dir e => if e = zero_directory_entry then some zero_data else none

/-! ## C library functions -/

/-- One call of `strtok` with a single delimiter: `s` is the text at the saved
position; the result is the token (`none` for `NULL`) and the text at the new
saved position. -/
def strtok (s : List Char) (delim : Char) : Option (List Char) × List Char :=
  match s.dropWhile (fun c => c == delim) with
  | [] => (none, [])
  | c :: s1 =>
    (some ((c :: s1).takeWhile (fun x => x != delim)),
     ((c :: s1).dropWhile (fun x => x != delim)).drop 1)

/-- The `isspace` of the C locale. -/
def isspace (c : Char) : Bool :=
  c.toNat == 32 || (9 ≤ c.toNat && c.toNat ≤ 13)

/-- The strings that the three conversions of
`sscanf(path, "/%[^/]/%[^.].%s", directory, filename, extension)` match, the
empty string for a conversion that is not reached. -/
def sscanf_fields (path : List Char) : List Char × List Char × List Char :=
  match path with
  | [] => ([], [], [])
  | c :: r1 =>
    if c != '/' then ([], [], []) else
    let directory := r1.takeWhile (fun x => x != '/')
    if directory.isEmpty then ([], [], []) else
    match r1.dropWhile (fun x => x != '/') with
    | [] => (directory, [], [])
    | _ :: r2 =>
      let filename := r2.takeWhile (fun x => x != '.')
      if filename.isEmpty then (directory, [], []) else
      match r2.dropWhile (fun x => x != '.') with
      | [] => (directory, filename, [])
      | _ :: r3 =>
        (directory, filename, (r3.dropWhile isspace).takeWhile (fun x => !isspace x))

/-- The call `sscanf(path, "/%[^/]/%[^.].%s", directory, filename, extension)`
on the arrays `directory[MAX_FILENAME + 1]`, `filename[MAX_FILENAME + 1]` and
`extension[MAX_EXTENSION + 1]`, which hold the empty string: the contents of
the three arrays afterwards.  No conversion has a field width, so a match
that is longer than its array is written past the end of the array. -/
def sscanf_path (path : List Char) : Except Fault (List Char × List Char × List Char) :=
  let fields := sscanf_fields path
  if fields.1.length > MAX_FILENAME ∨ fields.2.1.length > MAX_FILENAME
      ∨ fields.2.2.length > MAX_EXTENSION then
    .error .out_of_bounds
  else .ok fields

/-- The three `strtok` calls that open `cs1550_readdir`, `cs1550_mknod`,
`cs1550_read` and `cs1550_write`: `strtok(path_copy, "/")`, `strtok(NULL, ".")`,
`strtok(NULL, ".")`. -/
def strtok_path (path : List Char) :
    Option (List Char) × Option (List Char) × Option (List Char) :=
  let t1 := strtok path '/'
  let t2 := strtok t1.2 '.'
  let t3 := strtok t2.2 '.'
  (t1.1, t2.1, t3.1)

/-- The test `p && p[0]` on a string pointer. -/
def nonempty_ptr : Option (List Char) → Bool
  | none => false
  | some s => !s.isEmpty

/-- `strlen` on the bytes of an object: the bytes before the first NUL;
`none` when the object holds no NUL. -/
def strlen : List Nat → Option Nat
  | [] => none
  | b :: bs => if b = 0 then some 0 else (strlen bs).map (fun n => n + 1)

/-- `memcpy(dst + pos, src, src.length)` into the object `dst`. -/
def memcpy (dst : List Nat) (pos : Nat) (src : List Nat) : Except Fault (List Nat) :=
  if pos + src.length ≤ dst.length then
    .ok (dst.take pos ++ src ++ dst.drop (pos + src.length))
  else .error .out_of_bounds

/-- Conversion of an `int` to `size_t`, as in the comparisons of a count with
`MAX_DIRS_IN_ROOT` and `MAX_FILES_IN_DIR` (both of type `size_t`). -/
def to_size_t (n : Int) : Nat := (n % (2 ^ 64 : Int)).toNat

/-! ## Access to the disk image -/

/-- The call `read_root()`. -/
def read_root (d : Disk) : cs1550_root_directory := d.root

/-- The call `read_fat()`. -/
def read_fat (d : Disk) : cs1550_fat_block := d.fat

/-- The call `write_root(&root)`. -/
def write_root (d : Disk) (root : cs1550_root_directory) : Disk := { d with root := root }

/-- The call `write_fat(&fat)`. -/
def write_fat (d : Disk) (fat : cs1550_fat_block) : Disk := { d with fat := fat }

/-- A seek to block `n` followed by an `fread` of one block: the block, or
`none` when the image ends before it (`fread` returns 0).  A negative
position makes the seek fail; blocks 0 and 1 hold the root and the table. -/
def fread_block (blocks : List Block) (n : Int) : Except Fault (Option Block) :=
  if n < 0 then .error .outside_image
  else if n < 2 then .error .retyped
  else .ok (blocks[(n - 2).toNat]?)

/-- Block `n` read into a `cs1550_directory_entry`. -/
def fread_dir (blocks : List Block) (n : Int) : Except Fault (Option cs1550_directory_entry) :=
  match fread_block blocks n with
  | .error e => .error e
  | .ok none => .ok none
  | .ok (some b) =>
    match b.asDir with
    | some e => .ok (some e)
    | none => .error .retyped

/-- Block `n` read into a `cs1550_disk_block` whose contents are used without
a look at what `fread` returned. -/
def fread_data (blocks : List Block) (n : Int) : Except Fault (List Nat) :=
  match fread_block blocks n with
  | .error e => .error e
  | .ok none => .error .uninitialised
  | .ok (some b) =>
    match b.asData with
    | some bytes => .ok bytes
    | none => .error .retyped

/-- A seek to block `n` followed by an `fwrite` of one whole structure. -/
def fwrite_block (blocks : List Block) (n : Int) (b : Block) : Except Fault (List Block) :=
  if n < 0 then .error .outside_image
  else if n < 2 then .error .retyped
  else if (n - 2).toNat < blocks.length then .ok (blocks.set (n - 2).toNat b)
  else .error .outside_image

/-- An `fwrite` of `bytes` at byte `off` of block `n` that ends inside the
block (`off + bytes.length ≤ BLOCK_SIZE`); nothing happens for no bytes. -/
def fwrite_in_block (blocks : List Block) (n : Int) (off : Nat) (bytes : List Nat) :
    Except Fault (List Block) :=
  if bytes.isEmpty then .ok blocks
  else if off = 0 ∧ bytes.length = BLOCK_SIZE then fwrite_block blocks n (.data bytes)
  else
    match fread_block blocks n with
    | .error e => .error e
    | .ok none => .error .outside_image
    | .ok (some b) =>
      match b.asData with
      | none => .error .retyped
      | some old =>
        fwrite_block blocks n (.data (old.take off ++ bytes ++ old.drop (off + bytes.length)))

/-- An `fwrite` of at most one block of `bytes` at byte `off < BLOCK_SIZE` of
block `n`: what does not fit in block `n` goes to the start of the block that
follows it on the disk. -/
def fwrite_bytes (blocks : List Block) (n : Int) (off : Nat) (bytes : List Nat) :
    Except Fault (List Block) :=
  match fwrite_in_block blocks n off (bytes.take (BLOCK_SIZE - off)) with
  | .error e => .error e
  | .ok blocks1 => fwrite_in_block blocks1 (n + 1) 0 (bytes.drop (BLOCK_SIZE - off))

/-- The read `fat.table[i]`. -/
def fat_get (table : List Int) (i : Int) : Except Fault Int :=
  if i < 0 then .error .out_of_bounds
  else
    match table[i.toNat]? with
    | some v => .ok v
    | none => .error .out_of_bounds

/-- The loop `for(j = j0; j < j0 + n; j++) if(fat.table[j] == 0) break;`: the
index it stops at, `none` when it runs to the end. -/
def first_free_from (table : List Int) : Nat → Nat → Option Nat
  | 0, _ => none
  | n + 1, j => if table[j]? = some 0 then some j else first_free_from table n (j + 1)

/-- The scan of the table for a free block, from `START_ALLOC_BLOCK` up to
`MAX_FAT_ENTRIES`. -/
def first_free (table : List Int) : Option Nat :=
  first_free_from table (MAX_FAT_ENTRIES - START_ALLOC_BLOCK) START_ALLOC_BLOCK

/-- The loop `while(block_number_of_file > 0) curr_block = fat.table[curr_block]`. -/
def fat_walk (table : List Int) : Nat → Int → Except Fault Int
  | 0, curr_block => .ok curr_block
  | n + 1, curr_block =>
    match fat_get table curr_block with
    | .error e => .error e
    | .ok next => fat_walk table n next

/-! ## The callbacks -/

/-- The attributes `cs1550_getattr` reports for a directory. -/
def dir_stat : stat := ⟨S_IFDIR ||| 0o755, 2, 0⟩

/-- The `stat` buffer after the `memset`. -/
def zero_stat : stat := ⟨0, 0, 0⟩

/-- The loop of `cs1550_getattr` over `root.directories[i]` for
`i < root.nDirectories`, which stops at the first entry named `directory`. -/
def find_dir_counted (root : cs1550_root_directory) (directory : List Char) :
    Except Fault (Option cs1550_directory) :=
  match (root.directories.take root.nDirectories.toNat).find? (fun c => c.dname == directory) with
  | some c => .ok (some c)
  | none =>
    if (MAX_DIRS_IN_ROOT : Int) < root.nDirectories then .error .out_of_bounds else .ok none

/-- The callback `cs1550_getattr(path, stbuf)`: the value returned and the
contents of `*stbuf` afterwards. -/
def cs1550_getattr (d : Disk) (path : List Char) (stbuf : stat) : Except Fault (Int × stat) :=
  match (if path.length ≠ 1 then sscanf_path path else .ok ([], [], [])) with
  | .error e => .error e
  | .ok names =>
    let directory := names.1
    let filename := names.2.1
    let extension := names.2.2
    if directory.length > MAX_FILENAME ∨ filename.length > MAX_FILENAME
        ∨ extension.length > MAX_EXTENSION then
      .ok (-ENAMETOOLONG, stbuf)
    else if path = ['/'] then .ok (0, dir_stat)
    else if directory = [] then .ok (-ENOENT, zero_stat)
    else
      match find_dir_counted (read_root d) directory with
      | .error e => .error e
      | .ok none => .ok (-ENOENT, zero_stat)
      | .ok (some dir) =>
        if filename = [] then .ok (0, dir_stat)
        else
          match fread_dir d.blocks dir.nStartBlock with
          | .error e => .error e
          | .ok none => .ok (0, zero_stat)
          | .ok (some dir_entry) =>
            match dir_entry.files.find? (fun f => f.fname == filename && f.fext == extension) with
            | none => .ok (-ENOENT, zero_stat)
            | some file =>
              if file.nStartBlock = -1 then .ok (-ENOENT, zero_stat)
              else .ok (0, ⟨S_IFREG ||| 0o666, 1, file.fsize⟩)

/-- The body of the loop of `cs1550_readdir` over the files of a directory:
the name is assembled in `filename_copy[MAX_FILENAME + 1]` and handed to the
filler when the file name is not empty. -/
def readdir_files : List cs1550_file_directory → List (List Char) →
    Except Fault (List (List Char))
  | [], buf => .ok buf
  | f :: fs, buf =>
    let filename_copy := if f.fext ≠ [] then f.fname ++ '.' :: f.fext else f.fname
    if filename_copy.length > MAX_FILENAME then .error .out_of_bounds
    else if f.fname ≠ [] then readdir_files fs (buf ++ [filename_copy])
    else readdir_files fs buf

/-- The callback `cs1550_readdir(path, buf, filler, offset, fi)`: the value
returned and the names handed to the filler, after those already in `buf`. -/
def cs1550_readdir (d : Disk) (path : List Char) (buf : List (List Char)) :
    Except Fault (Int × List (List Char)) :=
  let buf := buf ++ [['.'], ['.', '.']]
  let p := strtok_path path
  let destination := p.1
  let filename := p.2.1
  let extension := p.2.2
  if nonempty_ptr destination ∧ (destination.getD []).length > MAX_FILENAME then
    .ok (-ENAMETOOLONG, buf)
  else if nonempty_ptr filename ∧ (filename.getD []).length > MAX_FILENAME then
    .ok (-ENAMETOOLONG, buf)
  else if nonempty_ptr extension ∧ (extension.getD []).length > MAX_EXTENSION then
    .ok (-ENAMETOOLONG, buf)
  else if path = ['/'] then
    .ok (0, buf ++ ((read_root d).directories.filter (fun c => c.dname != [])).map (fun c => c.dname))
  else
    match destination with
    | none => .error .null_pointer
    | some destination =>
      match (read_root d).directories.find? (fun c => destination == c.dname) with
      | none => .ok (-ENOENT, buf)
      | some dir =>
        if dir.dname = [] then .ok (-ENOENT, buf)
        else
          match fread_dir d.blocks dir.nStartBlock with
          | .error e => .error e
          | .ok none =>
            (readdir_files zero_directory_entry.files buf).map (fun b => (0, b))
          | .ok (some directory) =>
            (readdir_files directory.files buf).map (fun b => (0, b))

/-- The callback `cs1550_mkdir(path, mode)`: the value returned and the image
afterwards. -/
def cs1550_mkdir (d : Disk) (path : List Char) : Except Fault (Int × Disk) :=
  let t1 := strtok path '/'
  let sub_directory := (strtok t1.2 '/').1
  match t1.1 with
  | none => .error .null_pointer
  | some directory =>
    if directory.length > MAX_FILENAME then .ok (-ENAMETOOLONG, d)
    else if nonempty_ptr sub_directory then .ok (-EPERM, d)
    else
      let root := read_root d
      let fat := read_fat d
      if to_size_t root.nDirectories ≥ MAX_DIRS_IN_ROOT then .ok (-EPERM, d)
      else if root.directories.any (fun c => c.dname == directory) then .ok (-EEXIST, d)
      else
        match root.directories.findIdx? (fun c => c.dname == []) with
        | none => .ok (0, d)
        | some i =>
          match first_free fat.table with
          | none => .error .uninitialised
          | some j =>
            let fat1 : cs1550_fat_block := ⟨fat.table.set j EOF⟩
            let new_dir_in_root : cs1550_directory := ⟨directory, j⟩
            match fread_block d.blocks j with
            | .error e => .error e
            | .ok none => .ok (0, d)
            | .ok (some _) =>
              -- the stream stands behind block `j` after the `fread`
              match fwrite_block d.blocks (j + 1) (.dir zero_directory_entry) with
              | .error e => .error e
              | .ok blocks1 =>
                let root1 : cs1550_root_directory :=
                  ⟨root.nDirectories + 1, root.directories.set i new_dir_in_root⟩
                .ok (0, write_fat (write_root { d with blocks := blocks1 } root1) fat1)

/-- The callback `cs1550_rmdir(path)`. -/
def cs1550_rmdir (d : Disk) (_path : List Char) : Except Fault (Int × Disk) := .ok (0, d)

/-- The loop of `cs1550_mknod` over the files of the directory, from index
`j` on: the first free index it has seen and whether it stopped at a file with
the same name and extension.  `strcmp` is handed `file_ext` as it is. -/
def mknod_scan (file_name : List Char) (file_ext : Option (List Char)) :
    List cs1550_file_directory → Nat → Option Nat → Except Fault (Option Nat × Bool)
  | [], _, first_free_file_dir_index => .ok (first_free_file_dir_index, false)
  | f :: fs, j, first_free_file_dir_index =>
    let index1 :=
      if f.fname = [] ∧ f.fext = [] ∧ first_free_file_dir_index = none then some j
      else first_free_file_dir_index
    if f.fname = file_name then
      match file_ext with
      | none => .error .null_pointer
      | some ext =>
        if f.fext = ext then .ok (index1, true)
        else mknod_scan file_name file_ext fs (j + 1) index1
    else mknod_scan file_name file_ext fs (j + 1) index1

/-- The callback `cs1550_mknod(path, mode, dev)`: the value returned and the
image afterwards. -/
def cs1550_mknod (d : Disk) (path : List Char) : Except Fault (Int × Disk) :=
  let p := strtok_path path
  let file_ext := p.2.2
  match p.1 with
  | none => .ok (0, d)
  | some directory =>
    if directory = [] then .ok (0, d) else
    match p.2.1 with
    | none => .ok (-EPERM, d)
    | some file_name =>
      if file_name = [] then .ok (-EPERM, d)
      else if nonempty_ptr file_ext ∧
          (file_name.length > MAX_FILENAME ∨ (file_ext.getD []).length > MAX_EXTENSION) then
        .ok (-ENAMETOOLONG, d)
      else if ¬ nonempty_ptr file_ext ∧ file_name.length > MAX_FILENAME then
        .ok (-ENAMETOOLONG, d)
      else
        let root := read_root d
        let fat := read_fat d
        match root.directories.find? (fun c => directory == c.dname) with
        | none => .error .uninitialised
        | some dir =>
          if dir.dname = [] then .ok (0, d) else
          match fread_dir d.blocks dir.nStartBlock with
          | .error e => .error e
          | .ok none => .error .uninitialised
          | .ok (some dir_entry) =>
            if to_size_t dir_entry.nFiles ≥ MAX_FILES_IN_DIR then .ok (-EPERM, d)
            else
              match mknod_scan file_name file_ext dir_entry.files 0 none with
              | .error e => .error e
              | .ok (_, true) => .ok (-EEXIST, d)
              | .ok (first_free_file_dir_index, false) =>
                let k := first_free fat.table
                let file_fat_start_index : Int :=
                  match k with
                  | some k => k
                  | none => -1
                let fat1 : cs1550_fat_block :=
                  match k with
                  | some k => ⟨fat.table.set k EOF⟩
                  | none => fat
                let new_file_dir : cs1550_file_directory :=
                  ⟨file_name, if nonempty_ptr file_ext then file_ext.getD [] else [],
                   0, file_fat_start_index⟩
                match first_free_file_dir_index with
                | none => .error .out_of_bounds
                | some i =>
                  let dir_entry1 : cs1550_directory_entry :=
                    ⟨dir_entry.nFiles + 1, dir_entry.files.set i new_file_dir⟩
                  match fwrite_block d.blocks dir.nStartBlock (.dir dir_entry1) with
                  | .error e => .error e
                  | .ok blocks1 =>
                    .ok (0, write_fat (write_root { d with blocks := blocks1 } root) fat1)

/-- The callback `cs1550_unlink(path)`. -/
def cs1550_unlink (d : Disk) (_path : List Char) : Except Fault (Int × Disk) := .ok (0, d)

/-- The test of `cs1550_read` and `cs1550_write` for the file they look for:
the name matches, and the extension matches `file_ext`, or is empty when
`file_ext` is `NULL`. -/
def file_matches (file_name : List Char) (file_ext : Option (List Char))
    (f : cs1550_file_directory) : Bool :=
  f.fname == file_name &&
    (if nonempty_ptr file_ext then f.fext == file_ext.getD [] else f.fext == [])

/-- The loop of `cs1550_read` and `cs1550_write` over the files of the
directory, from index `j` on: the index and the entry it stops at, `none` when
it runs to the end (`file_dir` is then never assigned). -/
def find_file (file_name : List Char) (file_ext : Option (List Char)) :
    List cs1550_file_directory → Nat → Option (Nat × cs1550_file_directory)
  | [], _ => none
  | f :: fs, j =>
    if file_matches file_name file_ext f then some (j, f)
    else find_file file_name file_ext fs (j + 1)

/-- The loop `while(fat.table[curr_block] != EOF)` of `cs1550_read`: every
further block of the chain is read and `strlen(data.data)` of its bytes are
appended to the buffer.  The result is the buffer and `curr_buffer_size`. -/
def read_loop (table : List Int) (blocks : List Block) :
    Nat → Int → List Nat → Nat → Except Fault (List Nat × Nat)
  | 0, _, _, _ => .error .no_termination
  | fuel + 1, curr_block, buf, curr_buffer_size =>
    match fat_get table curr_block with
    | .error e => .error e
    | .ok next =>
      if next = EOF then .ok (buf, curr_buffer_size)
      else
        match fread_data blocks next with
        | .error e => .error e
        | .ok data =>
          match strlen (data.take BLOCK_SIZE) with
          | none => .error .unterminated
          | some n =>
            match memcpy buf curr_buffer_size (data.take n) with
            | .error e => .error e
            | .ok buf1 => read_loop table blocks fuel next buf1 (curr_buffer_size + n)

/-- The part of `cs1550_read` that follows the search for the file: the test
of the offset against the size of `file_dir`, the walk to the block of the
offset, the copy of the first block, the loop over the rest of the chain and
the rewriting of the root and the table. -/
def read_from (d : Disk) (file_dir : cs1550_file_directory) (buf : List Nat) (offset : Nat) :
    Except Fault (Int × List Nat × Disk) :=
  let root := read_root d
  let fat := read_fat d
  if offset > file_dir.fsize then .ok (-EFBIG, buf, d)
  else
    let block_number_of_file := offset / BLOCK_SIZE
    let offset_of_block := offset - block_number_of_file * BLOCK_SIZE
    match fat_walk fat.table block_number_of_file file_dir.nStartBlock with
    | .error e => .error e
    | .ok curr_block =>
      match fread_data d.blocks curr_block with
      | .error e => .error e
      | .ok block_data =>
        let new_data := (block_data.take BLOCK_SIZE).drop offset_of_block
        let n := if file_dir.fsize ≥ BLOCK_SIZE then BLOCK_SIZE - offset_of_block
                 else file_dir.fsize
        if n > BLOCK_SIZE - offset_of_block then .error .uninitialised
        else
          match memcpy buf 0 (new_data.take n) with
          | .error e => .error e
          | .ok buf1 =>
            match read_loop fat.table d.blocks (MAX_FAT_ENTRIES + 1) curr_block buf1
                (BLOCK_SIZE - offset_of_block) with
            | .error e => .error e
            | .ok (buf2, curr_buffer_size) =>
              .ok (curr_buffer_size, buf2, write_fat (write_root d root) fat)

/-- The callback `cs1550_read(path, buf, size, offset, fi)`: the value
returned, the contents of the caller's buffer (whose length is its capacity)
and the image afterwards. -/
def cs1550_read (d : Disk) (path : List Char) (buf : List Nat) (size : Nat) (offset : Nat) :
    Except Fault (Int × List Nat × Disk) :=
  let p := strtok_path path
  let file_ext := p.2.2
  match p.1 with
  | none => .ok (size, buf, d)
  | some directory =>
    if directory = [] then .ok (size, buf, d) else
    match p.2.1 with
    | none => .ok (-EEXIST, buf, d)
    | some file_name =>
      if file_name = [] then .ok (-EEXIST, buf, d)
      else if nonempty_ptr file_ext ∧
          (file_name.length > MAX_FILENAME ∨ (file_ext.getD []).length > MAX_EXTENSION) then
        .ok (-ENAMETOOLONG, buf, d)
      else if ¬ nonempty_ptr file_ext ∧ file_name.length > MAX_FILENAME then
        .ok (-ENAMETOOLONG, buf, d)
      else
        let root := read_root d
        match root.directories.find? (fun c => directory == c.dname) with
        | none => .error .uninitialised
        | some dir =>
          if dir.dname = [] then .ok (size, buf, d) else
          match fread_dir d.blocks dir.nStartBlock with
          | .error e => .error e
          | .ok none => .ok (-EPERM, buf, d)
          | .ok (some dir_entry) =>
            match find_file file_name file_ext dir_entry.files 0 with
            | none => .error .uninitialised
            | some (_, file_dir) =>
              if file_dir.fname = [] then .ok (-EISDIR, buf, d)
              else read_from d file_dir buf offset

/-- How the loop `while(buffer_bytes_remaining > 0)` of `cs1550_write` ends:
it runs to its end with a table and an image, or it returns `-EPERM` from
inside, the blocks written so far staying written. -/
inductive write_rest where
  | done (table : List Int) (blocks : List Block)
  | no_block (blocks : List Block)
deriving DecidableEq, Repr

/-- The loop `while(buffer_bytes_remaining > 0)` of `cs1550_write`; `rest` is
the part of the buffer not yet written.  Every round writes at least one
byte, so `rest.length` rounds of fuel are enough. -/
def write_loop : Nat → List Int → List Block → Int → List Nat → Except Fault write_rest
  | 0, table, blocks, _, rest =>
    if rest.isEmpty then .ok (.done table blocks) else .error .no_termination
  | fuel + 1, table, blocks, curr_block, rest =>
    if rest.isEmpty then .ok (.done table blocks)
    else
      match fat_get table curr_block with
      | .error e => .error e
      | .ok v =>
        let step : Option (List Int × Int) :=
          if v = EOF then
            match first_free table with
            | some k => some ((table.set curr_block.toNat k).set k EOF, k)
            | none => none
          else some (table, v)
        match step with
        | none => .ok (.no_block blocks)
        | some (table1, curr_block1) =>
          match fwrite_in_block blocks curr_block1 0 (rest.take BLOCK_SIZE) with
          | .error e => .error e
          | .ok blocks1 => write_loop fuel table1 blocks1 curr_block1 (rest.drop BLOCK_SIZE)

/-- The value of `file_dir.fsize` in `cs1550_write` when the loop over the
rest of the buffer starts: what the two branches of the write into the first
block assign to it, from the size `fsize` of the entry, the arguments `size`
and `offset` and `buffer_size = strlen(buf)`. -/
def fsize_first (fsize size offset buffer_size : Nat) : Nat :=
  if buffer_size ≥ BLOCK_SIZE then
    (if offset = size then offset + 1 else fsize)
  else if offset = fsize ∧ ¬ (offset = 0 ∧ fsize = 0) then fsize
  else if fsize > size then
    (if offset = size then offset + 1 else size)
  else fsize

/-- The value of `file_dir.fsize` that `cs1550_write` stores in the directory
block: `fsize_first` plus `appended_bytes` when that is positive, where
`write_bytes_until_append = fsize - offset`, `write_bytes = buffer_size` (the
loop ends with nothing left) and `appended_bytes` is their difference. -/
def fsize_stored (fsize size offset buffer_size : Nat) : Nat :=
  let write_bytes_until_append : Int := (fsize : Int) - offset
  let write_bytes : Int := buffer_size
  let appended_bytes := write_bytes - write_bytes_until_append
  if appended_bytes > 0 then
    ((fsize_first fsize size offset buffer_size : Int) + appended_bytes).toNat
  else fsize_first fsize size offset buffer_size

/-- The part of `cs1550_write` that follows the search for the file, for the
entry `file_dir` found at `file_directory_index` of the block `dir_entry` of
`dir`.  The `printf` ahead of the offset test already calls `strlen(buf)`. -/
def write_to (d : Disk) (dir : cs1550_directory) (dir_entry : cs1550_directory_entry)
    (file_directory_index : Nat) (file_dir : cs1550_file_directory)
    (buf : List Nat) (size : Nat) (offset : Nat) : Except Fault (Int × Disk) :=
  let root := read_root d
  let fat := read_fat d
  match strlen buf with
  | none => .error .unterminated
  | some buffer_size =>
    if offset > file_dir.fsize then .ok (-EFBIG, d) else
    let block_number_of_file := offset / BLOCK_SIZE
    let offset_of_block := offset - block_number_of_file * BLOCK_SIZE
    match fat_walk fat.table block_number_of_file file_dir.nStartBlock with
    | .error e => .error e
    | .ok curr_block =>
      let first :=
        if buffer_size ≥ BLOCK_SIZE then
          (fwrite_in_block d.blocks curr_block offset_of_block
              (buf.take (BLOCK_SIZE - offset_of_block)),
            buffer_size - (BLOCK_SIZE - offset_of_block))
        else
          (fwrite_bytes d.blocks curr_block offset_of_block
              (buf.take buffer_size ++ List.replicate (BLOCK_SIZE - buffer_size) 0),
            0)
      let buffer_bytes_remaining := first.2
      match first.1 with
      | .error e => .error e
      | .ok blocks1 =>
        let rest := (buf.take buffer_size).drop (buffer_size - buffer_bytes_remaining)
        match write_loop rest.length fat.table blocks1 curr_block rest with
        | .error e => .error e
        | .ok (.no_block blocks2) => .ok (-EPERM, { d with blocks := blocks2 })
        | .ok (.done table2 blocks2) =>
          let dir_entry1 : cs1550_directory_entry :=
            { dir_entry with
              files := dir_entry.files.set file_directory_index
                { file_dir with fsize := fsize_stored file_dir.fsize size offset buffer_size } }
          match fwrite_block blocks2 dir.nStartBlock (.dir dir_entry1) with
          | .error e => .error e
          | .ok blocks3 =>
            .ok (buffer_size,
              write_fat (write_root { d with blocks := blocks3 } root) ⟨table2⟩)

/-- The callback `cs1550_write(path, buf, size, offset, fi)`: the value
returned and the image afterwards.  `buf` is the memory at the pointer, which
`strlen` is applied to; every `fwrite` reaches the image at once. -/
def cs1550_write (d : Disk) (path : List Char) (buf : List Nat) (size : Nat) (offset : Nat) :
    Except Fault (Int × Disk) :=
  let p := strtok_path path
  let file_ext := p.2.2
  match p.1 with
  | none => .ok (size, d)
  | some directory =>
    if directory = [] then .ok (size, d) else
    match p.2.1 with
    | none => .ok (-EEXIST, d)
    | some file_name =>
      if file_name = [] then .ok (-EEXIST, d)
      else if nonempty_ptr file_ext ∧
          (file_name.length > MAX_FILENAME ∨ (file_ext.getD []).length > MAX_EXTENSION) then
        .ok (-ENAMETOOLONG, d)
      else if ¬ nonempty_ptr file_ext ∧ file_name.length > MAX_FILENAME then
        .ok (-ENAMETOOLONG, d)
      else
        let root := read_root d
        match root.directories.find? (fun c => directory == c.dname) with
        | none => .error .uninitialised
        | some dir =>
          if dir.dname = [] then .ok (size, d) else
          match fread_dir d.blocks dir.nStartBlock with
          | .error e => .error e
          | .ok none => .ok (-EPERM, d)
          | .ok (some dir_entry) =>
            match find_file file_name file_ext dir_entry.files 0 with
            | none => .error .uninitialised
            | some (file_directory_index, file_dir) =>
              if file_dir.fname = [] then .ok (-EISDIR, d)
              else write_to d dir dir_entry file_directory_index file_dir buf size offset

/-- The callback `cs1550_truncate(path, size)`. -/
def cs1550_truncate (d : Disk) (_path : List Char) (_size : Nat) : Except Fault (Int × Disk) :=
  .ok (0, d)

/-- The callback `cs1550_open(path, fi)`. -/
def cs1550_open (d : Disk) (_path : List Char) : Except Fault (Int × Disk) := .ok (0, d)

/-- The callback `cs1550_flush(path, fi)`. -/
def cs1550_flush (d : Disk) (_path : List Char) : Except Fault (Int × Disk) := .ok (0, d)

/-! ## Sizes of the structures on the disk -/

/-- Value of `sizeof(struct cs1550_file_directory)`, a packed structure:
`fname`, `fext`, `fsize`, `nStartBlock`. -/
def sizeof_cs1550_file_directory : Nat :=
  (MAX_FILENAME + 1) + (MAX_EXTENSION + 1) + sizeof_size_t + sizeof_long

/-- Value of `sizeof(struct cs1550_directory)`, a packed structure: `dname`,
`nStartBlock`. -/
def sizeof_cs1550_directory : Nat := (MAX_FILENAME + 1) + sizeof_long

/-- The length of `padding` in `struct cs1550_directory_entry`:
`BLOCK_SIZE - MAX_FILES_IN_DIR * sizeof(struct cs1550_file_directory) - sizeof(int)`
with the macro `MAX_FILES_IN_DIR` put in as the text it stands for, which has
no parentheses around it. -/
def directory_entry_padding : Nat :=
  BLOCK_SIZE
    - (BLOCK_SIZE - sizeof_int)
        / ((MAX_FILENAME + 1) + (MAX_EXTENSION + 1) + sizeof_size_t + sizeof_long)
        * sizeof_cs1550_file_directory
    - sizeof_int

/-- The length of `padding` in `struct cs1550_root_directory`, with the macro
`MAX_DIRS_IN_ROOT` put in as the text it stands for. -/
def root_directory_padding : Nat :=
  BLOCK_SIZE
    - (BLOCK_SIZE - sizeof_int) / ((MAX_FILENAME + 1) + sizeof_long) * sizeof_cs1550_directory
    - sizeof_int

/-- The size of a structure that starts with an `int`: the sum of its members,
which follow each other without gaps, rounded up to a multiple of the
alignment of `int`. -/
def struct_size (members : Nat) : Nat := (members + sizeof_int - 1) / sizeof_int * sizeof_int

/-- Value of `sizeof(struct cs1550_directory_entry)`: `nFiles`, the packed
array `files`, `padding`. -/
def sizeof_cs1550_directory_entry : Nat :=
  struct_size (sizeof_int + MAX_FILES_IN_DIR * sizeof_cs1550_file_directory
    + directory_entry_padding)

/-- Value of `sizeof(struct cs1550_root_directory)`: `nDirectories`, the
packed array `directories`, `padding`. -/
def sizeof_cs1550_root_directory : Nat :=
  struct_size (sizeof_int + MAX_DIRS_IN_ROOT * sizeof_cs1550_directory + root_directory_padding)

/-- Value of `sizeof(struct cs1550_file_alloc_table_block)`. -/
def sizeof_cs1550_fat_block : Nat := MAX_FAT_ENTRIES * sizeof_short

/-! ## The graphics library `project1/library.c` -/

/-- The loop `while(ms > 0)` of `sleep_ms`: the values of `tv_nsec` handed to
the `nanosleep` calls it makes, in order; `none` when the loop has not ended
after `fuel` rounds. -/
def sleep_loop : Nat → Int → Option (List Int)
  | 0, ms => if ms > 0 then none else some []
  | fuel + 1, ms =>
    if ms > 0 then
      let ms1 := ms - 999
      let tv_nsec : Int := if ms1 > 0 then 999000000 else (ms1 + 999) * 1000000
      (sleep_loop fuel ms1).map (fun l => tv_nsec :: l)
    else some []

/-- The function `sleep_ms(ms)`: the values of `tv_nsec` handed to its
`nanosleep` calls, in order (`tv_sec` is 0 in all of them).  Every round of
the loop takes 999 from `ms`, so `ms` rounds of fuel are enough. -/
def sleep_ms (ms : Int) : Option (List Int) :=
  if ms < 0 then some []
  else if ms ≤ 999 then some [ms * 1000000]
  else sleep_loop ms.toNat ms

/-- The function `draw_pixel(x, y, color)` on a screen of `xres_virtual` by
`yres_virtual` pixels: the framebuffer, an array of pixels, after the call. -/
def draw_pixel (xres_virtual yres_virtual : Nat) (framebuffer : List Nat) (x y : Int)
    (color : Nat) : Except Fault (List Nat) :=
  if x < 0 ∨ y < 0 ∨ x > xres_virtual ∨ y > yres_virtual then .ok framebuffer
  else
    let offset : Int := (y * xres_virtual) + x
    if offset.toNat < framebuffer.length then .ok (framebuffer.set offset.toNat color)
    else .error .out_of_bounds

/-! ## Paths and images the statements speak about -/

/-- The path `/dname`. -/
def dir_path (dname : List Char) : List Char := '/' :: dname

/-- The path `/dname/fname` or `/dname/fname.ext`. -/
def file_path (dname fname : List Char) (ext : Option (List Char)) : List Char :=
  match ext with
  | none => '/' :: (dname ++ '/' :: fname)
  | some e => '/' :: (dname ++ '/' :: (fname ++ '.' :: e))

/-- A path component made of ordinary characters: no slash, no dot, no white space. -/
def plain (s : List Char) : Prop := ∀ c ∈ s, c ≠ '/' ∧ c ≠ '.' ∧ isspace c = false

/-- An image of `n` zero blocks behind an empty root table and an empty
allocation table. -/
def fresh_disk (n : Nat) : Disk :=
  ⟨⟨0, List.replicate MAX_DIRS_IN_ROOT ⟨[], 0⟩⟩, ⟨List.replicate MAX_FAT_ENTRIES 0⟩,
   List.replicate n (.data zero_data)⟩

/-- The number of used slots of a root table: those with a name. -/
def used_dirs (root : cs1550_root_directory) : Nat :=
  (root.directories.filter (fun c => c.dname != [])).length


/-- The image `d` holds the file entry `f` under the path `/dname/fname` (no
`ext`) or `/dname/fname.ext`: the names are tokens within the 8.3 limits, the
root table lists `dname` with the entry `dir`, the block of `dir` is the
directory table `dir_entry`, and its slot `j` is the first one that holds the
name and extension, with the entry `f`. -/
structure file_at (d : Disk) (dname fname : List Char) (ext : Option (List Char))
    (dir : cs1550_directory) (dir_entry : cs1550_directory_entry) (j : Nat)
    (f : cs1550_file_directory) : Prop where
  dname_ne : dname ≠ []
  dname_slash : '/' ∉ dname
  fname_ne : fname ≠ []
  fname_dot : '.' ∉ fname
  fname_len : fname.length ≤ MAX_FILENAME
  ext_ok : ∀ e, ext = some e → e ≠ [] ∧ '.' ∉ e ∧ e.length ≤ MAX_EXTENSION
  in_root : d.root.directories.find? (fun c => dname == c.dname) = some dir
  block : fread_dir d.blocks dir.nStartBlock = .ok (some dir_entry)
  slot : find_file fname ext dir_entry.files 0 = some (j, f)


/-- An image with one directory `d` in block 2 that holds one file `f.txt` of
`fsize` bytes in block 3; the block of the file starts with `content`, and two
zero blocks follow it. -/
def disk_one_file (content : List Nat) (fsize : Nat) : Disk :=
  ⟨⟨1, ⟨['d'], 2⟩ :: List.replicate 28 ⟨[], 0⟩⟩,
   ⟨[0, 0, -1, -1] ++ List.replicate 252 0⟩,
   [.dir ⟨1, ⟨['f'], ['t', 'x', 't'], fsize, 3⟩ :: List.replicate 16 ⟨[], [], 0, 0⟩⟩,
    .data (content ++ List.replicate (512 - content.length) 0), .data zero_data, .data zero_data]⟩

/-- The directory table of `disk_one_file`. -/
def one_file_table (fsize : Nat) : cs1550_directory_entry :=
  ⟨1, ⟨['f'], ['t', 'x', 't'], fsize, 3⟩ :: List.replicate 16 ⟨[], [], 0, 0⟩⟩

/-- A root table whose first `n` slots are in use, named `A`, `B`, ... with
the blocks 2, 3, ... -/
def root_with_dirs (n : Nat) : cs1550_root_directory :=
  ⟨n, (List.range n).map (fun i => ⟨[Char.ofNat (65 + i)], (i : Int) + 2⟩)
      ++ List.replicate (MAX_DIRS_IN_ROOT - n) ⟨[], 0⟩⟩

/-- An image of 40 zero blocks with the `n` directories of `root_with_dirs`. -/
def disk_with_dirs (n : Nat) : Disk :=
  ⟨root_with_dirs n,
   ⟨[0, 0] ++ List.replicate n (-1) ++ List.replicate (MAX_FAT_ENTRIES - 2 - n) 0⟩,
   List.replicate 40 (.data zero_data)⟩

/-- The image a call leaves behind; `d` when the call ends in a fault. -/
def image_after (r : Except Fault (Int × Disk)) (d : Disk) : Disk :=
  match r with
  | .ok x => x.2
  | .error _ => d

/-- An image with one directory `d` in block 2 that holds no file yet, and
three zero blocks behind it. -/
def disk_one_dir : Disk :=
  ⟨⟨1, ⟨['d'], 2⟩ :: List.replicate 28 ⟨[], 0⟩⟩,
   ⟨[0, 0, -1] ++ List.replicate 253 0⟩,
   List.replicate 4 (.data zero_data)⟩

/-- An image with one directory `d` in block 2 that holds one file `f.txt` of
516 bytes in the chain of blocks 3 and 4; block 3 is full of `x`, block 4
starts with `tail`. -/
def disk_two_blocks (tail : List Nat) : Disk :=
  ⟨⟨1, ⟨['d'], 2⟩ :: List.replicate 28 ⟨[], 0⟩⟩,
   ⟨[0, 0, -1, 4, -1] ++ List.replicate 251 0⟩,
   [.dir ⟨1, ⟨['f'], ['t', 'x', 't'], 516, 3⟩ :: List.replicate 16 ⟨[], [], 0, 0⟩⟩,
    .data (List.replicate 512 120),
    .data (tail ++ List.replicate (512 - tail.length) 0), .data zero_data]⟩

/-- The path `/d/f.txt`. -/
def path_f : List Char := file_path ['d'] ['f'] (some ['t', 'x', 't'])

/-- An image with one directory `d` in block 2 and the file `f.txt` of `fsize`
bytes in block 3, as `disk_one_file`, in which no entry of the allocation
table from index 2 on is free. -/
def disk_full_fat (content : List Nat) (fsize : Nat) : Disk :=
  { disk_one_file content fsize with fat := ⟨[0, 0] ++ List.replicate 254 (-1)⟩ }

/-- The path `/d/g.txt`. -/
def path_g : List Char := file_path ['d'] ['g'] (some ['t', 'x', 't'])

/-- The used slots of the root table are its first `nDirectories` ones: the
count is between 0 and `MAX_DIRS_IN_ROOT`, the slots below it have a name and
the slots from it on have none. -/
def root_compact (root : cs1550_root_directory) : Prop :=
  0 ≤ root.nDirectories ∧ root.nDirectories ≤ MAX_DIRS_IN_ROOT ∧
  (∀ c ∈ root.directories.take root.nDirectories.toNat, c.dname ≠ []) ∧
  (∀ c ∈ root.directories.drop root.nDirectories.toNat, c.dname = [])

/-- The slot test of `cs1550_mknod` for a free slot: no name and no extension. -/
def free_slot (f : cs1550_file_directory) : Bool := f.fname == [] && f.fext == []

/-- An image with one directory `d` in block 2 whose 17 slots hold the files
`a.txt`, `b.txt`, ... in the blocks 3, 4, ... -/
def disk_full_dir : Disk :=
  ⟨⟨1, ⟨['d'], 2⟩ :: List.replicate 28 ⟨[], 0⟩⟩,
   ⟨[0, 0] ++ List.replicate 18 (-1) ++ List.replicate 236 0⟩,
   .dir ⟨17, (List.range 17).map (fun i => ⟨[Char.ofNat (97 + i)], ['t', 'x', 't'], 0, (i : Int) + 3⟩)⟩
     :: List.replicate 20 (.data zero_data)⟩

/-- An image with one directory `d` in block 2 that holds the file `f`,
without extension, in block 3. -/
def disk_no_ext : Disk :=
  ⟨⟨1, ⟨['d'], 2⟩ :: List.replicate 28 ⟨[], 0⟩⟩,
   ⟨[0, 0, -1, -1] ++ List.replicate 252 0⟩,
   [.dir ⟨1, ⟨['f'], [], 0, 3⟩ :: List.replicate 16 ⟨[], [], 0, 0⟩⟩,
    .data zero_data, .data zero_data, .data zero_data]⟩

/-- An image with one directory `d` in block 2 that holds the file
`notes.txt` in block 3. -/
def disk_notes : Disk :=
  ⟨⟨1, ⟨['d'], 2⟩ :: List.replicate 28 ⟨[], 0⟩⟩,
   ⟨[0, 0, -1, -1] ++ List.replicate 252 0⟩,
   [.dir ⟨1, ⟨['n', 'o', 't', 'e', 's'], ['t', 'x', 't'], 0, 3⟩ :: List.replicate 16 ⟨[], [], 0, 0⟩⟩,
    .data zero_data, .data zero_data, .data zero_data]⟩

/-- The callbacks `cs1550_getattr`, `cs1550_readdir` and `cs1550_read` give
on the image `d1` what they give on the image `d`, whatever they are asked. -/
def same_answers (d1 d : Disk) : Prop :=
  ∀ (q : List Char) (st : stat) (names : List (List Char)) (buf : List Nat) (n o : Nat),
    cs1550_getattr d1 q st = cs1550_getattr d q st ∧
    cs1550_readdir d1 q names = cs1550_readdir d q names ∧
    (cs1550_read d1 q buf n o).map (fun r => (r.1, r.2.1))
      = (cs1550_read d q buf n o).map (fun r => (r.1, r.2.1))

/-- An image with one directory `d` in block 2 that holds the files `f.txt`
in block 3 and `g.txt` in block 4, each of three bytes: `abc` and `xyz`. -/
def disk_two_files : Disk :=
  ⟨⟨1, ⟨['d'], 2⟩ :: List.replicate 28 ⟨[], 0⟩⟩,
   ⟨[0, 0, -1, -1, -1] ++ List.replicate 251 0⟩,
   [.dir ⟨2, ⟨['f'], ['t', 'x', 't'], 3, 3⟩ :: ⟨['g'], ['t', 'x', 't'], 3, 4⟩
      :: List.replicate 15 ⟨[], [], 0, 0⟩⟩,
    .data ([97, 98, 99] ++ List.replicate 509 0),
    .data ([120, 121, 122] ++ List.replicate 509 0), .data zero_data]⟩

/-- An image without directories whose block 2 holds an old directory table,
with the entry `old.txt`, and whose block 3 holds the bytes 7, 7, 7. -/
def disk_stale : Disk :=
  ⟨⟨0, List.replicate MAX_DIRS_IN_ROOT ⟨[], 0⟩⟩, ⟨List.replicate MAX_FAT_ENTRIES 0⟩,
   [.dir ⟨1, ⟨['o', 'l', 'd'], ['t', 'x', 't'], 5, 9⟩ :: List.replicate 16 ⟨[], [], 0, 0⟩⟩,
    .data ([7, 7, 7] ++ List.replicate 509 0), .data zero_data, .data zero_data]⟩

/-- An image with one directory `d` in block 2 that holds the file `f.txt`
of 511 bytes in block 3, whose allocation table has one free entry, at
index 4. -/
def disk_one_free : Disk :=
  { disk_one_file (List.replicate 511 97) 511 with
    fat := ⟨[0, 0, -1, -1, 0] ++ List.replicate 251 (-1)⟩ }

/-- The chain of blocks that starts at block `b` of the allocation table: the
blocks up to the one with the end-of-chain mark; `none` when the chain leaves
the blocks 2 .. 255 or has no end within `fuel` links. -/
def chain (table : List Int) : Nat → Int → Option (List Nat)
  | 0, _ => none
  | fuel + 1, b =>
    if b < START_ALLOC_BLOCK ∨ b ≥ MAX_FAT_ENTRIES then none
    else
      match table[b.toNat]? with
      | none => none
      | some v =>
        if v = EOF then some [b.toNat]
        else (chain table fuel v).map (fun l => b.toNat :: l)

/-- The number of free entries of an allocation table that the scan for a
free block can find: those with an index from `START_ALLOC_BLOCK` up to
`MAX_FAT_ENTRIES` that hold 0. -/
def free_entries (table : List Int) : Nat :=
  ((List.range' START_ALLOC_BLOCK (MAX_FAT_ENTRIES - START_ALLOC_BLOCK)).filter
    (fun k => table[k]? == some 0)).length

/-- The start blocks an image records: those of the named slots of the root
table, and those of the used slots of the blocks of these directories. -/
def start_blocks (d : Disk) : List Int :=
  let dirs := d.root.directories.filter (fun c => c.dname != [])
  dirs.map (fun c => c.nStartBlock) ++
    (dirs.map (fun c =>
      match fread_dir d.blocks c.nStartBlock with
      | .ok (some e) => (e.files.filter (fun f => !free_slot f)).map (fun f => f.nStartBlock)
      | _ => [])).flatten

/-- The allocation table of an image is well formed: the chain of every start
block stays within the blocks 2 .. 255 and ends with the end-of-chain mark, no
block is met twice in these chains, and every block from 2 to 255 that is in
none of them is free. -/
def fat_well_formed (d : Disk) : Bool :=
  let chains := (start_blocks d).map (chain d.fat.table MAX_FAT_ENTRIES)
  let used := (chains.map (fun c => c.getD [])).flatten
  chains.all (fun c => c.isSome) && decide used.Nodup &&
    (List.range' START_ALLOC_BLOCK (MAX_FAT_ENTRIES - START_ALLOC_BLOCK)).all
      (fun k => used.contains k || d.fat.table[k]? == some 0)

/-- An image without a free block: the directory `d` in block 2 holds the
file `f.txt`, whose chain runs through the blocks 3, 4, ... 255. -/
def disk_full_chain : Disk :=
  ⟨⟨1, ⟨['d'], 2⟩ :: List.replicate 28 ⟨[], 0⟩⟩,
   ⟨[0, 0, -1] ++ (List.range 252).map (fun (i : Nat) => (i : Int) + 4) ++ [-1]⟩,
   .dir ⟨1, ⟨['f'], ['t', 'x', 't'], 253 * 512, 3⟩ :: List.replicate 16 ⟨[], [], 0, 0⟩⟩
     :: List.replicate 253 (.data zero_data)⟩

/-- The used slots of a directory block: those with a name or an extension. -/
def used_files (e : cs1550_directory_entry) : List cs1550_file_directory :=
  e.files.filter (fun f => !free_slot f)

/-- The invariants of the root table: the count is at most `MAX_DIRS_IN_ROOT`
and is the number of used slots, and the names of the used slots are pairwise
distinct. -/
def root_table_ok (root : cs1550_root_directory) : Prop :=
  root.nDirectories ≤ MAX_DIRS_IN_ROOT ∧ root.nDirectories = used_dirs root ∧
  ((root.directories.filter (fun c => c.dname != [])).map (fun c => c.dname)).Nodup

/-- The invariants of a directory block: the count is at most
`MAX_FILES_IN_DIR` and is the number of used slots, and the pairs of name and
extension of the used slots are pairwise distinct. -/
def dir_table_ok (e : cs1550_directory_entry) : Prop :=
  e.nFiles ≤ MAX_FILES_IN_DIR ∧ e.nFiles = (used_files e).length ∧
  ((used_files e).map (fun f => (f.fname, f.fext))).Nodup

/-- The table invariants of an image: those of the root table, and those of
the block of every directory of the root table. -/
def tables_ok (d : Disk) : Prop :=
  root_table_ok d.root ∧
  ∀ c ∈ d.root.directories, c.dname ≠ [] →
    ∃ e, fread_dir d.blocks c.nStartBlock = .ok (some e) ∧ dir_table_ok e

/-- A call of `cs1550_mkdir` or of `cs1550_mknod`. -/
inductive fs_call where
  | mkdir (path : List Char)
  | mknod (path : List Char)
deriving DecidableEq, Repr

/-- The image after a sequence of calls, each on the image the one before it
has left. -/
def run_calls : Disk → List fs_call → Except Fault Disk
  | d, [] => .ok d
  | d, .mkdir path :: cs =>
    match cs1550_mkdir d path with
    | .error e => .error e
    | .ok (_, d1) => run_calls d1 cs
  | d, .mknod path :: cs =>
    match cs1550_mknod d path with
    | .error e => .error e
    | .ok (_, d1) => run_calls d1 cs

/-- What holds of the images that `cs1550_mkdir` and `cs1550_mknod` make of
an image of zero blocks with an empty root table: the root table has its 29
slots and is in order, the block of every directory is inside the image, and
every block of the image is a directory table of 17 slots that is in order. -/
structure tables_inv (d : Disk) : Prop where
  slots : d.root.directories.length = MAX_DIRS_IN_ROOT
  root_ok : root_table_ok d.root
  inside : ∀ c ∈ d.root.directories, c.dname ≠ [] →
    ∃ b, fread_block d.blocks c.nStartBlock = .ok (some b)
  tables : ∀ b ∈ d.blocks, ∃ e, b.asDir = some e ∧ e.files.length = MAX_FILES_IN_DIR ∧
    dir_table_ok e

/-- The image a sequence of calls leaves behind; `d` when it ends in a fault. -/
def image_of (r : Except Fault Disk) (d : Disk) : Disk :=
  match r with
  | .ok x => x
  | .error _ => d

/-- The three components `cs1550_mknod`, `cs1550_read` and `cs1550_write` take
from a path with `strtok`, a `NULL` read as the empty string. -/
def strtok_triple (path : List Char) : List Char × List Char × List Char :=
  ((strtok_path path).1.getD [], (strtok_path path).2.1.getD [], (strtok_path path).2.2.getD [])

/-- A call of one of the callbacks of the file system, with its arguments. -/
inductive fs_op where
  | op_getattr (path : List Char) (stbuf : stat)
  | op_readdir (path : List Char) (buf : List (List Char))
  | op_mkdir (path : List Char)
  | op_rmdir (path : List Char)
  | op_mknod (path : List Char)
  | op_unlink (path : List Char)
  | op_read (path : List Char) (buf : List Nat) (size offset : Nat)
  | op_write (path : List Char) (buf : List Nat) (size offset : Nat)
  | op_truncate (path : List Char) (size : Nat)
  | op_open (path : List Char)
  | op_flush (path : List Char)
deriving DecidableEq, Repr

/-- The image a call of a callback leaves behind. -/
def apply_op (d : Disk) : fs_op → Except Fault Disk
  | .op_getattr path stbuf => (cs1550_getattr d path stbuf).map (fun _ => d)
  | .op_readdir path buf => (cs1550_readdir d path buf).map (fun _ => d)
  | .op_mkdir path => (cs1550_mkdir d path).map (fun r => r.2)
  | .op_rmdir path => (cs1550_rmdir d path).map (fun r => r.2)
  | .op_mknod path => (cs1550_mknod d path).map (fun r => r.2)
  | .op_unlink path => (cs1550_unlink d path).map (fun r => r.2)
  | .op_read path buf size offset => (cs1550_read d path buf size offset).map (fun r => r.2.2)
  | .op_write path buf size offset => (cs1550_write d path buf size offset).map (fun r => r.2)
  | .op_truncate path size => (cs1550_truncate d path size).map (fun r => r.2)
  | .op_open path => (cs1550_open d path).map (fun r => r.2)
  | .op_flush path => (cs1550_flush d path).map (fun r => r.2)

/-- The image after a sequence of calls of the callbacks, each on the image
the one before it has left. -/
def run_ops : Disk → List fs_op → Except Fault Disk
  | d, [] => .ok d
  | d, op :: ops =>
    match apply_op d op with
    | .error e => .error e
    | .ok d1 => run_ops d1 ops

/-- An image with the zeroed root table, the allocation table `fat` and the
blocks `blocks`. -/
def zeroed_root_disk (fat : cs1550_fat_block) (blocks : List Block) : Disk :=
  ⟨⟨0, List.replicate MAX_DIRS_IN_ROOT ⟨[], 0⟩⟩, fat, blocks⟩

/-- A sequence of calls for an example: `mkdir /a`, `mknod /a/f.txt`, a write
of `hi` to `/a/f.txt`, a read of it, `mkdir /b`, `rmdir /a`, `getattr /b`. -/
def ops_example : List fs_op :=
  [.op_mkdir (dir_path ['a']), .op_mknod (file_path ['a'] ['f'] (some ['t', 'x', 't'])),
   .op_write (file_path ['a'] ['f'] (some ['t', 'x', 't'])) [104, 105, 0] 2 0,
   .op_read (file_path ['a'] ['f'] (some ['t', 'x', 't'])) (List.replicate 600 0) 2 0,
   .op_mkdir (dir_path ['b']), .op_rmdir (dir_path ['a']),
   .op_getattr (dir_path ['b']) zero_stat]

/-- The image `ops_example` leaves of an image of eight zero blocks with the
zeroed root table and an empty allocation table. -/
def disk_after_ops : Disk :=
  image_of (run_ops (zeroed_root_disk ⟨List.replicate MAX_FAT_ENTRIES 0⟩
    (List.replicate 8 (.data zero_data))) ops_example) (fresh_disk 0)
/-! ## Parsing of paths -/

theorem takeWhile_ne_append (tok r : List Char) (c : Char) (h : c ∉ tok) :
    (tok ++ c :: r).takeWhile (fun x => x != c) = tok := by
  induction tok with
  | nil => simp
  | cons a t ih =>
    simp only [List.mem_cons, not_or] at h
    have : (a != c) = true := by simp; exact fun e => h.1 e.symm
    simp [List.takeWhile, this, ih h.2]

theorem dropWhile_ne_append (tok r : List Char) (c : Char) (h : c ∉ tok) :
    (tok ++ c :: r).dropWhile (fun x => x != c) = c :: r := by
  induction tok with
  | nil => simp
  | cons a t ih =>
    simp only [List.mem_cons, not_or] at h
    have : (a != c) = true := by simp; exact fun e => h.1 e.symm
    simp [List.dropWhile, this, ih h.2]

theorem takeWhile_ne_self (tok : List Char) (c : Char) (h : c ∉ tok) :
    tok.takeWhile (fun x => x != c) = tok := by
  have := takeWhile_ne_append tok [] c h
  induction tok with
  | nil => simp
  | cons a t ih =>
    simp only [List.mem_cons, not_or] at h
    have h1 : (a != c) = true := by simp; exact fun e => h.1 e.symm
    simp only [List.takeWhile, h1]
    rw [ih h.2 (takeWhile_ne_append t [] c h.2)]

theorem dropWhile_ne_self (tok : List Char) (c : Char) (h : c ∉ tok) :
    tok.dropWhile (fun x => x != c) = [] := by
  induction tok with
  | nil => simp
  | cons a t ih =>
    simp only [List.mem_cons, not_or] at h
    have h1 : (a != c) = true := by simp; exact fun e => h.1 e.symm
    simp only [List.dropWhile, h1, ih h.2]

theorem dropWhile_eq_head (a : Char) (t : List Char) (c : Char) (h : a ≠ c) :
    (a :: t).dropWhile (fun x => x == c) = a :: t := by
  have : (a == c) = false := by simp [h]
  simp only [List.dropWhile, this]

/-- `strtok` on a token that is followed by the delimiter. -/
theorem strtok_token_delim (tok r : List Char) (c : Char) (hne : tok ≠ []) (h : c ∉ tok) :
    strtok (tok ++ c :: r) c = (some tok, r) := by
  cases tok with
  | nil => exact absurd rfl hne
  | cons a t =>
    have ha : a ≠ c := by
      simp only [List.mem_cons, not_or] at h
      exact fun e => h.1 e.symm
    have h1 := takeWhile_ne_append (a :: t) r c h
    have h2 := dropWhile_ne_append (a :: t) r c h
    simp only [List.cons_append] at h1 h2
    simp only [strtok, List.cons_append, dropWhile_eq_head _ _ _ ha, h1, h2, List.drop_succ_cons,
      List.drop_zero]

/-- `strtok` on a token that ends the string. -/
theorem strtok_token_end (tok : List Char) (c : Char) (hne : tok ≠ []) (h : c ∉ tok) :
    strtok tok c = (some tok, []) := by
  cases tok with
  | nil => exact absurd rfl hne
  | cons a t =>
    have ha : a ≠ c := by
      simp only [List.mem_cons, not_or] at h
      exact fun e => h.1 e.symm
    have h1 := takeWhile_ne_self (a :: t) c h
    have h2 := dropWhile_ne_self (a :: t) c h
    simp only [strtok, dropWhile_eq_head _ _ _ ha, h1, h2, List.drop_nil]

theorem strtok_leading (s : List Char) (c : Char) : strtok (c :: s) c = strtok s c := by
  simp [strtok, List.dropWhile]


theorem plain_no_slash {s : List Char} (h : plain s) : '/' ∉ s :=
  fun hm => (h _ hm).1 rfl

theorem plain_no_dot {s : List Char} (h : plain s) : '.' ∉ s :=
  fun hm => (h _ hm).2.1 rfl

theorem strtok_nil (c : Char) : strtok [] c = (none, []) := rfl

/-- The three tokens of `/dname`. -/
theorem strtok_path_dir (dname : List Char) (hne : dname ≠ []) (hs : '/' ∉ dname) :
    strtok_path (dir_path dname) = (some dname, none, none) := by
  simp only [strtok_path, dir_path, strtok_leading, strtok_token_end dname '/' hne hs, strtok_nil]

/-- The three tokens of `/dname/fname` and `/dname/fname.ext`. -/
theorem strtok_path_file (dname fname : List Char) (ext : Option (List Char))
    (hne : dname ≠ []) (hs : '/' ∉ dname) (hfne : fname ≠ []) (hf : '.' ∉ fname)
    (he : ∀ e, ext = some e → e ≠ [] ∧ '.' ∉ e) :
    strtok_path (file_path dname fname ext) = (some dname, some fname, ext) := by
  cases ext with
  | none =>
    simp only [strtok_path, file_path, strtok_leading, strtok_token_delim dname _ '/' hne hs,
      strtok_token_end fname '.' hfne hf, strtok_nil]
  | some e =>
    obtain ⟨h1, h2⟩ := he e rfl
    simp only [strtok_path, file_path, strtok_leading, strtok_token_delim dname _ '/' hne hs,
      strtok_token_delim fname _ '.' hfne hf, strtok_token_end e '.' h1 h2]

theorem dropWhile_isspace_plain (e : List Char) (h : ∀ c ∈ e, isspace c = false) :
    e.dropWhile isspace = e := by
  cases e with
  | nil => rfl
  | cons a t => simp only [List.dropWhile, h a (List.mem_cons_self a t)]

theorem takeWhile_not_isspace_plain (e : List Char) (h : ∀ c ∈ e, isspace c = false) :
    e.takeWhile (fun x => !isspace x) = e := by
  induction e with
  | nil => rfl
  | cons a t ih =>
    have ha := h a (List.mem_cons_self a t)
    simp only [List.takeWhile, ha, Bool.not_false]
    rw [ih (fun c hc => h c (List.mem_cons_of_mem a hc))]

/-- What the conversions of `sscanf` match in `/dname`. -/
theorem sscanf_fields_dir (dname : List Char) (hne : dname ≠ []) (hs : '/' ∉ dname) :
    sscanf_fields (dir_path dname) = (dname, [], []) := by
  have h1 := takeWhile_ne_self dname '/' hs
  have h2 := dropWhile_ne_self dname '/' hs
  have h3 : dname.isEmpty = false := by cases dname <;> simp_all
  simp [sscanf_fields, dir_path, h1, h2, h3]

/-- What the conversions of `sscanf` match in `/dname/fname` and
`/dname/fname.ext`. -/
theorem sscanf_fields_file (dname fname : List Char) (ext : Option (List Char))
    (hne : dname ≠ []) (hs : '/' ∉ dname) (hfne : fname ≠ []) (hf : '.' ∉ fname)
    (he : ∀ e, ext = some e → ∀ c ∈ e, isspace c = false) :
    sscanf_fields (file_path dname fname ext) = (dname, fname, ext.getD []) := by
  have h3 : dname.isEmpty = false := by cases dname <;> simp_all
  have h4 : fname.isEmpty = false := by cases fname <;> simp_all
  cases ext with
  | none =>
    have h1 := takeWhile_ne_append dname fname '/' hs
    have h2 := dropWhile_ne_append dname fname '/' hs
    have h5 := takeWhile_ne_self fname '.' hf
    have h6 := dropWhile_ne_self fname '.' hf
    simp [sscanf_fields, file_path, h1, h2, h3, h4, h5, h6]
  | some e =>
    have h1 := takeWhile_ne_append dname (fname ++ '.' :: e) '/' hs
    have h2 := dropWhile_ne_append dname (fname ++ '.' :: e) '/' hs
    have h5 := takeWhile_ne_append fname e '.' hf
    have h6 := dropWhile_ne_append fname e '.' hf
    have h7 := dropWhile_isspace_plain e (he e rfl)
    have h8 := takeWhile_not_isspace_plain e (he e rfl)
    simp [sscanf_fields, file_path, h1, h2, h3, h4, h5, h6, h7, h8]

/-- What `sscanf` leaves in the arrays on `/dname`, the name fitting its
array. -/
theorem sscanf_path_dir (dname : List Char) (hne : dname ≠ []) (hs : '/' ∉ dname)
    (hdlen : dname.length ≤ MAX_FILENAME) :
    sscanf_path (dir_path dname) = .ok (dname, [], []) := by
  have h1 : ¬ (dname.length > MAX_FILENAME) := by omega
  simp only [sscanf_path, sscanf_fields_dir dname hne hs, h1, List.length_nil, gt_iff_lt,
    Nat.not_lt_zero, or_self, if_false]

/-- What `sscanf` leaves in the arrays on `/dname/fname` and
`/dname/fname.ext`, every component fitting its array. -/
theorem sscanf_path_file (dname fname : List Char) (ext : Option (List Char))
    (hne : dname ≠ []) (hs : '/' ∉ dname) (hdlen : dname.length ≤ MAX_FILENAME)
    (hfne : fname ≠ []) (hf : '.' ∉ fname) (hflen : fname.length ≤ MAX_FILENAME)
    (he : ∀ e, ext = some e → (∀ c ∈ e, isspace c = false) ∧ e.length ≤ MAX_EXTENSION) :
    sscanf_path (file_path dname fname ext) = .ok (dname, fname, ext.getD []) := by
  have h1 : ¬ (dname.length > MAX_FILENAME) := by omega
  have h2 : ¬ (fname.length > MAX_FILENAME) := by omega
  have h3 : ¬ ((ext.getD []).length > MAX_EXTENSION) := by
    cases ext with
    | none => simp [MAX_EXTENSION]
    | some e => have := (he e rfl).2; simp only [Option.getD_some]; omega
  simp only [sscanf_path, sscanf_fields_file dname fname ext hne hs hfne hf (fun e h => (he e h).1),
    h1, h2, h3, or_self, if_false]

/-- A component that does not fit its array makes `sscanf` write past the end
of the array. -/
theorem sscanf_path_overflow (path : List Char)
    (h : (sscanf_fields path).1.length > MAX_FILENAME
      ∨ (sscanf_fields path).2.1.length > MAX_FILENAME
      ∨ (sscanf_fields path).2.2.length > MAX_EXTENSION) :
    sscanf_path path = .error .out_of_bounds := by
  simp only [sscanf_path, h, if_true]


/-! ## The search for a file -/

theorem find_file_matches (fn : List Char) (fe : Option (List Char))
    (files : List cs1550_file_directory) (j0 j : Nat) (f : cs1550_file_directory)
    (h : find_file fn fe files j0 = some (j, f)) : file_matches fn fe f = true := by
  induction files generalizing j0 with
  | nil => simp [find_file] at h
  | cons a t ih =>
    simp only [find_file] at h
    split at h
    · rename_i hm
      simp only [Option.some.injEq, Prod.mk.injEq] at h
      rw [← h.2]; exact hm
    · exact ih _ h

theorem file_matches_fname (fn : List Char) (fe : Option (List Char))
    (f : cs1550_file_directory) (h : file_matches fn fe f = true) : f.fname = fn := by
  simp only [file_matches, Bool.and_eq_true, beq_iff_eq] at h
  exact h.1

theorem nonempty_ptr_some (e : List Char) (h : e ≠ []) : nonempty_ptr (some e) = true := by
  cases e with
  | nil => exact absurd rfl h
  | cons a t => rfl

/-- The checks of the names that open `cs1550_mknod`, `cs1550_read` and
`cs1550_write` let a file name and extension within the limits pass. -/
theorem name_checks_pass (fname : List Char) (ext : Option (List Char))
    (hflen : fname.length ≤ MAX_FILENAME)
    (he : ∀ e, ext = some e → e ≠ [] ∧ '.' ∉ e ∧ e.length ≤ MAX_EXTENSION) :
    ¬ (nonempty_ptr ext = true ∧
        (fname.length > MAX_FILENAME ∨ (ext.getD []).length > MAX_EXTENSION)) ∧
    ¬ (¬ nonempty_ptr ext = true ∧ fname.length > MAX_FILENAME) := by
  constructor
  · rintro ⟨_, h | h⟩
    · omega
    · cases ext with
      | none => simp [MAX_EXTENSION] at h
      | some e => have := (he e rfl).2.2; simp only [Option.getD_some] at h; omega
  · rintro ⟨_, h⟩; omega

/-- On the path of an existing file `cs1550_read` reaches the test of the offset. -/
theorem read_at_file {d : Disk} {dname fname : List Char} {ext : Option (List Char)}
    {dir : cs1550_directory} {dir_entry : cs1550_directory_entry} {j : Nat}
    {f : cs1550_file_directory} (h : file_at d dname fname ext dir dir_entry j f)
    (buf : List Nat) (size offset : Nat) :
    cs1550_read d (file_path dname fname ext) buf size offset = read_from d f buf offset := by
  have hp := strtok_path_file dname fname ext h.dname_ne h.dname_slash h.fname_ne h.fname_dot
    (fun e he => ⟨(h.ext_ok e he).1, (h.ext_ok e he).2.1⟩)
  have hc := name_checks_pass fname ext h.fname_len h.ext_ok
  have hdn : dir.dname ≠ [] := by
    have := List.find?_some h.in_root
    simp only [beq_iff_eq] at this
    rw [← this]; exact h.dname_ne
  have hfn : f.fname ≠ [] := by
    rw [file_matches_fname _ _ _ (find_file_matches _ _ _ _ _ _ h.slot)]; exact h.fname_ne
  simp only [cs1550_read, hp, h.dname_ne, h.fname_ne, if_false, hc.1, hc.2, read_root, h.in_root,
    hdn, h.block, h.slot, hfn]

/-- On the path of an existing file `cs1550_write` reaches the call of `strlen`. -/
theorem write_at_file {d : Disk} {dname fname : List Char} {ext : Option (List Char)}
    {dir : cs1550_directory} {dir_entry : cs1550_directory_entry} {j : Nat}
    {f : cs1550_file_directory} (h : file_at d dname fname ext dir dir_entry j f)
    (buf : List Nat) (size offset : Nat) :
    cs1550_write d (file_path dname fname ext) buf size offset
      = write_to d dir dir_entry j f buf size offset := by
  have hp := strtok_path_file dname fname ext h.dname_ne h.dname_slash h.fname_ne h.fname_dot
    (fun e he => ⟨(h.ext_ok e he).1, (h.ext_ok e he).2.1⟩)
  have hc := name_checks_pass fname ext h.fname_len h.ext_ok
  have hdn : dir.dname ≠ [] := by
    have := List.find?_some h.in_root
    simp only [beq_iff_eq] at this
    rw [← this]; exact h.dname_ne
  have hfn : f.fname ≠ [] := by
    rw [file_matches_fname _ _ _ (find_file_matches _ _ _ _ _ _ h.slot)]; exact h.fname_ne
  simp only [cs1550_write, hp, h.dname_ne, h.fname_ne, if_false, hc.1, hc.2, read_root, h.in_root,
    hdn, h.block, h.slot, hfn]


/-! ## Allocation and the root table -/

theorem to_size_t_natCast (k : Nat) (h : k < 2 ^ 64) : to_size_t (k : Int) = k := by
  unfold to_size_t
  omega

/-- The scan for a free block finds one when there is one in its range. -/
theorem first_free_from_some (table : List Int) (n j0 : Nat)
    (h : ∃ k, j0 ≤ k ∧ k < j0 + n ∧ table[k]? = some 0) :
    ∃ j, first_free_from table n j0 = some j ∧ j0 ≤ j ∧ j < j0 + n ∧ table[j]? = some 0 := by
  induction n generalizing j0 with
  | zero => obtain ⟨k, h1, h2, _⟩ := h; omega
  | succ n ih =>
    by_cases hj : table[j0]? = some 0
    · exact ⟨j0, by simp [first_free_from, hj], Nat.le_refl _, by omega, hj⟩
    · obtain ⟨k, h1, h2, h3⟩ := h
      have hk : j0 ≠ k := fun e => hj (e ▸ h3)
      obtain ⟨j, e1, e2, e3, e4⟩ := ih (j0 + 1) ⟨k, by omega, by omega, h3⟩
      exact ⟨j, by simp [first_free_from, hj, e1], by omega, by omega, e4⟩

/-- In a root table with an unused slot, `cs1550_mkdir` finds the first one,
and the loop of `cs1550_getattr` over as many slots as there are used ones
after the insertion stops at the inserted entry. -/
theorem mkdir_slot (l : List cs1550_directory) (x : cs1550_directory)
    (hnew : ∀ c ∈ l, c.dname ≠ x.dname)
    (hlt : (l.filter (fun c => c.dname != [])).length < l.length) :
    ∃ i, l.findIdx? (fun c => c.dname == []) = some i ∧ i < l.length ∧
      ∀ m, (l.filter (fun c => c.dname != [])).length < m →
        ((l.set i x).take m).find? (fun c => c.dname == x.dname) = some x := by
  induction l with
  | nil => simp at hlt
  | cons a t ih =>
    by_cases ha : a.dname = []
    · have hb : (a.dname == []) = true := by rw [beq_iff_eq]; exact ha
      refine ⟨0, by simp only [List.findIdx?_cons, hb, if_true], by simp, ?_⟩
      intro m hm
      cases m with
      | zero => omega
      | succ m => simp [List.find?]
    · have hnew1 : ∀ c ∈ t, c.dname ≠ x.dname := fun c hc => hnew c (List.mem_cons_of_mem a hc)
      have hfa : (List.filter (fun c => c.dname != []) (a :: t)).length
          = (List.filter (fun c => c.dname != []) t).length + 1 := by
        have hb : (a.dname != []) = true := by rw [bne_iff_ne]; exact ha
        simp only [List.filter, hb, List.length_cons]
      rw [hfa] at hlt
      obtain ⟨i, e1, e2, e3⟩ := ih hnew1 (by simpa using hlt)
      refine ⟨i + 1, ?_, by simpa using e2, ?_⟩
      · have hb : (a.dname == []) = false := by rw [beq_eq_false_iff_ne]; exact ha
        simp only [List.findIdx?_cons, hb, List.findIdx?_succ, e1, Option.map_some', Nat.zero_add]
        simp
      · intro m hm
        rw [hfa] at hm
        cases m with
        | zero => omega
        | succ m =>
          have hax : (a.dname == x.dname) = false := by
            simpa using hnew a (List.mem_cons_self a t)
          simp only [List.set_cons_succ, List.take_succ_cons, List.find?, hax]
          exact e3 m (by omega)


theorem fread_block_inside (blocks : List Block) (j : Nat) (h2 : 2 ≤ j)
    (hj : j - 2 < blocks.length) :
    ∃ b, fread_block blocks (j : Int) = .ok (some b) := by
  have h1 : ¬ ((j : Int) < 0) := by omega
  have h3 : ¬ ((j : Int) < 2) := by omega
  have h4 : ((j : Int) - 2).toNat = j - 2 := by omega
  refine ⟨blocks[j - 2], ?_⟩
  simp only [fread_block, h1, h3, if_false, h4, List.getElem?_eq_getElem hj]

theorem fwrite_block_inside (blocks : List Block) (j : Nat) (b : Block) (h2 : 2 ≤ j)
    (hj : j - 2 < blocks.length) :
    fwrite_block blocks (j : Int) b = .ok (blocks.set (j - 2) b) := by
  have h1 : ¬ ((j : Int) < 0) := by omega
  have h3 : ¬ ((j : Int) < 2) := by omega
  have h4 : ((j : Int) - 2).toNat = j - 2 := by omega
  simp only [fwrite_block, h1, h3, if_false, h4, hj, if_true]



/-- `cs1550_mkdir` never takes the count of the root table past `MAX_DIRS_IN_ROOT`. -/
theorem mkdir_count_le (d : Disk) (path : List Char) (r : Int) (d1 : Disk)
    (h0 : 0 ≤ d.root.nDirectories) (hle : d.root.nDirectories ≤ MAX_DIRS_IN_ROOT)
    (h : cs1550_mkdir d path = .ok (r, d1)) :
    d1.root.nDirectories ≤ MAX_DIRS_IN_ROOT := by
  unfold cs1550_mkdir at h
  simp only [read_root, read_fat] at h
  repeat' split at h
  all_goals first
    | (cases h; done)
    | (simp only [Except.ok.injEq, Prod.mk.injEq] at h; obtain ⟨_, rfl⟩ := h; first | exact hle | skip)
  rename_i hcap _ _ _ _ _ _ _ _ _ _
  simp only [write_fat, write_root]
  simp only [to_size_t, MAX_DIRS_IN_ROOT, BLOCK_SIZE, sizeof_int, MAX_FILENAME, sizeof_long] at *
  omega


theorem findIdx?_lt_length {α : Type} (p : α → Bool) (l : List α) (i : Nat)
    (h : l.findIdx? p = some i) : i < l.length := by
  rw [List.findIdx?_eq_some_iff_getElem] at h
  exact h.1

theorem any_set_self {α : Type} (p : α → Bool) (l : List α) (i : Nat) (x : α)
    (hi : i < l.length) (hx : p x = true) : (l.set i x).any p = true := by
  induction l generalizing i with
  | nil => simp at hi
  | cons a t ih =>
    cases i with
    | zero => simp [hx]
    | succ i =>
      simp only [List.set_cons_succ, List.any_cons, Bool.or_eq_true]
      exact Or.inr (ih i (by simpa using hi))


/-! ## Names over their limits -/

theorem file_path_length (dname fname : List Char) (ext : Option (List Char)) :
    (file_path dname fname ext).length ≠ 1 := by
  cases ext <;> simp [file_path]

theorem dir_path_length (dname : List Char) (hne : dname ≠ []) : (dir_path dname).length ≠ 1 := by
  cases dname with
  | nil => exact absurd rfl hne
  | cons a t => simp [dir_path]

theorem ite_either {α : Type} (c1 c2 : Prop) {i1 : Decidable c1} {i2 : Decidable c2} (a b : α)
    (h : c1 ∨ c2) : (if c1 then a else if c2 then a else b) = a := by
  by_cases h1 : c1
  · simp only [h1, if_true]
  · have h2 : c2 := h.resolve_left h1
    simp only [h1, h2, if_false, if_true]

/-- The first token of `/dname/...` is `dname`. -/
theorem strtok_file_path (dname fname : List Char) (ext : Option (List Char))
    (hne : dname ≠ []) (hs : '/' ∉ dname) :
    (strtok (file_path dname fname ext) '/').1 = some dname := by
  cases ext <;> simp only [file_path, strtok_leading, strtok_token_delim dname _ '/' hne hs]


/-! ## The size `cs1550_write` stores -/

/-- A directory block that has just been written reads back. -/
theorem fread_dir_fwrite_block (blocks blocks1 : List Block) (n : Int)
    (e : cs1550_directory_entry) (h : fwrite_block blocks n (.dir e) = .ok blocks1) :
    fread_dir blocks1 n = .ok (some e) := by
  unfold fwrite_block at h
  split at h
  · cases h
  · split at h
    · cases h
    · split at h
      · rename_i h1 h2 h3
        simp only [Except.ok.injEq] at h
        subst h
        simp only [fread_dir, fread_block, h1, h2, if_false, List.getElem?_set_self h3, Block.asDir]
      · cases h

/-- What a call of `write_to` that returns no error has done to the entry. -/
theorem write_to_ok (d : Disk) (dir : cs1550_directory) (dir_entry : cs1550_directory_entry)
    (j : Nat) (f : cs1550_file_directory) (buf : List Nat) (size offset n : Nat) (r : Int)
    (d1 : Disk) (hbuf : strlen buf = some n)
    (hw : write_to d dir dir_entry j f buf size offset = .ok (r, d1)) (hr : 0 ≤ r) :
    r = n ∧ d1.root = d.root ∧
    fread_dir d1.blocks dir.nStartBlock = .ok (some
      { dir_entry with
        files := dir_entry.files.set j { f with fsize := fsize_stored f.fsize size offset n } }) := by
  unfold write_to at hw
  simp only [hbuf, read_root, read_fat] at hw
  repeat' split at hw
  all_goals first
    | (cases hw; done)
    | (simp only [Except.ok.injEq, Prod.mk.injEq] at hw
       obtain ⟨rfl, rfl⟩ := hw
       first
         | (exfalso; revert hr; decide)
         | skip)
  all_goals
    rename_i hfw
    exact ⟨rfl, rfl, fread_dir_fwrite_block _ _ _ _ hfw⟩


theorem find_file_ge (fn : List Char) (fe : Option (List Char))
    (files : List cs1550_file_directory) (j0 j : Nat) (f : cs1550_file_directory)
    (h : find_file fn fe files j0 = some (j, f)) : j0 ≤ j := by
  induction files generalizing j0 with
  | nil => simp [find_file] at h
  | cons a t ih =>
    simp only [find_file] at h
    split at h
    · simp only [Option.some.injEq, Prod.mk.injEq] at h
      omega
    · have := ih _ h
      omega

/-- The search finds the entry again after the slot it stopped at was
rewritten with the same name and extension. -/
theorem find_file_set (fn : List Char) (fe : Option (List Char))
    (files : List cs1550_file_directory) (j0 j : Nat) (f f1 : cs1550_file_directory)
    (h : find_file fn fe files j0 = some (j, f)) (hm : file_matches fn fe f1 = true) :
    find_file fn fe (files.set (j - j0) f1) j0 = some (j, f1) := by
  induction files generalizing j0 with
  | nil => simp [find_file] at h
  | cons a t ih =>
    simp only [find_file] at h
    split at h
    · simp only [Option.some.injEq, Prod.mk.injEq] at h
      obtain ⟨rfl, _⟩ := h
      simp only [Nat.sub_self, List.set_cons_zero, find_file, hm, if_true]
    · rename_i hna
      have hge := find_file_ge _ _ _ _ _ _ h
      have e : j - j0 = (j - (j0 + 1)) + 1 := by omega
      rw [e, List.set_cons_succ]
      simp only [find_file, hna, if_false]
      exact ih _ h

/-- The size `cs1550_write` stores when the whole buffer of `n` bytes is
written at offset `o` of an entry of size `s`. -/
theorem fsize_stored_eq (s n o : Nat) (ho : o ≤ s) :
    (((BLOCK_SIZE ≤ n ∧ o ≠ n) ∨ (n < BLOCK_SIZE ∧ (o = s ∨ s ≤ n))) →
      fsize_stored s n o n = max s (o + n)) ∧
    ((n < BLOCK_SIZE ∧ o = 0 ∧ 0 < n ∧ n < s) → fsize_stored s n o n = n) := by
  unfold fsize_stored fsize_first
  simp only [BLOCK_SIZE]
  constructor
  · intro h
    split_ifs <;> omega
  · intro h
    split_ifs <;> omega

/-! ## File creation and attributes -/

/-- `strtok` finds a token in a string that holds a character other than the
delimiter. -/
theorem strtok_some (s : List Char) (c : Char) (h : ∃ x ∈ s, x ≠ c) :
    ∃ tok, (strtok s c).1 = some tok ∧ tok ≠ [] := by
  induction s with
  | nil => obtain ⟨x, hx, _⟩ := h; simp at hx
  | cons a t ih =>
    by_cases ha : a = c
    · subst ha
      rw [strtok_leading]
      obtain ⟨x, hx, hne⟩ := h
      simp only [List.mem_cons] at hx
      rcases hx with rfl | hx
      · exact absurd rfl hne
      · exact ih ⟨x, hx, hne⟩
    · have hb : (a != c) = true := by rw [bne_iff_ne]; exact ha
      refine ⟨(a :: t).takeWhile (fun x => x != c), ?_, ?_⟩
      · simp only [strtok, dropWhile_eq_head a t c ha]
      · simp only [List.takeWhile, hb]
        exact List.cons_ne_nil _ _

/-- The first `strtok` call on `/dname/rest`: the token and the text left. -/
theorem strtok_dir_rest (dname rest : List Char) (hne : dname ≠ []) (hs : '/' ∉ dname) :
    strtok ('/' :: (dname ++ '/' :: rest)) '/' = (some dname, rest) := by
  rw [strtok_leading, strtok_token_delim dname rest '/' hne hs]

/-- No call of `cs1550_mknod` returns `-ENOENT`. -/
theorem mknod_never_enoent (d : Disk) (path : List Char) (d1 : Disk) :
    cs1550_mknod d path ≠ .ok (-ENOENT, d1) := by
  intro h
  unfold cs1550_mknod at h
  simp only [read_root, read_fat] at h
  repeat' split at h
  all_goals cases h

/-- A search for a name that is not empty finds in the first `nDirectories`
slots what it finds in all of them. -/
theorem find_take_of_compact (root : cs1550_root_directory) (dname : List Char)
    (hroot : root_compact root) (hne : dname ≠ []) :
    (root.directories.take root.nDirectories.toNat).find? (fun c => c.dname == dname)
      = root.directories.find? (fun c => c.dname == dname) := by
  have hd : (root.directories.drop root.nDirectories.toNat).find? (fun c => c.dname == dname)
      = none := by
    rw [List.find?_eq_none]
    intro c hc
    have := hroot.2.2.2 c hc
    simp only [beq_iff_eq, this]
    exact fun e => hne e.symm
  conv_rhs => rw [← List.take_append_drop root.nDirectories.toNat root.directories]
  rw [List.find?_append, hd]
  cases List.find? (fun c => c.dname == dname) (List.take root.nDirectories.toNat root.directories) <;> rfl

/-- On a root table whose used slots are its first ones, the loop of
`cs1550_getattr` finds what a search of the whole table finds. -/
theorem find_dir_counted_eq (root : cs1550_root_directory) (dname : List Char)
    (hroot : root_compact root) (hne : dname ≠ []) :
    find_dir_counted root dname = .ok (root.directories.find? (fun c => c.dname == dname)) := by
  unfold find_dir_counted
  rw [find_take_of_compact root dname hroot hne]
  have hle : ¬ ((MAX_DIRS_IN_ROOT : Int) < root.nDirectories) := by
    have := hroot.2.1
    omega
  cases h : List.find? (fun c => c.dname == dname) root.directories with
  | none => simp only [hle, if_false]
  | some c => rfl

theorem find?_beq_comm (l : List cs1550_directory) (dname : List Char) :
    l.find? (fun c => dname == c.dname) = l.find? (fun c => c.dname == dname) := by
  congr 1
  funext c
  exact Bool.beq_comm

theorem dir_path_ne_root (dname : List Char) (hne : dname ≠ []) : dir_path dname ≠ ['/'] := by
  cases dname with
  | nil => exact absurd rfl hne
  | cons a t => simp [dir_path]

theorem file_path_ne_root (dname fname : List Char) (ext : Option (List Char)) :
    file_path dname fname ext ≠ ['/'] := by
  cases ext <;> cases dname <;> simp [file_path]

/-- What `cs1550_getattr` does on `/dname` once `sscanf` has read the name. -/
theorem getattr_dir_path (d : Disk) (st : stat) (dname : List Char)
    (hroot : root_compact d.root) (hne : dname ≠ []) (hs : '/' ∉ dname)
    (hdlen : dname.length ≤ MAX_FILENAME) :
    cs1550_getattr d (dir_path dname) st
      = match d.root.directories.find? (fun c => c.dname == dname) with
        | none => .ok (-ENOENT, zero_stat)
        | some _ => .ok (0, dir_stat) := by
  have h1 : ¬ (dname.length > MAX_FILENAME) := by omega
  simp only [cs1550_getattr, dir_path_length dname hne, ne_eq, not_false_eq_true, if_true,
    sscanf_path_dir dname hne hs hdlen, h1, List.length_nil, gt_iff_lt, Nat.not_lt_zero, or_self,
    if_false, dir_path_ne_root dname hne, hne, read_root, find_dir_counted_eq d.root dname hroot hne]
  cases List.find? (fun c => c.dname == dname) d.root.directories <;> rfl

/-- What `cs1550_getattr` does on `/dname/fname[.ext]` once `sscanf` has read
the names. -/
theorem getattr_file_path (d : Disk) (st : stat) (dname fname : List Char)
    (ext : Option (List Char)) (hroot : root_compact d.root)
    (hne : dname ≠ []) (hs : '/' ∉ dname) (hdlen : dname.length ≤ MAX_FILENAME)
    (hfne : fname ≠ []) (hf : '.' ∉ fname) (hflen : fname.length ≤ MAX_FILENAME)
    (he : ∀ e, ext = some e → (∀ c ∈ e, isspace c = false) ∧ e.length ≤ MAX_EXTENSION) :
    cs1550_getattr d (file_path dname fname ext) st
      = match d.root.directories.find? (fun c => c.dname == dname) with
        | none => .ok (-ENOENT, zero_stat)
        | some dir =>
          match fread_dir d.blocks dir.nStartBlock with
          | .error e => .error e
          | .ok none => .ok (0, zero_stat)
          | .ok (some dir_entry) =>
            match dir_entry.files.find? (fun f => f.fname == fname && f.fext == ext.getD []) with
            | none => .ok (-ENOENT, zero_stat)
            | some file =>
              if file.nStartBlock = -1 then .ok (-ENOENT, zero_stat)
              else .ok (0, ⟨S_IFREG ||| 0o666, 1, file.fsize⟩) := by
  have h1 : ¬ (dname.length > MAX_FILENAME) := by omega
  have h2 : ¬ (fname.length > MAX_FILENAME) := by omega
  have h3 : ¬ ((ext.getD []).length > MAX_EXTENSION) := by
    cases ext with
    | none => simp [MAX_EXTENSION]
    | some e => have := (he e rfl).2; simp only [Option.getD_some]; omega
  simp only [cs1550_getattr, file_path_length, ne_eq, not_false_eq_true, if_true,
    sscanf_path_file dname fname ext hne hs hdlen hfne hf hflen he, h1, h2, h3,
    or_self, if_false, file_path_ne_root, hne, hfne, read_root,
    find_dir_counted_eq d.root dname hroot hne]
  cases List.find? (fun c => c.dname == dname) d.root.directories <;> rfl

/-- When no entry makes the loop of `cs1550_mknod` stop (or hands `strcmp` a
`NULL` extension), the loop ends with the first free slot it has met. -/
theorem mknod_scan_no_dup (fn : List Char) (fe : Option (List Char))
    (files : List cs1550_file_directory) (j : Nat) (idx0 : Option Nat)
    (hno : ∀ f ∈ files, f.fname = fn → ∃ e, fe = some e ∧ f.fext ≠ e) :
    mknod_scan fn fe files j idx0
      = .ok (match idx0 with
             | some i => some i
             | none => List.findIdx? free_slot files j, false) := by
  induction files generalizing j idx0 with
  | nil => cases idx0 <;> rfl
  | cons a t ih =>
    have ht : ∀ f ∈ t, f.fname = fn → ∃ e, fe = some e ∧ f.fext ≠ e :=
      fun f hf => hno f (List.mem_cons_of_mem a hf)
    have hstep : mknod_scan fn fe (a :: t) j idx0
        = mknod_scan fn fe t (j + 1)
            (if a.fname = [] ∧ a.fext = [] ∧ idx0 = none then some j else idx0) := by
      by_cases hname : a.fname = fn
      · obtain ⟨e, he, hne⟩ := hno a (List.mem_cons_self a t) hname
        subst he
        simp only [mknod_scan, hname, if_true, hne, if_false]
      · simp only [mknod_scan, hname, if_false]
    rw [hstep, ih _ _ ht]
    have hfs : free_slot a = true ↔ (a.fname = [] ∧ a.fext = []) := by
      simp only [free_slot, Bool.and_eq_true, beq_iff_eq]
    cases idx0 with
    | some i =>
      have : ¬ (a.fname = [] ∧ a.fext = [] ∧ some i = (none : Option Nat)) :=
        fun h => Option.noConfusion h.2.2
      rw [if_neg this]
    | none =>
      by_cases hfree : a.fname = [] ∧ a.fext = []
      · have h1 : a.fname = [] ∧ a.fext = [] ∧ (none : Option Nat) = none :=
          ⟨hfree.1, hfree.2, rfl⟩
        rw [if_pos h1]
        simp only [List.findIdx?_cons, hfs.mpr hfree, if_true]
      · have h1 : ¬ (a.fname = [] ∧ a.fext = [] ∧ (none : Option Nat) = none) :=
          fun h => hfree ⟨h.1, h.2.1⟩
        have h2 : free_slot a = false := by
          cases h : free_slot a
          · rfl
          · exact absurd (hfs.mp h) hfree
        rw [if_neg h1]
        simp only [List.findIdx?_cons, h2, Bool.false_eq_true, if_false]

/-- The loop of `cs1550_mknod` stops at an entry with the name and the
extension it is given. -/
theorem mknod_scan_dup (fn e : List Char) (files : List cs1550_file_directory) (j : Nat)
    (idx0 : Option Nat) (h : ∃ f ∈ files, f.fname = fn ∧ f.fext = e) :
    ∃ idx, mknod_scan fn (some e) files j idx0 = .ok (idx, true) := by
  induction files generalizing j idx0 with
  | nil => obtain ⟨f, hf, _⟩ := h; simp at hf
  | cons a t ih =>
    by_cases ha : a.fname = fn ∧ a.fext = e
    · exact ⟨_, by simp only [mknod_scan, ha.1, ha.2, if_true]; rfl⟩
    · have ht : ∃ f ∈ t, f.fname = fn ∧ f.fext = e := by
        obtain ⟨f, hf, hfe⟩ := h
        simp only [List.mem_cons] at hf
        rcases hf with rfl | hf
        · exact absurd hfe ha
        · exact ⟨f, hf, hfe⟩
      by_cases hname : a.fname = fn
      · have hext : ¬ a.fext = e := fun h2 => ha ⟨hname, h2⟩
        obtain ⟨idx, hidx⟩ := ih (j + 1) _ ht
        exact ⟨idx, by simp only [mknod_scan, hname, if_true, hext, if_false]; exact hidx⟩
      · obtain ⟨idx, hidx⟩ := ih (j + 1) _ ht
        exact ⟨idx, by simp only [mknod_scan, hname, if_false]; exact hidx⟩

/-- A block that reads as a directory table can be written. -/
theorem fwrite_block_of_fread_dir (blocks : List Block) (n : Int) (e : cs1550_directory_entry)
    (h : fread_dir blocks n = .ok (some e)) (b : Block) :
    fwrite_block blocks n b = .ok (blocks.set (n - 2).toNat b) := by
  unfold fread_dir fread_block at h
  unfold fwrite_block
  by_cases h1 : n < 0
  · simp only [h1, if_true] at h; cases h
  · by_cases h2 : n < 2
    · simp only [h1, h2, if_true, if_false] at h; cases h
    · simp only [h1, h2, if_false] at h ⊢
      by_cases h3 : (n - 2).toNat < blocks.length
      · simp only [h3, if_true]
      · have : blocks[(n - 2).toNat]? = none := List.getElem?_eq_none (by omega)
        simp only [this] at h
        cases h

theorem ext_stored (ext : Option (List Char)) (he : ∀ e, ext = some e → e ≠ []) :
    (if nonempty_ptr ext = true then ext.getD [] else []) = ext.getD [] := by
  cases ext with
  | none => rfl
  | some e => simp only [nonempty_ptr_some e (he e rfl), if_true]

/-- The image `cs1550_mknod` leaves when it stores a new entry: the first free
slot `i` of the directory block gets the entry, the count of the block goes up
by one, and the first free entry of the table, when there is one, becomes the
end of a chain. -/
theorem mknod_creates (d : Disk) (dname fname : List Char) (ext : Option (List Char))
    (dir : cs1550_directory) (dir_entry : cs1550_directory_entry) (i : Nat)
    (hne : dname ≠ []) (hs : '/' ∉ dname) (hfne : fname ≠ []) (hf : '.' ∉ fname)
    (hflen : fname.length ≤ MAX_FILENAME)
    (he : ∀ e, ext = some e → e ≠ [] ∧ '.' ∉ e ∧ e.length ≤ MAX_EXTENSION)
    (hdir : d.root.directories.find? (fun c => dname == c.dname) = some dir)
    (hblock : fread_dir d.blocks dir.nStartBlock = .ok (some dir_entry))
    (hn : to_size_t dir_entry.nFiles < MAX_FILES_IN_DIR)
    (hno : ∀ f ∈ dir_entry.files, f.fname = fname → ∃ e, ext = some e ∧ f.fext ≠ e)
    (hslot : List.findIdx? free_slot dir_entry.files 0 = some i) :
    cs1550_mknod d (file_path dname fname ext)
      = .ok (0, ⟨d.root,
          (match first_free d.fat.table with
           | some k => ⟨d.fat.table.set k EOF⟩
           | none => d.fat),
          d.blocks.set (dir.nStartBlock - 2).toNat (.dir ⟨dir_entry.nFiles + 1,
            dir_entry.files.set i ⟨fname, ext.getD [], 0,
              (match first_free d.fat.table with
               | some k => (k : Int)
               | none => -1)⟩⟩)⟩) := by
  have hp := strtok_path_file dname fname ext hne hs hfne hf
    (fun e h => ⟨(he e h).1, (he e h).2.1⟩)
  have hc := name_checks_pass fname ext hflen he
  have hdn : dir.dname ≠ [] := by
    have := List.find?_some hdir
    simp only [beq_iff_eq] at this
    rw [← this]; exact hne
  have hcap : ¬ (to_size_t dir_entry.nFiles ≥ MAX_FILES_IN_DIR) := by omega
  have hscan := mknod_scan_no_dup fname ext dir_entry.files 0 none hno
  simp only [hslot] at hscan
  simp only [cs1550_mknod, hp, hne, hfne, if_false, hc.1, hc.2, read_root, read_fat, hdir, hdn,
    hblock, hcap, hscan, ext_stored ext (fun e h => (he e h).1),
    fwrite_block_of_fread_dir d.blocks dir.nStartBlock dir_entry hblock, write_fat, write_root]

/-- When the loop of `cs1550_mknod` runs to its end, no entry has the name
with the extension it was given, and none has the name when the extension is
`NULL`. -/
theorem mknod_scan_inv (fn : List Char) (fe : Option (List Char))
    (files : List cs1550_file_directory) (j : Nat) (idx0 idx : Option Nat)
    (h : mknod_scan fn fe files j idx0 = .ok (idx, false)) :
    ∀ f ∈ files, f.fname = fn → ∃ e, fe = some e ∧ f.fext ≠ e := by
  induction files generalizing j idx0 with
  | nil => intro f hf; simp at hf
  | cons a t ih =>
    intro f hf hname
    simp only [mknod_scan] at h
    simp only [List.mem_cons] at hf
    by_cases ha : a.fname = fn
    · simp only [ha, if_true] at h
      cases fe with
      | none => cases h
      | some e =>
        simp only at h
        by_cases hx : a.fext = e
        · simp only [hx, if_true, Except.ok.injEq, Prod.mk.injEq] at h
          exact absurd h.2 (by decide)
        · simp only [hx, if_false] at h
          rcases hf with rfl | hf
          · exact ⟨e, rfl, hx⟩
          · exact ih _ _ h f hf hname
    · simp only [ha, if_false] at h
      rcases hf with rfl | hf
      · exact absurd hname ha
      · exact ih _ _ h f hf hname

theorem find?_set_of_none {α : Type} (p : α → Bool) (l : List α) (i : Nat) (x : α)
    (hno : ∀ a ∈ l, p a = false) (hi : i < l.length) (hx : p x = true) :
    (l.set i x).find? p = some x := by
  induction l generalizing i with
  | nil => simp at hi
  | cons a t ih =>
    cases i with
    | zero => simp only [List.set_cons_zero, List.find?, hx]
    | succ i =>
      have ha : p a = false := hno a (List.mem_cons_self a t)
      simp only [List.set_cons_succ, List.find?, ha]
      exact ih i (fun b hb => hno b (List.mem_cons_of_mem a hb)) (by simpa using hi)

/-- What a call of `cs1550_mknod` that returns 0 and changes the image has met
on its way. -/
theorem mknod_inv (d d1 : Disk) (dname fname : List Char) (ext : Option (List Char))
    (hne : dname ≠ []) (hs : '/' ∉ dname) (hfne : fname ≠ []) (hf : '.' ∉ fname)
    (he : ∀ e, ext = some e → e ≠ [] ∧ '.' ∉ e)
    (hmk : cs1550_mknod d (file_path dname fname ext) = .ok (0, d1)) (hnew : d1 ≠ d) :
    ∃ dir dir_entry i,
      d.root.directories.find? (fun c => dname == c.dname) = some dir ∧
      fread_dir d.blocks dir.nStartBlock = .ok (some dir_entry) ∧
      to_size_t dir_entry.nFiles < MAX_FILES_IN_DIR ∧
      fname.length ≤ MAX_FILENAME ∧ (∀ e, ext = some e → e.length ≤ MAX_EXTENSION) ∧
      mknod_scan fname ext dir_entry.files 0 none = .ok (some i, false) := by
  have hp := strtok_path_file dname fname ext hne hs hfne hf he
  have hlens : fname.length ≤ MAX_FILENAME ∧ (∀ e, ext = some e → e.length ≤ MAX_EXTENSION) := by
    by_contra hcon
    have hbad : (nonempty_ptr ext = true ∧
          (fname.length > MAX_FILENAME ∨ (ext.getD []).length > MAX_EXTENSION)) ∨
        (¬ nonempty_ptr ext = true ∧ fname.length > MAX_FILENAME) := by
      by_cases hfl : fname.length ≤ MAX_FILENAME
      · have : ¬ ∀ e, ext = some e → e.length ≤ MAX_EXTENSION := fun h => hcon ⟨hfl, h⟩
        obtain ⟨e, hx⟩ := not_forall.mp this
        obtain ⟨hx1, hx2⟩ := Classical.not_imp.mp hx
        subst hx1
        exact Or.inl ⟨nonempty_ptr_some e (he e rfl).1, Or.inr (by simpa using hx2)⟩
      · by_cases hx : nonempty_ptr ext = true
        · exact Or.inl ⟨hx, Or.inl (by omega)⟩
        · exact Or.inr ⟨hx, by omega⟩
    simp only [cs1550_mknod, hp, hne, hfne, if_false] at hmk
    rw [ite_either _ _ _ _ hbad] at hmk
    simp only [Except.ok.injEq, Prod.mk.injEq] at hmk
    exact absurd hmk.1 (by decide)
  have hc := name_checks_pass fname ext hlens.1
    (fun e h => ⟨(he e h).1, (he e h).2, hlens.2 e h⟩)
  simp only [cs1550_mknod, hp, hne, hfne, if_false, hc.1, hc.2, read_root, read_fat] at hmk
  cases hdir : d.root.directories.find? (fun c => dname == c.dname) with
  | none => simp only [hdir] at hmk; cases hmk
  | some dir =>
    simp only [hdir] at hmk
    by_cases hdn : dir.dname = []
    · simp only [hdn, if_true, Except.ok.injEq, Prod.mk.injEq] at hmk
      exact absurd hmk.2.symm hnew
    · simp only [hdn, if_false] at hmk
      cases hblock : fread_dir d.blocks dir.nStartBlock with
      | error e => simp only [hblock] at hmk; cases hmk
      | ok o =>
        cases o with
        | none => simp only [hblock] at hmk; cases hmk
        | some dir_entry =>
          simp only [hblock] at hmk
          by_cases hcap : to_size_t dir_entry.nFiles ≥ MAX_FILES_IN_DIR
          · simp only [hcap, if_true, Except.ok.injEq, Prod.mk.injEq] at hmk
            exact absurd hmk.1 (by decide)
          · simp only [hcap, if_false] at hmk
            cases hscan : mknod_scan fname ext dir_entry.files 0 none with
            | error e => simp only [hscan] at hmk; cases hmk
            | ok r =>
              obtain ⟨idx, dup⟩ := r
              cases dup with
              | true =>
                simp only [hscan, Except.ok.injEq, Prod.mk.injEq] at hmk
                exact absurd hmk.1 (by decide)
              | false =>
                cases idx with
                | none => simp only [hscan] at hmk; cases hmk
                | some i =>
                  exact ⟨dir, dir_entry, i, rfl, hblock, by omega, hlens.1, hlens.2, hscan⟩

theorem getElem?_set_self_of_getElem? {α : Type} (l : List α) (k : Nat) (a b : α)
    (h : l[k]? = some a) : (l.set k b)[k]? = some b := by
  have hk : k < l.length := by
    by_contra hcon
    rw [List.getElem?_eq_none (by omega)] at h
    cases h
  exact List.getElem?_set_self hk

/-! ## What a creating call has done, and the tables it leaves -/

set_option maxRecDepth 100000

theorem read_from_never_enoent (d : Disk) (f : cs1550_file_directory) (buf : List Nat)
    (offset : Nat) (buf1 : List Nat) (d1 : Disk) :
    read_from d f buf offset ≠ .ok (-ENOENT, buf1, d1) := by
  intro h
  unfold read_from at h
  simp only at h
  repeat' split at h
  all_goals cases h

theorem write_to_never_enoent (d : Disk) (dir : cs1550_directory)
    (dir_entry : cs1550_directory_entry) (j : Nat) (f : cs1550_file_directory) (buf : List Nat)
    (size offset : Nat) (d1 : Disk) :
    write_to d dir dir_entry j f buf size offset ≠ .ok (-ENOENT, d1) := by
  intro h
  unfold write_to at h
  simp only at h
  repeat' split at h
  all_goals cases h

theorem strtok_token_ne (s : List Char) (c : Char) (tok : List Char)
    (h : (strtok s c).1 = some tok) : tok ≠ [] := by
  unfold strtok at h
  split at h
  · cases h
  · rename_i a s1 heq
    simp only [Option.some.injEq] at h
    have ha : (a == c) = false := by
      have := List.head_dropWhile_not (fun x => x == c) s
      simp only [heq] at this
      simpa using this
    have hne : (a != c) = true := by simpa using ha
    rw [← h, List.takeWhile_cons, hne]
    simp

/-- What a call of `cs1550_mkdir` that returns has done: nothing, or it has
put a directory with a new name into the first unnamed slot of the root table,
given it the first free block `j`, and written a zero table to block `j + 1`. -/
theorem mkdir_cases (d : Disk) (path : List Char) (r : Int) (d1 : Disk)
    (h : cs1550_mkdir d path = .ok (r, d1)) :
    d1 = d ∨ ∃ (directory : List Char) (i j : Nat) (b : Block) (blocks1 : List Block),
      directory ≠ [] ∧
      d.root.directories.any (fun c => c.dname == directory) = false ∧
      d.root.directories.findIdx? (fun c => c.dname == []) = some i ∧
      first_free d.fat.table = some j ∧
      fread_block d.blocks j = .ok (some b) ∧
      fwrite_block d.blocks (j + 1) (.dir zero_directory_entry) = .ok blocks1 ∧
      r = 0 ∧
      d1 = ⟨⟨d.root.nDirectories + 1, d.root.directories.set i ⟨directory, j⟩⟩,
            ⟨d.fat.table.set j EOF⟩, blocks1⟩ := by
  unfold cs1550_mkdir at h
  simp only [read_root, read_fat, write_root, write_fat] at h
  cases htok : (strtok path '/').1 with
  | none => simp only [htok] at h; cases h
  | some directory =>
    have hne := strtok_token_ne path '/' directory htok
    simp only [htok] at h
    split at h
    · left; cases h; rfl
    · split at h
      · left; cases h; rfl
      · split at h
        · left; cases h; rfl
        · split at h
          · left; cases h; rfl
          · rename_i hany
            cases hidx : d.root.directories.findIdx? (fun c => c.dname == []) with
            | none => simp only [hidx] at h; left; cases h; rfl
            | some i =>
              simp only [hidx] at h
              cases hff : first_free d.fat.table with
              | none => simp only [hff] at h; cases h
              | some j =>
                simp only [hff] at h
                cases hrd : fread_block d.blocks j with
                | error e => simp only [hrd] at h; cases h
                | ok o =>
                  cases o with
                  | none => simp only [hrd] at h; left; cases h; rfl
                  | some b =>
                    simp only [hrd] at h
                    cases hwr : fwrite_block d.blocks (j + 1) (.dir zero_directory_entry) with
                    | error e => simp only [hwr] at h; cases h
                    | ok blocks1 =>
                      simp only [hwr, Except.ok.injEq, Prod.mk.injEq] at h
                      right
                      exact ⟨directory, i, j, b, blocks1, hne, by simpa using hany, rfl, rfl, hrd,
                        hwr, h.1.symm, h.2.symm⟩

/-- What a call of `cs1550_mknod` that returns has done: nothing, or it has
put an entry with the given name into the first free slot `i` of the block of
the directory, and marked the first free block, when there is one. -/
theorem mknod_cases (d : Disk) (path : List Char) (r : Int) (d1 : Disk)
    (h : cs1550_mknod d path = .ok (r, d1)) :
    d1 = d ∨ ∃ (file_name : List Char) (file_ext : Option (List Char))
        (dir : cs1550_directory) (dir_entry : cs1550_directory_entry) (i : Nat),
      file_name ≠ [] ∧ dir ∈ d.root.directories ∧ dir.dname ≠ [] ∧
      fread_dir d.blocks dir.nStartBlock = .ok (some dir_entry) ∧
      mknod_scan file_name file_ext dir_entry.files 0 none = .ok (some i, false) ∧
      r = 0 ∧
      d1 = ⟨d.root,
            (match first_free d.fat.table with
             | some k => ⟨d.fat.table.set k EOF⟩
             | none => d.fat),
            d.blocks.set (dir.nStartBlock - 2).toNat (.dir ⟨dir_entry.nFiles + 1,
              dir_entry.files.set i
                ⟨file_name, if nonempty_ptr file_ext then file_ext.getD [] else [], 0,
                  (match first_free d.fat.table with
                   | some k => (k : Int)
                   | none => -1)⟩⟩)⟩ := by
  unfold cs1550_mknod at h
  simp only [read_root, read_fat, write_root, write_fat] at h
  cases hd : (strtok_path path).1 with
  | none => simp only [hd] at h; left; cases h; rfl
  | some directory =>
    simp only [hd] at h
    by_cases hde : directory = []
    · simp only [hde, if_true] at h; left; cases h; rfl
    · simp only [hde, if_false] at h
      cases hf : (strtok_path path).2.1 with
      | none => simp only [hf] at h; left; cases h; rfl
      | some file_name =>
        simp only [hf] at h
        by_cases hfne : file_name = []
        · simp only [hfne, if_true] at h; left; cases h; rfl
        · simp only [hfne, if_false] at h
          split at h
          · left; cases h; rfl
          · split at h
            · left; cases h; rfl
            · cases hdir : d.root.directories.find? (fun c => directory == c.dname) with
              | none => simp only [hdir] at h; cases h
              | some dir =>
                simp only [hdir] at h
                by_cases hdn : dir.dname = []
                · simp only [hdn, if_true] at h; left; cases h; rfl
                · simp only [hdn, if_false] at h
                  cases hblock : fread_dir d.blocks dir.nStartBlock with
                  | error e => simp only [hblock] at h; cases h
                  | ok o =>
                    cases o with
                    | none => simp only [hblock] at h; cases h
                    | some dir_entry =>
                      simp only [hblock] at h
                      split at h
                      · left; cases h; rfl
                      · cases hscan : mknod_scan file_name (strtok_path path).2.2
                            dir_entry.files 0 none with
                        | error e => simp only [hscan] at h; cases h
                        | ok x =>
                          obtain ⟨idx, dup⟩ := x
                          cases dup with
                          | true => simp only [hscan] at h; left; cases h; rfl
                          | false =>
                            cases idx with
                            | none => simp only [hscan] at h; cases h
                            | some i =>
                              simp only [hscan] at h
                              rw [fwrite_block_of_fread_dir d.blocks dir.nStartBlock dir_entry
                                hblock] at h
                              simp only [Except.ok.injEq, Prod.mk.injEq] at h
                              right
                              exact ⟨file_name, (strtok_path path).2.2, dir, dir_entry, i, hfne,
                                List.mem_of_find?_eq_some hdir, hdn, hblock, hscan, h.1.symm,
                                h.2.symm⟩

/-- The index the scan for a free block stops at is the least free one of its
range. -/
theorem first_free_from_min (table : List Int) (n j0 j : Nat)
    (h : first_free_from table n j0 = some j) :
    j0 ≤ j ∧ j < j0 + n ∧ table[j]? = some 0 ∧ ∀ k, j0 ≤ k → k < j → table[k]? ≠ some 0 := by
  induction n generalizing j0 with
  | zero => cases h
  | succ n ih =>
    unfold first_free_from at h
    by_cases hj : table[j0]? = some 0
    · rw [if_pos hj] at h
      cases h
      exact ⟨Nat.le_refl _, by omega, hj, fun k h1 h2 => by omega⟩
    · rw [if_neg hj] at h
      obtain ⟨e1, e2, e3, e4⟩ := ih (j0 + 1) h
      refine ⟨by omega, by omega, e3, fun k h1 h2 => ?_⟩
      by_cases hk : k = j0
      · subst hk; exact hj
      · exact e4 k (by omega) h2

theorem first_free_min (table : List Int) (j : Nat) (h : first_free table = some j) :
    START_ALLOC_BLOCK ≤ j ∧ j < MAX_FAT_ENTRIES ∧ table[j]? = some 0 ∧
      ∀ k, START_ALLOC_BLOCK ≤ k → k < j → table[k]? ≠ some 0 := by
  have := first_free_from_min table _ _ j h
  have h2 : START_ALLOC_BLOCK + (MAX_FAT_ENTRIES - START_ALLOC_BLOCK) = MAX_FAT_ENTRIES := by
    decide
  rw [h2] at this
  exact this

theorem first_free_some (table : List Int)
    (h : ∃ k, START_ALLOC_BLOCK ≤ k ∧ k < MAX_FAT_ENTRIES ∧ table[k]? = some 0) :
    ∃ j, first_free table = some j := by
  obtain ⟨k, h1, h2, h3⟩ := h
  have h4 : START_ALLOC_BLOCK + (MAX_FAT_ENTRIES - START_ALLOC_BLOCK) = MAX_FAT_ENTRIES := by
    decide
  obtain ⟨j, hj, _⟩ := first_free_from_some table (MAX_FAT_ENTRIES - START_ALLOC_BLOCK)
    START_ALLOC_BLOCK ⟨k, h1, by omega, h3⟩
  exact ⟨j, hj⟩

/-- The slot the loop of `cs1550_mknod` ends with is the first free one. -/
theorem mknod_scan_slot (fn : List Char) (fe : Option (List Char))
    (files : List cs1550_file_directory) (i : Nat)
    (h : mknod_scan fn fe files 0 none = .ok (some i, false)) :
    List.findIdx? free_slot files 0 = some i := by
  have hno := mknod_scan_inv fn fe files 0 none (some i) h
  have h2 := mknod_scan_no_dup fn fe files 0 none hno
  rw [h] at h2
  simp only [Except.ok.injEq, Prod.mk.injEq, and_true] at h2
  exact h2.symm

theorem write_to_eperm (d : Disk) (dir : cs1550_directory) (dir_entry : cs1550_directory_entry)
    (j : Nat) (f : cs1550_file_directory) (buf : List Nat) (size offset : Nat) (d1 : Disk)
    (h : write_to d dir dir_entry j f buf size offset = .ok (-EPERM, d1)) :
    d1.root = d.root ∧ d1.fat = d.fat := by
  unfold write_to at h
  simp only at h
  repeat' split at h
  all_goals first
    | (cases h; done)
    | (cases h; exact ⟨rfl, rfl⟩)

/-- A slot that fails `p` is replaced by an entry that passes `p`: the entry
joins the entries that pass `p`. -/
theorem filter_set_new {α : Type} (p : α → Bool) (l : List α) (i : Nat) (x a : α)
    (ha : l[i]? = some a) (hold : p a = false) (hx : p x = true) :
    ∃ l1 l2, l.filter p = l1 ++ l2 ∧ (l.set i x).filter p = l1 ++ x :: l2 := by
  induction l generalizing i with
  | nil => simp at ha
  | cons b t ih =>
    cases i with
    | zero =>
      simp only [List.getElem?_cons_zero, Option.some.injEq] at ha
      subst ha
      exact ⟨[], t.filter p, by simp [List.filter_cons, hold], by simp [List.filter_cons, hx]⟩
    | succ i =>
      simp only [List.getElem?_cons_succ] at ha
      obtain ⟨l1, l2, e1, e2⟩ := ih i ha
      by_cases hb : p b = true
      · exact ⟨b :: l1, l2, by simp [List.filter_cons, hb, e1],
          by simp [List.set_cons_succ, List.filter_cons, hb, e2]⟩
      · exact ⟨l1, l2, by simp [List.filter_cons, hb, e1],
          by simp [List.set_cons_succ, List.filter_cons, hb, e2]⟩

theorem filter_set_length {α : Type} (p : α → Bool) (l : List α) (i : Nat) (x a : α)
    (ha : l[i]? = some a) (hold : p a = false) (hx : p x = true) :
    ((l.set i x).filter p).length = (l.filter p).length + 1 := by
  obtain ⟨l1, l2, e1, e2⟩ := filter_set_new p l i x a ha hold hx
  rw [e1, e2]
  simp only [List.length_append, List.length_cons]
  omega

theorem filter_set_nodup {α β : Type} (p : α → Bool) (f : α → β) (l : List α) (i : Nat)
    (x a : α) (ha : l[i]? = some a) (hold : p a = false) (hx : p x = true)
    (hnd : ((l.filter p).map f).Nodup) (hnew : ∀ c ∈ l, f c ≠ f x) :
    (((l.set i x).filter p).map f).Nodup := by
  obtain ⟨l1, l2, e1, e2⟩ := filter_set_new p l i x a ha hold hx
  rw [e2, List.map_append, List.map_cons]
  rw [e1, List.map_append] at hnd
  rw [List.nodup_middle, List.nodup_cons]
  refine ⟨?_, hnd⟩
  rw [← List.map_append, ← e1]
  intro hmem
  obtain ⟨c, hc, hfc⟩ := List.mem_map.mp hmem
  exact hnew c (List.mem_filter.mp hc).1 hfc

theorem filter_length_le {α : Type} (p : α → Bool) (l : List α) :
    (l.filter p).length ≤ l.length := List.length_filter_le p l

theorem fread_block_set (blocks : List Block) (n : Int) (b : Block) (k : Nat) (x : Block)
    (h : fread_block blocks n = .ok (some b)) :
    ∃ b1, fread_block (blocks.set k x) n = .ok (some b1) := by
  unfold fread_block at h ⊢
  split at h
  · cases h
  · split at h
    · cases h
    · rename_i h1 h2
      simp only [Except.ok.injEq] at h
      have hlt : (n - 2).toNat < blocks.length := by
        by_contra hcon
        rw [List.getElem?_eq_none (by omega)] at h
        cases h
      simp only [h1, h2, if_false]
      have hlt1 : (n - 2).toNat < (blocks.set k x).length := by simpa using hlt
      exact ⟨_, by rw [List.getElem?_eq_getElem hlt1]⟩

theorem fwrite_block_eq (blocks blocks1 : List Block) (n : Int) (b : Block)
    (h : fwrite_block blocks n b = .ok blocks1) : blocks1 = blocks.set (n - 2).toNat b := by
  unfold fwrite_block at h
  repeat' split at h
  all_goals cases h
  rfl

theorem fread_dir_mem (blocks : List Block) (n : Int) (e : cs1550_directory_entry)
    (h : fread_dir blocks n = .ok (some e)) : ∃ b ∈ blocks, b.asDir = some e := by
  unfold fread_dir at h
  split at h
  · cases h
  · cases h
  · rename_i b hb
    split at h
    · rename_i e1 he1
      simp only [Except.ok.injEq, Option.some.injEq] at h
      subst h
      unfold fread_block at hb
      repeat' split at hb
      all_goals first
        | (simp only [Except.ok.injEq] at hb
           exact ⟨b, List.getElem?_mem hb, he1⟩)
        | cases hb
    · cases h

theorem fread_dir_of_block (blocks : List Block) (n : Int) (b : Block)
    (e : cs1550_directory_entry) (h : fread_block blocks n = .ok (some b))
    (he : b.asDir = some e) : fread_dir blocks n = .ok (some e) := by
  simp only [fread_dir, h, he]

theorem fread_block_mem (blocks : List Block) (n : Int) (b : Block)
    (h : fread_block blocks n = .ok (some b)) : b ∈ blocks := by
  unfold fread_block at h
  repeat' split at h
  all_goals first
    | (simp only [Except.ok.injEq] at h
       exact List.getElem?_mem h)
    | cases h

theorem zero_table_ok : zero_directory_entry.files.length = MAX_FILES_IN_DIR ∧
    dir_table_ok zero_directory_entry := by
  refine ⟨by decide, by decide, by decide, ?_⟩
  have : used_files zero_directory_entry = [] := by decide
  rw [this]
  exact List.nodup_nil

/-- A directory block in order with a free slot takes a new entry with a name
whose pair of name and extension no slot holds: the block stays in order. -/
theorem dir_table_ok_set (e : cs1550_directory_entry) (i : Nat) (a x : cs1550_file_directory)
    (hlen : e.files.length = MAX_FILES_IN_DIR) (hok : dir_table_ok e)
    (ha : e.files[i]? = some a) (hfree : free_slot a = true) (hx : x.fname ≠ [])
    (hnew : ∀ f ∈ e.files, (f.fname, f.fext) ≠ (x.fname, x.fext)) :
    (e.files.set i x).length = MAX_FILES_IN_DIR ∧
      dir_table_ok ⟨e.nFiles + 1, e.files.set i x⟩ := by
  have hpa : (fun f => !free_slot f) a = false := by simp [hfree]
  have hpx : (fun f => !free_slot f) x = true := by
    have : (x.fname == []) = false := by rw [beq_eq_false_iff_ne]; exact hx
    simp [free_slot, this]
  have hcount := filter_set_length (fun f => !free_slot f) e.files i x a ha hpa hpx
  have hle := filter_length_le (fun f => !free_slot f) (e.files.set i x)
  have hlen1 : (e.files.set i x).length = MAX_FILES_IN_DIR := by
    rw [List.length_set]; exact hlen
  obtain ⟨_, h2, h3⟩ := hok
  unfold used_files at h2 h3
  refine ⟨hlen1, ?_, ?_, ?_⟩
  · show e.nFiles + 1 ≤ (MAX_FILES_IN_DIR : Int)
    rw [hlen1] at hle
    omega
  · show e.nFiles + 1 = (((e.files.set i x).filter (fun f => !free_slot f)).length : Int)
    rw [hcount]
    omega
  · exact filter_set_nodup (fun f => !free_slot f) (fun f => (f.fname, f.fext)) e.files i x a ha
      hpa hpx h3 hnew

/-- A root table in order with an unnamed slot takes a directory with a new
name: the table stays in order. -/
theorem root_table_ok_set (root : cs1550_root_directory) (i : Nat) (a x : cs1550_directory)
    (hlen : root.directories.length = MAX_DIRS_IN_ROOT) (hok : root_table_ok root)
    (ha : root.directories[i]? = some a) (hfree : a.dname = []) (hx : x.dname ≠ [])
    (hnew : ∀ c ∈ root.directories, c.dname ≠ x.dname) :
    root_table_ok ⟨root.nDirectories + 1, root.directories.set i x⟩ := by
  have hpa : (fun c : cs1550_directory => c.dname != []) a = false := by simp [hfree]
  have hpx : (fun c : cs1550_directory => c.dname != []) x = true := by
    simp only [bne_iff_ne]; exact hx
  have hcount := filter_set_length (fun c : cs1550_directory => c.dname != [])
    root.directories i x a ha hpa hpx
  have hle := filter_length_le (fun c : cs1550_directory => c.dname != [])
    (root.directories.set i x)
  have hlen1 : (root.directories.set i x).length = MAX_DIRS_IN_ROOT := by
    rw [List.length_set]; exact hlen
  obtain ⟨_, h2, h3⟩ := hok
  unfold used_dirs at h2
  refine ⟨?_, ?_, ?_⟩
  · show root.nDirectories + 1 ≤ (MAX_DIRS_IN_ROOT : Int)
    rw [hlen1] at hle
    omega
  · show root.nDirectories + 1
      = (((root.directories.set i x).filter (fun c => c.dname != [])).length : Int)
    rw [hcount]
    omega
  · exact filter_set_nodup (fun c : cs1550_directory => c.dname != []) (fun c => c.dname)
      root.directories i x a ha hpa hpx h3 hnew

/-- The pair of name and extension `cs1550_mknod` stores is the pair of no
slot of the block, when its loop has run to the end of the block. -/
theorem mknod_scan_new_pair (fn : List Char) (fe : Option (List Char))
    (files : List cs1550_file_directory) (i : Nat)
    (h : mknod_scan fn fe files 0 none = .ok (some i, false)) :
    ∀ f ∈ files, (f.fname, f.fext) ≠ (fn, if nonempty_ptr fe then fe.getD [] else []) := by
  intro f hf heq
  simp only [Prod.mk.injEq] at heq
  obtain ⟨e, he, hne⟩ := mknod_scan_inv fn fe files 0 none (some i) h f hf heq.1
  subst he
  by_cases hp : nonempty_ptr (some e) = true
  · simp only [hp, if_true, Option.getD_some] at heq
    exact hne heq.2
  · simp only [hp, if_false] at heq
    have he : e = [] := by
      simp only [nonempty_ptr, Bool.not_eq_true', Bool.not_eq_false, List.isEmpty_iff] at hp
      exact hp
    exact hne (heq.2.trans he.symm)

theorem tables_inv_mkdir (d : Disk) (path : List Char) (r : Int) (d1 : Disk)
    (hinv : tables_inv d) (h : cs1550_mkdir d path = .ok (r, d1)) : tables_inv d1 := by
  rcases mkdir_cases d path r d1 h with
    h1 | ⟨directory, i, j, b, blocks1, hne, hany, hidx, _, hrd, hwr, _, hd1⟩
  · rw [h1]; exact hinv
  · have hb1 := fwrite_block_eq _ _ _ _ hwr
    rw [List.findIdx?_eq_some_iff_getElem] at hidx
    obtain ⟨hi, hfree, _⟩ := hidx
    have hnew : ∀ c ∈ d.root.directories, c.dname ≠ directory := by
      intro c hc heq
      have := List.any_eq_false.mp hany c hc
      simp only [beq_iff_eq] at this
      exact this heq
    subst hd1
    refine ⟨?_, ?_, ?_, ?_⟩
    · show (d.root.directories.set i ⟨directory, j⟩).length = MAX_DIRS_IN_ROOT
      rw [List.length_set]; exact hinv.slots
    · exact root_table_ok_set d.root i d.root.directories[i] ⟨directory, j⟩ hinv.slots
        hinv.root_ok (List.getElem?_eq_getElem hi) (by simpa using hfree) hne hnew
    · intro c hc hcn
      show ∃ b, fread_block blocks1 c.nStartBlock = .ok (some b)
      rw [hb1]
      rcases List.mem_or_eq_of_mem_set hc with hc1 | hc1
      · obtain ⟨b0, hb0⟩ := hinv.inside c hc1 hcn
        exact fread_block_set d.blocks _ b0 _ _ hb0
      · subst hc1
        exact fread_block_set d.blocks _ b _ _ hrd
    · intro b0 hb0
      change b0 ∈ blocks1 at hb0
      rw [hb1] at hb0
      rcases List.mem_or_eq_of_mem_set hb0 with hc1 | hc1
      · exact hinv.tables b0 hc1
      · subst hc1
        exact ⟨zero_directory_entry, rfl, zero_table_ok.1, zero_table_ok.2⟩

theorem tables_inv_mknod (d : Disk) (path : List Char) (r : Int) (d1 : Disk)
    (hinv : tables_inv d) (h : cs1550_mknod d path = .ok (r, d1)) : tables_inv d1 := by
  rcases mknod_cases d path r d1 h with
    h1 | ⟨fn, fe, dir, dir_entry, i, hfn, _, _, hblock, hscan, _, hd1⟩
  · rw [h1]; exact hinv
  · obtain ⟨b, hbmem, hbdir⟩ := fread_dir_mem d.blocks dir.nStartBlock dir_entry hblock
    obtain ⟨e0, he0, hlen0, hok0⟩ := hinv.tables b hbmem
    rw [hbdir] at he0
    cases he0
    have hslot := mknod_scan_slot fn fe dir_entry.files i hscan
    rw [List.findIdx?_eq_some_iff_getElem] at hslot
    obtain ⟨hi, hfree, _⟩ := hslot
    have hnew := mknod_scan_new_pair fn fe dir_entry.files i hscan
    subst hd1
    refine ⟨hinv.slots, hinv.root_ok, ?_, ?_⟩
    · intro c hc hcn
      obtain ⟨b0, hb0⟩ := hinv.inside c hc hcn
      exact fread_block_set d.blocks _ b0 _ _ hb0
    · intro b0 hb0
      rcases List.mem_or_eq_of_mem_set hb0 with hc1 | hc1
      · exact hinv.tables b0 hc1
      · subst hc1
        have := dir_table_ok_set dir_entry i dir_entry.files[i]
          ⟨fn, if nonempty_ptr fe then fe.getD [] else [], 0,
            (match first_free d.fat.table with
             | some k => (k : Int)
             | none => -1)⟩ hlen0 hok0 (List.getElem?_eq_getElem hi) hfree hfn hnew
        exact ⟨_, rfl, this.1, this.2⟩

theorem tables_inv_run (cs : List fs_call) (d d1 : Disk) (hinv : tables_inv d)
    (h : run_calls d cs = .ok d1) : tables_inv d1 := by
  induction cs generalizing d with
  | nil =>
    simp only [run_calls, Except.ok.injEq] at h
    rw [← h]; exact hinv
  | cons c cs ih =>
    cases c with
    | mkdir path =>
      simp only [run_calls] at h
      cases hc : cs1550_mkdir d path with
      | error e => rw [hc] at h; cases h
      | ok x =>
        obtain ⟨r, d2⟩ := x
        rw [hc] at h
        exact ih d2 (tables_inv_mkdir d path r d2 hinv hc) h
    | mknod path =>
      simp only [run_calls] at h
      cases hc : cs1550_mknod d path with
      | error e => rw [hc] at h; cases h
      | ok x =>
        obtain ⟨r, d2⟩ := x
        rw [hc] at h
        exact ih d2 (tables_inv_mknod d path r d2 hinv hc) h

theorem tables_inv_zeroed (fat : cs1550_fat_block) (n : Nat) :
    tables_inv { fresh_disk n with fat := fat } := by
  have hroot : ({ fresh_disk n with fat := fat } : Disk).root
      = ⟨0, List.replicate MAX_DIRS_IN_ROOT ⟨[], 0⟩⟩ := rfl
  refine ⟨by rw [hroot]; decide, ?_, ?_, ?_⟩
  · rw [hroot]
    exact ⟨by decide, by decide, by decide⟩
  · intro c hc hcn
    have hc1 : c ∈ List.replicate MAX_DIRS_IN_ROOT (⟨[], 0⟩ : cs1550_directory) := hc
    rw [List.mem_replicate] at hc1
    exact absurd (by rw [hc1.2]) hcn
  · intro b hb
    have hb1 : b ∈ List.replicate n (Block.data zero_data) := hb
    rw [List.mem_replicate] at hb1
    rw [hb1.2]
    exact ⟨zero_directory_entry, by decide, zero_table_ok.1, zero_table_ok.2⟩

theorem tables_ok_of_inv (d : Disk) (hinv : tables_inv d) : tables_ok d := by
  refine ⟨hinv.root_ok, ?_⟩
  intro c hc hcn
  obtain ⟨b, hb⟩ := hinv.inside c hc hcn
  obtain ⟨e, he, _, hok⟩ := hinv.tables b (fread_block_mem d.blocks _ b hb)
  exact ⟨e, fread_dir_of_block d.blocks _ b e hb he, hok⟩

/-! ## An image without a free block -/

/-- The allocation table of `disk_full_chain`: every block from 3 to 254 is
linked to the block after it. -/
theorem full_chain_link (k : Nat) (h3 : 3 ≤ k) (hk : k < 255) :
    disk_full_chain.fat.table[k]? = some ((k : Int) + 1) := by
  have hT : disk_full_chain.fat.table
      = ([0, 0, -1] ++ (List.range 252).map (fun (i : Nat) => (i : Int) + 4)) ++ [-1] := rfl
  have hlen : ([0, 0, -1] ++ (List.range 252).map (fun (i : Nat) => (i : Int) + 4)).length = 255 := by
    simp
  rw [hT, List.getElem?_append_left (by omega),
    List.getElem?_append_right (by simp; omega), List.getElem?_map,
    List.getElem?_range (by simp; omega)]
  simp only [List.length_cons, List.length_nil, Option.map_some', Option.some.injEq]
  omega

theorem full_chain_end : disk_full_chain.fat.table[255]? = some EOF := by
  have hT : disk_full_chain.fat.table
      = ([0, 0, -1] ++ (List.range 252).map (fun (i : Nat) => (i : Int) + 4)) ++ [-1] := rfl
  rw [hT, List.getElem?_append_right (by simp)]
  simp [EOF]

/-- The chain of `disk_full_chain` from block `k` runs through every block up
to 255. -/
theorem full_chain_from (n k m : Nat) (h3 : 3 ≤ k) (hk : k + n = 255) :
    chain disk_full_chain.fat.table (n + 1 + m) (k : Int) = some (List.range' k (n + 1)) := by
  induction n generalizing k with
  | zero =>
    have hk1 : k = 255 := by omega
    subst hk1
    have h1 : ¬ (((255 : Nat) : Int) < (START_ALLOC_BLOCK : Int)
        ∨ ((255 : Nat) : Int) ≥ (MAX_FAT_ENTRIES : Int)) := by decide
    rw [show 0 + 1 + m = m + 1 by omega]
    simp only [chain, h1, if_false, Int.toNat_ofNat, full_chain_end, if_true]
    rfl
  | succ n ih =>
    have h1 : ¬ ((k : Int) < (START_ALLOC_BLOCK : Int) ∨ (k : Int) ≥ (MAX_FAT_ENTRIES : Int)) := by
      simp only [START_ALLOC_BLOCK, MAX_FAT_ENTRIES, BLOCK_SIZE, sizeof_short]
      omega
    have h2 : ¬ ((k : Int) + 1 = EOF) := by
      simp only [EOF]; omega
    have hrec := ih (k + 1) (by omega) (by omega)
    rw [show n + 1 + 1 + m = (n + 1 + m) + 1 by omega]
    simp only [chain, h1, if_false, Int.toNat_ofNat, full_chain_link k h3 (by omega), h2]
    have h4 : ((k : Int) + 1) = ((k + 1 : Nat) : Int) := by omega
    rw [h4, hrec]
    rfl

/-- The scan for a free block runs to its end when no entry of its range is
free. -/
theorem first_free_from_none (table : List Int) (n j0 : Nat)
    (h : ∀ k, j0 ≤ k → k < j0 + n → table[k]? ≠ some 0) : first_free_from table n j0 = none := by
  induction n generalizing j0 with
  | zero => rfl
  | succ n ih =>
    unfold first_free_from
    rw [if_neg (h j0 (Nat.le_refl _) (by omega))]
    exact ih (j0 + 1) (fun k h1 h2 => h k (by omega) (by omega))

theorem full_chain_no_free : first_free disk_full_chain.fat.table = none := by
  apply first_free_from_none
  intro k h1 h2
  have h1 : 2 ≤ k := h1
  have h2 : k < 256 := h2
  by_cases hk2 : k = 2
  · subst hk2; decide
  · by_cases hk : k = 255
    · subst hk; rw [full_chain_end]; decide
    · rw [full_chain_link k (by omega) (by omega)]
      simp only [ne_eq, Option.some.injEq]
      omega

/-- An image that records a start block below 2 is not well formed. -/
theorem not_well_formed_of_start (d : Disk) (s : Int) (hs : s ∈ start_blocks d)
    (h2 : s < START_ALLOC_BLOCK) : fat_well_formed d = false := by
  have hgen : ∀ fuel, chain d.fat.table (fuel + 1) s = none := by
    intro fuel
    rw [chain]
    exact if_pos (Or.inl h2)
  have hc : chain d.fat.table MAX_FAT_ENTRIES s = none := hgen 255
  have hall : ((start_blocks d).map (chain d.fat.table MAX_FAT_ENTRIES)).all
      (fun c => c.isSome) = false := by
    rw [List.all_eq_false]
    exact ⟨none, List.mem_map.mpr ⟨s, hs, hc⟩, by simp⟩
  simp only [fat_well_formed, hall, Bool.false_and]

theorem full_chain_well_formed : fat_well_formed disk_full_chain = true := by
  have hs : start_blocks disk_full_chain = [2, 3] := by decide
  have h2 : chain disk_full_chain.fat.table MAX_FAT_ENTRIES 2 = some [2] := by decide
  have h3 : chain disk_full_chain.fat.table MAX_FAT_ENTRIES 3 = some (List.range' 3 253) :=
    full_chain_from 252 3 3 (by omega) (by omega)
  have hused : ([(some [2]).getD [], (some (List.range' 3 253)).getD []] : List (List Nat)).flatten
      = List.range' 2 254 := by
    simp only [Option.getD_some, List.flatten_cons, List.flatten_nil, List.append_nil,
      List.singleton_append]
    rfl
  simp only [fat_well_formed, hs, List.map_cons, List.map_nil, h2, h3]
  rw [hused]
  simp only [List.all_cons, List.all_nil, Option.isSome_some, Bool.and_self, Bool.true_and,
    Bool.and_eq_true, decide_eq_true_eq, List.all_eq_true]
  refine ⟨List.nodup_range' 2 254, ?_⟩
  intro k hk
  have : (List.range' 2 254).contains k = true := by
    simp only [List.contains, List.elem_eq_mem, decide_eq_true_eq]
    exact hk
  simp only [this, Bool.true_or]

/-! ## Calls that leave the image, or its root table, as it was -/

theorem read_from_keeps_image (d : Disk) (f : cs1550_file_directory) (buf : List Nat)
    (offset : Nat) (r : Int) (buf1 : List Nat) (d1 : Disk)
    (h : read_from d f buf offset = .ok (r, buf1, d1)) : d1 = d := by
  unfold read_from at h
  simp only [read_root, read_fat, write_root, write_fat] at h
  repeat' split at h
  all_goals first
    | (simp only [Except.ok.injEq, Prod.mk.injEq] at h; exact h.2.2.symm)
    | cases h

/-- A call of `cs1550_read` that returns leaves the image as it was. -/
theorem read_keeps_image (d : Disk) (path : List Char) (buf : List Nat) (size offset : Nat)
    (r : Int) (buf1 : List Nat) (d1 : Disk)
    (h : cs1550_read d path buf size offset = .ok (r, buf1, d1)) : d1 = d := by
  unfold cs1550_read at h
  simp only [read_root] at h
  repeat' split at h
  all_goals first
    | exact read_from_keeps_image _ _ _ _ _ _ _ h
    | (simp only [Except.ok.injEq, Prod.mk.injEq] at h; exact h.2.2.symm)
    | cases h

theorem write_to_keeps_root (d : Disk) (dir : cs1550_directory)
    (dir_entry : cs1550_directory_entry) (j : Nat) (f : cs1550_file_directory) (buf : List Nat)
    (size offset : Nat) (r : Int) (d1 : Disk)
    (h : write_to d dir dir_entry j f buf size offset = .ok (r, d1)) : d1.root = d.root := by
  unfold write_to at h
  simp only [read_root, read_fat, write_root, write_fat] at h
  repeat' split at h
  all_goals first
    | (simp only [Except.ok.injEq, Prod.mk.injEq] at h; rw [← h.2])
    | cases h

/-- A call of `cs1550_write` that returns leaves the root table as it was. -/
theorem write_keeps_root (d : Disk) (path : List Char) (buf : List Nat) (size offset : Nat)
    (r : Int) (d1 : Disk) (h : cs1550_write d path buf size offset = .ok (r, d1)) :
    d1.root = d.root := by
  unfold cs1550_write at h
  simp only [read_root] at h
  repeat' split at h
  all_goals first
    | exact write_to_keeps_root _ _ _ _ _ _ _ _ _ _ h
    | (simp only [Except.ok.injEq, Prod.mk.injEq] at h; rw [← h.2])
    | cases h

/-! ## The used slots of the root table -/

/-- On a root table whose used slots are its first `nDirectories` ones, a slot
has a name exactly when its index is below `nDirectories`. -/
theorem root_compact_slot (root : cs1550_root_directory) (hc : root_compact root) (i : Nat)
    (c : cs1550_directory) (hi : root.directories[i]? = some c) :
    c.dname ≠ [] ↔ (i : Int) < root.nDirectories := by
  obtain ⟨h0, _, htake, hdrop⟩ := hc
  constructor
  · intro hn
    by_contra hlt
    have hk : root.nDirectories.toNat ≤ i := by omega
    have hmem : c ∈ root.directories.drop root.nDirectories.toNat := by
      apply List.getElem?_mem (n := i - root.nDirectories.toNat)
      rw [List.getElem?_drop, ← hi]
      congr 1
      omega
    exact hn (hdrop c hmem)
  · intro hlt
    have hk : i < root.nDirectories.toNat := by omega
    have hmem : c ∈ root.directories.take root.nDirectories.toNat := by
      apply List.getElem?_mem (n := i)
      rw [List.getElem?_take_of_lt hk, hi]
    exact htake c hmem

/-- A root table of 29 slots whose used slots are its first ones takes a
directory with a name in its first unnamed slot: the used slots of the new
table are its first ones again. -/
theorem root_compact_set (root : cs1550_root_directory) (i : Nat) (x : cs1550_directory)
    (hlen : root.directories.length = MAX_DIRS_IN_ROOT) (hc : root_compact root)
    (hidx : root.directories.findIdx? (fun c => c.dname == []) = some i) (hx : x.dname ≠ []) :
    root_compact ⟨root.nDirectories + 1, root.directories.set i x⟩ := by
  have hslot := root_compact_slot root hc
  obtain ⟨h0, hle, htake, hdrop⟩ := hc
  rw [List.findIdx?_eq_some_iff_getElem] at hidx
  obtain ⟨hi, hfree, hmin⟩ := hidx
  have hfree1 : root.directories[i].dname = [] := by simpa using hfree
  -- the first unnamed slot is the one with the index `nDirectories`
  have hik : (i : Int) = root.nDirectories := by
    have h1 : ¬ ((i : Int) < root.nDirectories) := by
      intro hlt
      exact (hslot i _ (List.getElem?_eq_getElem hi)).mpr hlt hfree1
    by_contra hne
    have hlt : root.nDirectories.toNat < i := by omega
    have hnamed := hmin root.nDirectories.toNat hlt
    have hlt2 : root.nDirectories.toNat < root.directories.length := by omega
    have := (hslot root.nDirectories.toNat _ (List.getElem?_eq_getElem hlt2)).mp
      (by simpa using hnamed)
    omega
  have hi29 : i < MAX_DIRS_IN_ROOT := by rw [← hlen]; exact hi
  refine ⟨?_, ?_, ?_, ?_⟩
  · show (0 : Int) ≤ root.nDirectories + 1
    omega
  · show root.nDirectories + 1 ≤ (MAX_DIRS_IN_ROOT : Int)
    omega
  · intro c hcm
    have hcm1 : c ∈ (root.directories.set i x).take (root.nDirectories + 1).toNat := hcm
    obtain ⟨m, hm⟩ := List.mem_iff_getElem?.mp hcm1
    rw [List.getElem?_take] at hm
    split at hm
    · rename_i hmlt
      rw [List.getElem?_set] at hm
      split at hm
      · cases hm
        exact hx
      · have hmk : (m : Int) < root.nDirectories := by omega
        exact (hslot m c hm).mpr hmk
    · cases hm
  · intro c hcm
    have hcm1 : c ∈ (root.directories.set i x).drop (root.nDirectories + 1).toNat := hcm
    obtain ⟨m, hm⟩ := List.mem_iff_getElem?.mp hcm1
    rw [List.getElem?_drop, List.getElem?_set] at hm
    split at hm
    · omega
    · by_contra hn
      have := (hslot _ c hm).mp hn
      omega

/-- What the sequences of calls keep of the root table: its 29 slots, with the
used ones first. -/
theorem apply_op_root (d d1 : Disk) (op : fs_op)
    (hlen : d.root.directories.length = MAX_DIRS_IN_ROOT) (hc : root_compact d.root)
    (h : apply_op d op = .ok d1) :
    d1.root.directories.length = MAX_DIRS_IN_ROOT ∧ root_compact d1.root := by
  have hsame : d1.root = d.root →
      d1.root.directories.length = MAX_DIRS_IN_ROOT ∧ root_compact d1.root := by
    intro e
    rw [e]
    exact ⟨hlen, hc⟩
  cases op with
  | op_getattr path stbuf =>
    simp only [apply_op] at h
    cases hr : cs1550_getattr d path stbuf with
    | error e => rw [hr] at h; cases h
    | ok x => rw [hr] at h; cases h; exact ⟨hlen, hc⟩
  | op_readdir path buf =>
    simp only [apply_op] at h
    cases hr : cs1550_readdir d path buf with
    | error e => rw [hr] at h; cases h
    | ok x => rw [hr] at h; cases h; exact ⟨hlen, hc⟩
  | op_mkdir path =>
    simp only [apply_op] at h
    cases hr : cs1550_mkdir d path with
    | error e => rw [hr] at h; cases h
    | ok x =>
      obtain ⟨r, d2⟩ := x
      rw [hr] at h
      cases h
      rcases mkdir_cases d path r d2 hr with
        h1 | ⟨directory, i, j, b, blocks1, hne, _, hidx, _, _, _, _, hd2⟩
      · exact hsame (by rw [h1])
      · subst hd2
        refine ⟨?_, root_compact_set d.root i ⟨directory, j⟩ hlen hc hidx hne⟩
        show (d.root.directories.set i ⟨directory, j⟩).length = MAX_DIRS_IN_ROOT
        rw [List.length_set]
        exact hlen
  | op_rmdir path => simp only [apply_op, cs1550_rmdir] at h; cases h; exact ⟨hlen, hc⟩
  | op_mknod path =>
    simp only [apply_op] at h
    cases hr : cs1550_mknod d path with
    | error e => rw [hr] at h; cases h
    | ok x =>
      obtain ⟨r, d2⟩ := x
      rw [hr] at h
      cases h
      rcases mknod_cases d path r d2 hr with h1 | ⟨_, _, _, _, _, _, _, _, _, _, _, hd2⟩
      · exact hsame (by rw [h1])
      · exact hsame (by rw [hd2])
  | op_unlink path => simp only [apply_op, cs1550_unlink] at h; cases h; exact ⟨hlen, hc⟩
  | op_read path buf size offset =>
    simp only [apply_op] at h
    cases hr : cs1550_read d path buf size offset with
    | error e => rw [hr] at h; cases h
    | ok x =>
      obtain ⟨r, buf1, d2⟩ := x
      rw [hr] at h
      cases h
      exact hsame (by rw [read_keeps_image d path buf size offset r buf1 d2 hr])
  | op_write path buf size offset =>
    simp only [apply_op] at h
    cases hr : cs1550_write d path buf size offset with
    | error e => rw [hr] at h; cases h
    | ok x =>
      obtain ⟨r, d2⟩ := x
      rw [hr] at h
      cases h
      exact hsame (write_keeps_root d path buf size offset r d2 hr)
  | op_truncate path size =>
    simp only [apply_op, cs1550_truncate] at h; cases h; exact ⟨hlen, hc⟩
  | op_open path => simp only [apply_op, cs1550_open] at h; cases h; exact ⟨hlen, hc⟩
  | op_flush path => simp only [apply_op, cs1550_flush] at h; cases h; exact ⟨hlen, hc⟩

theorem run_ops_root (ops : List fs_op) (d d1 : Disk)
    (hlen : d.root.directories.length = MAX_DIRS_IN_ROOT) (hc : root_compact d.root)
    (h : run_ops d ops = .ok d1) :
    d1.root.directories.length = MAX_DIRS_IN_ROOT ∧ root_compact d1.root := by
  induction ops generalizing d with
  | nil =>
    simp only [run_ops, Except.ok.injEq] at h
    rw [← h]
    exact ⟨hlen, hc⟩
  | cons op ops ih =>
    simp only [run_ops] at h
    cases hr : apply_op d op with
    | error e => rw [hr] at h; cases h
    | ok d2 =>
      rw [hr] at h
      obtain ⟨h1, h2⟩ := apply_op_root d d2 op hlen hc hr
      exact ih d2 h1 h2 h

theorem zeroed_root_compact (fat : cs1550_fat_block) (blocks : List Block) :
    (zeroed_root_disk fat blocks).root.directories.length = MAX_DIRS_IN_ROOT ∧
      root_compact (zeroed_root_disk fat blocks).root := by
  have hroot : (zeroed_root_disk fat blocks).root
      = ⟨0, List.replicate MAX_DIRS_IN_ROOT ⟨[], 0⟩⟩ := rfl
  rw [hroot]
  refine ⟨by decide, by decide, by decide, ?_, ?_⟩
  · intro c hcm
    simp at hcm
  · intro c hcm
    have hcm1 : c ∈ List.replicate MAX_DIRS_IN_ROOT (⟨[], 0⟩ : cs1550_directory) :=
      List.mem_of_mem_drop hcm
    rw [List.mem_replicate] at hcm1
    rw [hcm1.2]

/-! ## The loop of `sleep_ms` -/

/-- The loop of `sleep_ms` on a positive rest `ms`, with enough fuel: it ends,
every value it hands to `nanosleep` is between 0 and 999000000, the values sum
up to `ms` milliseconds, and there are `⌈ms / 999⌉` of them. -/
theorem sleep_loop_spec (fuel : Nat) (ms : Int) (h0 : 0 ≤ ms) (hf : ms ≤ 999 * fuel) :
    ∃ l, sleep_loop fuel ms = some l ∧ (∀ v ∈ l, 0 ≤ v ∧ v ≤ 999000000) ∧
      l.sum = ms * 1000000 ∧ (l.length : Int) = (ms + 998) / 999 := by
  induction fuel generalizing ms with
  | zero =>
    have hms : ms = 0 := by omega
    subst hms
    exact ⟨[], by simp [sleep_loop], by simp, by simp, by simp⟩
  | succ fuel ih =>
    by_cases hpos : ms > 0
    · by_cases hrest : ms - 999 > 0
      · obtain ⟨l, e1, e2, e3, e4⟩ := ih (ms - 999) (by omega) (by push_cast at hf; omega)
        refine ⟨999000000 :: l, ?_, ?_, ?_, ?_⟩
        · simp only [sleep_loop, hpos, if_true, hrest, e1, Option.map_some']
        · intro v hv
          rcases List.mem_cons.mp hv with h | h
          · rw [h]; omega
          · exact e2 v h
        · rw [List.sum_cons, e3]; omega
        · rw [List.length_cons]; push_cast; rw [e4]; omega
      · have hstop : sleep_loop fuel (ms - 999) = some [] := by
          have hn : ¬ (ms - 999 > 0) := hrest
          cases fuel with
          | zero => simp only [sleep_loop, hn, if_false]
          | succ f => simp only [sleep_loop, hn, if_false]
        refine ⟨[(ms - 999 + 999) * 1000000], ?_, ?_, ?_, ?_⟩
        · simp only [sleep_loop, hpos, if_true, hrest, if_false, hstop, Option.map_some']
        · intro v hv
          rw [List.mem_singleton] at hv
          rw [hv]; omega
        · simp only [List.sum_cons, List.sum_nil]; omega
        · simp only [List.length_cons, List.length_nil]; omega
    · have hms : ms = 0 := by omega
      subst hms
      exact ⟨[], by simp [sleep_loop], by simp, by simp, by simp⟩

/-! ## The calls on a table without a free entry -/

theorem full_fat_no_free : first_free (disk_full_fat [] 0).fat.table = none := by decide

theorem full_fat_mknod :
    cs1550_mknod (disk_full_fat [] 0) path_g
      = .ok (0, image_after (cs1550_mknod (disk_full_fat [] 0) path_g) (disk_full_fat [] 0)) := by
  decide

theorem full_fat_mknod_block :
    (image_after (cs1550_mknod (disk_full_fat [] 0) path_g) (disk_full_fat [] 0)).blocks[0]?
      = some (.dir ⟨2, ⟨['f'], ['t', 'x', 't'], 0, 3⟩
        :: ⟨['g'], ['t', 'x', 't'], 0, -1⟩ :: List.replicate 15 ⟨[], [], 0, 0⟩⟩) := by
  decide

theorem full_fat_mkdir :
    cs1550_mkdir (disk_full_fat [] 0) (dir_path ['e']) = .error .uninitialised := by
  decide

theorem full_fat_write :
    (cs1550_write (disk_full_fat [] 0) path_f (List.replicate 600 120 ++ [0]) 600 0).map
      (fun r => (r.1, r.2.fat, r.2.blocks[0]?))
      = .ok (-EPERM, (disk_full_fat [] 0).fat, (disk_full_fat [] 0).blocks[0]?) := by
  decide

/-! ## A write that runs out of free blocks -/

theorem strlen_lt (buf : List Nat) (n : Nat) (h : strlen buf = some n) : n < buf.length := by
  induction buf generalizing n with
  | nil => cases h
  | cons b bs ih =>
    unfold strlen at h
    by_cases hb : b = 0
    · rw [if_pos hb] at h
      cases h
      simp
    · rw [if_neg hb] at h
      cases hs : strlen bs with
      | none => rw [hs] at h; cases h
      | some k =>
        rw [hs] at h
        cases h
        have := ih k hs
        simp only [List.length_cons]
        omega

/-- Fewer elements pass a test that fewer elements pass, one of them less. -/
theorem filter_length_lt {α : Type} (p q : α → Bool) (l : List α)
    (hsub : ∀ x ∈ l, q x = true → p x = true)
    (hk : ∃ k ∈ l, p k = true ∧ q k = false) :
    (l.filter q).length < (l.filter p).length := by
  induction l with
  | nil => obtain ⟨k, hk, _⟩ := hk; cases hk
  | cons a t ih =>
    have hle : (t.filter q).length ≤ (t.filter p).length := by
      clear ih hk
      induction t with
      | nil => exact Nat.le_refl _
      | cons b u ihu =>
        have hu := ihu (fun x hx => hsub x (by
          rcases List.mem_cons.mp hx with h | h
          · exact h ▸ List.mem_cons_self _ _
          · exact List.mem_cons_of_mem _ (List.mem_cons_of_mem _ h)))
        have hb := hsub b (List.mem_cons_of_mem _ (List.mem_cons_self _ _))
        cases hq : q b
        · simp only [List.filter, hq]
          cases hp : p b
          · simpa using hu
          · simp only [List.length_cons]; omega
        · simp only [List.filter, hq, hb hq, List.length_cons]
          omega
    obtain ⟨k, hkm, hpk, hqk⟩ := hk
    rcases List.mem_cons.mp hkm with h | h
    · subst h
      simp only [List.filter, hpk, hqk, List.length_cons]
      omega
    · have hlt := ih (fun x hx => hsub x (List.mem_cons_of_mem _ hx)) ⟨k, h, hpk, hqk⟩
      have ha := hsub a (List.mem_cons_self _ _)
      cases hq : q a
      · simp only [List.filter, hq]
        cases hp : p a
        · simpa using hlt
        · simp only [List.length_cons]; omega
      · simp only [List.filter, hq, ha hq, List.length_cons]
        omega

/-- The entries the loop of `cs1550_write` sets are not free afterwards, and
no other entry becomes free. -/
theorem free_after_claim (table : List Int) (c k j : Nat) (hk : 2 ≤ k)
    (h : ((table.set c (k : Int)).set k EOF)[j]? = some 0) :
    table[j]? = some 0 ∧ j ≠ k := by
  by_cases hjk : j = k
  · subst hjk
    rw [List.getElem?_set] at h
    simp only [if_true] at h
    split at h
    · cases h
    · cases h
  · rw [List.getElem?_set_ne (fun e => hjk e.symm)] at h
    by_cases hjc : j = c
    · subst hjc
      rw [List.getElem?_set] at h
      simp only [if_true] at h
      split at h
      · simp only [Option.some.injEq] at h; omega
      · cases h
    · rw [List.getElem?_set_ne (fun e => hjc e.symm)] at h
      exact ⟨h, hjk⟩

/-- A claim of the free entry `k` takes one from the number of free entries. -/
theorem free_entries_claim (table : List Int) (c k : Nat) (hk : START_ALLOC_BLOCK ≤ k)
    (hk2 : k < MAX_FAT_ENTRIES) (hfree : table[k]? = some 0) :
    free_entries ((table.set c (k : Int)).set k EOF) < free_entries table := by
  unfold free_entries
  apply filter_length_lt
  · intro x _ hx
    simp only [beq_iff_eq] at hx ⊢
    exact (free_after_claim table c k x hk hx).1
  · refine ⟨k, ?_, ?_, ?_⟩
    · rw [List.mem_range']
      refine ⟨k - START_ALLOC_BLOCK, ?_, ?_⟩
      · omega
      · omega
    · simp only [beq_iff_eq]; exact hfree
    · cases hx : (((table.set c (k : Int)).set k EOF)[k]? == some 0)
      · rfl
      · simp only [beq_iff_eq] at hx
        exact absurd rfl (free_after_claim table c k k hk hx).2

/-- A whole block of bytes written at the start of a block inside the image. -/
theorem fwrite_full_block (blocks : List Block) (k : Nat) (bytes : List Nat)
    (hk : 2 ≤ k) (hin : k - 2 < blocks.length) (hlen : bytes.length = BLOCK_SIZE) :
    fwrite_in_block blocks (k : Int) 0 bytes = .ok (blocks.set (k - 2) (.data bytes)) := by
  have hne : bytes.isEmpty = false := by
    cases bytes with
    | nil => simp [BLOCK_SIZE] at hlen
    | cons a t => rfl
  simp only [fwrite_in_block, hne, Bool.false_eq_true, if_false, hlen, and_self, if_true,
    fwrite_block_inside blocks k _ hk hin]

/-- The loop of `cs1550_write` at the last block of a chain, with more bytes
left than the free entries of the table have room for: the loop claims the
free blocks one after the other, fills them, and returns from inside when no
entry is free.  The blocks whose entry was not free are as before. -/
theorem write_loop_exhausts (m : Nat) :
    ∀ (fuel : Nat) (table : List Int) (blocks : List Block) (c : Nat) (rest : List Nat),
      table[c]? = some EOF → free_entries table ≤ m → BLOCK_SIZE * m < rest.length →
      m < fuel →
      (∀ k, START_ALLOC_BLOCK ≤ k → k < MAX_FAT_ENTRIES → table[k]? = some 0 →
        k - 2 < blocks.length) →
      ∃ blocks2, write_loop fuel table blocks (c : Int) rest = .ok (.no_block blocks2) ∧
        blocks2.length = blocks.length ∧
        ∀ i : Nat, table[i + 2]? ≠ some 0 → blocks2[i]? = blocks[i]? := by
  induction m with
  | zero =>
    intro fuel table blocks c rest hc hm hrest hfuel hin
    cases fuel with
    | zero => omega
    | succ fuel =>
      have hne : rest.isEmpty = false := by
        cases rest with
        | nil => simp at hrest
        | cons a t => rfl
      have hget : fat_get table (c : Int) = .ok EOF := by
        have h0 : ¬ ((c : Int) < 0) := by omega
        simp only [fat_get, h0, if_false, Int.toNat_ofNat, hc]
      have hnone : first_free table = none := by
        apply first_free_from_none
        intro k h1 h2 h3
        have hpos : 0 < free_entries table := by
          unfold free_entries
          apply List.length_pos_of_mem (a := k)
          rw [List.mem_filter]
          refine ⟨?_, by simp only [beq_iff_eq]; exact h3⟩
          rw [List.mem_range']
          exact ⟨k - START_ALLOC_BLOCK, by omega, by omega⟩
        omega
      refine ⟨blocks, ?_, rfl, fun _ _ => rfl⟩
      simp only [write_loop, hne, Bool.false_eq_true, if_false, hget, if_true, hnone]
  | succ m ih =>
    intro fuel table blocks c rest hc hm hrest hfuel hin
    cases fuel with
    | zero => omega
    | succ fuel =>
      have hne : rest.isEmpty = false := by
        cases rest with
        | nil => simp at hrest
        | cons a t => rfl
      have hget : fat_get table (c : Int) = .ok EOF := by
        have h0 : ¬ ((c : Int) < 0) := by omega
        simp only [fat_get, h0, if_false, Int.toNat_ofNat, hc]
      cases hff : first_free table with
      | none =>
        refine ⟨blocks, ?_, rfl, fun _ _ => rfl⟩
        simp only [write_loop, hne, Bool.false_eq_true, if_false, hget, if_true, hff]
      | some k =>
        obtain ⟨hk1, hk2, hk3, _⟩ := first_free_min table k hff
        have hk1n : 2 ≤ k := hk1
        have hkin := hin k hk1 hk2 hk3
        have htake : (rest.take BLOCK_SIZE).length = BLOCK_SIZE := by
          rw [List.length_take]
          have : BLOCK_SIZE ≤ rest.length := by
            have : BLOCK_SIZE * (m + 1) = BLOCK_SIZE * m + BLOCK_SIZE := by ring
            omega
          omega
        have hw := fwrite_full_block blocks k (rest.take BLOCK_SIZE) hk1n hkin htake
        have hdrop : BLOCK_SIZE * m < (rest.drop BLOCK_SIZE).length := by
          rw [List.length_drop]
          have : BLOCK_SIZE * (m + 1) = BLOCK_SIZE * m + BLOCK_SIZE := by ring
          omega
        have hlt := free_entries_claim table c k hk1 hk2 hk3
        have hklen : k < (table.set c (k : Int)).length := by
          rw [List.length_set]
          exact (List.getElem?_eq_some_iff.mp hk3).1
        obtain ⟨blocks2, h1, h2, h3⟩ := ih fuel ((table.set c (k : Int)).set k EOF)
          (blocks.set (k - 2) (.data (rest.take BLOCK_SIZE))) k (rest.drop BLOCK_SIZE)
          (List.getElem?_set_self hklen) (by omega) hdrop (by omega)
          (fun j hj1 hj2 hj3 => by
            rw [List.length_set]
            exact hin j hj1 hj2 (free_after_claim table c k j hk1n hj3).1)
        refine ⟨blocks2, ?_, ?_, ?_⟩
        · simp only [write_loop, hne, Bool.false_eq_true, if_false, hget, if_true, hff,
            Int.toNat_ofNat, hw, h1]
        · rw [h2, List.length_set]
        · intro i hi
          rw [h3 i (fun hx => hi (free_after_claim table c k (i + 2) hk1n hx).1)]
          apply List.getElem?_set_ne
          intro e
          apply hi
          have : i + 2 = k := by omega
          rw [this]; exact hk3

/-- A chain starts with the block it is asked for, a block from 2 to 255. -/
theorem chain_head (table : List Int) (fuel : Nat) (b : Int) (bs : List Nat)
    (h : chain table fuel b = some bs) :
    2 ≤ b.toNat ∧ b.toNat < MAX_FAT_ENTRIES ∧ b = (b.toNat : Int) ∧ ∃ t, bs = b.toNat :: t := by
  cases fuel with
  | zero => cases h
  | succ fuel =>
    unfold chain at h
    split at h
    · cases h
    · rename_i hr
      simp only [START_ALLOC_BLOCK, MAX_FAT_ENTRIES, BLOCK_SIZE, sizeof_short] at hr ⊢
      refine ⟨by omega, by omega, by omega, ?_⟩
      split at h
      · cases h
      · split at h
        · cases h; exact ⟨[], rfl⟩
        · cases hc : chain table fuel _ with
          | none => rw [hc] at h; cases h
          | some t => rw [hc] at h; cases h; exact ⟨t, rfl⟩

/-- A chain is its first block alone, whose entry is the end-of-chain mark, or
its first block and the chain of the block its entry names. -/
theorem chain_cases (table : List Int) (fuel : Nat) (b : Int) (bs : List Nat)
    (h : chain table (fuel + 1) b = some bs) :
    (table[b.toNat]? = some EOF ∧ bs = [b.toNat]) ∨
    ∃ v t, table[b.toNat]? = some v ∧ v ≠ EOF ∧ chain table fuel v = some t
      ∧ bs = b.toNat :: t := by
  unfold chain at h
  split at h
  · cases h
  · split at h
    · cases h
    · rename_i v hv
      split at h
      · rename_i he
        cases h
        exact Or.inl ⟨by rw [hv, he], rfl⟩
      · rename_i he
        cases hc : chain table fuel v with
        | none => rw [hc] at h; cases h
        | some t =>
          rw [hc] at h
          cases h
          exact Or.inr ⟨v, t, hv, he, hc, rfl⟩

/-- The walk of `cs1550_write` to the block of the offset follows the chain. -/
theorem chain_walk (table : List Int) (q : Nat) :
    ∀ (fuel : Nat) (b : Int) (bs : List Nat), chain table fuel b = some bs → q < bs.length →
      ∃ c : Nat, bs[q]? = some c ∧ fat_walk table q b = .ok (c : Int) ∧
        ∃ fuel1, chain table fuel1 (c : Int) = some (bs.drop q) := by
  induction q with
  | zero =>
    intro fuel b bs h _
    obtain ⟨_, _, hb, t, ht⟩ := chain_head table fuel b bs h
    refine ⟨b.toNat, by rw [ht]; exact List.getElem?_cons_zero, ?_, fuel, ?_⟩
    · rw [fat_walk, ← hb]
    · rw [← hb, List.drop_zero]; exact h
  | succ q ih =>
    intro fuel b bs h hq
    cases fuel with
    | zero => cases h
    | succ fuel =>
      obtain ⟨hb2, _, hb, _⟩ := chain_head table (fuel + 1) b bs h
      rcases chain_cases table fuel b bs h with ⟨_, hbs⟩ | ⟨v, t, hv, _, hc, hbs⟩
      · rw [hbs] at hq
        simp only [List.length_singleton] at hq
        omega
      · subst hbs
        simp only [List.length_cons] at hq
        obtain ⟨c, h1, h2, fuel1, h3⟩ := ih fuel v t hc (by omega)
        have hget : fat_get table b = .ok v := by
          have h0 : ¬ (b < 0) := by omega
          simp only [fat_get, h0, if_false, hv]
        refine ⟨c, ?_, ?_, fuel1, ?_⟩
        · rw [List.getElem?_cons_succ]; exact h1
        · simp only [fat_walk, hget, h2]
        · rw [List.drop_succ_cons]; exact h3

/-- A block that `fread_data` reads is inside the image. -/
theorem fread_data_inside (blocks : List Block) (c : Nat) (bytes : List Nat)
    (h : fread_data blocks (c : Int) = .ok bytes) :
    2 ≤ c ∧ c - 2 < blocks.length ∧ ∃ b, blocks[c - 2]? = some b ∧ b.asData = some bytes := by
  unfold fread_data fread_block at h
  by_cases h1 : (c : Int) < 0
  · simp only [h1, if_true] at h; cases h
  · by_cases h2 : (c : Int) < 2
    · simp only [h1, h2, if_true, if_false] at h; cases h
    · simp only [h1, h2, if_false] at h
      have h4 : ((c : Int) - 2).toNat = c - 2 := by omega
      rw [h4] at h
      cases hb : blocks[c - 2]? with
      | none => rw [hb] at h; cases h
      | some b =>
        rw [hb] at h
        simp only at h
        cases ha : b.asData with
        | none => rw [ha] at h; cases h
        | some x =>
          rw [ha] at h
          simp only [Except.ok.injEq] at h
          subst h
          exact ⟨by omega, (List.getElem?_eq_some_iff.mp hb).1, b, rfl, ha⟩

/-- A write inside a block that holds data changes this block alone. -/
theorem fwrite_in_block_other (blocks : List Block) (c off : Nat) (bytes old : List Nat)
    (h : fread_data blocks (c : Int) = .ok old) :
    ∃ blocks1, fwrite_in_block blocks (c : Int) off bytes = .ok blocks1 ∧
      blocks1.length = blocks.length ∧ ∀ i : Nat, i ≠ c - 2 → blocks1[i]? = blocks[i]? := by
  obtain ⟨hc, hin, b, hb, ha⟩ := fread_data_inside blocks c old h
  have hrd : fread_block blocks (c : Int) = .ok (some b) := by
    have h1 : ¬ ((c : Int) < 0) := by omega
    have h2 : ¬ ((c : Int) < 2) := by omega
    have h4 : ((c : Int) - 2).toNat = c - 2 := by omega
    simp only [fread_block, h1, h2, if_false, h4, hb]
  unfold fwrite_in_block
  by_cases he : bytes.isEmpty = true
  · rw [if_pos he]
    exact ⟨blocks, rfl, rfl, fun _ _ => rfl⟩
  · rw [if_neg he]
    by_cases hf : off = 0 ∧ bytes.length = BLOCK_SIZE
    · rw [if_pos hf, fwrite_block_inside blocks c _ hc hin]
      exact ⟨_, rfl, List.length_set _ _ _, fun i hi => List.getElem?_set_ne (fun e => hi e.symm)⟩
    · rw [if_neg hf]
      simp only [hrd, ha, fwrite_block_inside blocks c _ hc hin]
      exact ⟨_, rfl, List.length_set _ _ _, fun i hi => List.getElem?_set_ne (fun e => hi e.symm)⟩

/-- The loop of `cs1550_write` inside a chain, with more bytes left than the
rest of the chain and the free entries of the table have room for: the loop
fills the rest of the chain, claims the free blocks one after the other, and
returns from inside when no entry is free.  The blocks outside the rest of
the chain whose entry was not free are as before. -/
theorem write_loop_chain (table : List Int) (cfuel : Nat) :
    ∀ (fuel : Nat) (blocks : List Block) (b : Int) (bs : List Nat) (rest : List Nat) (m : Nat),
      chain table cfuel b = some bs → (∀ x ∈ bs, x - 2 < blocks.length) →
      free_entries table ≤ m → BLOCK_SIZE * (bs.length - 1 + m) < rest.length →
      bs.length - 1 + m < fuel →
      (∀ k, START_ALLOC_BLOCK ≤ k → k < MAX_FAT_ENTRIES → table[k]? = some 0 →
        k - 2 < blocks.length) →
      ∃ blocks2, write_loop fuel table blocks b rest = .ok (.no_block blocks2) ∧
        blocks2.length = blocks.length ∧
        ∀ i : Nat, i + 2 ∉ bs.tail → table[i + 2]? ≠ some 0 → blocks2[i]? = blocks[i]? := by
  induction cfuel with
  | zero => intro fuel blocks b bs rest m h; cases h
  | succ cfuel ih =>
    intro fuel blocks b bs rest m h hin hm hrest hfuel hfree
    obtain ⟨hb2, _, hb, _⟩ := chain_head table (cfuel + 1) b bs h
    rcases chain_cases table cfuel b bs h with ⟨he, hbs⟩ | ⟨v, t, hv, hne, hc, hbs⟩
    · subst hbs
      simp only [List.length_singleton, Nat.sub_self, Nat.zero_add] at hrest hfuel
      obtain ⟨blocks2, h1, h2, h3⟩ := write_loop_exhausts m fuel table blocks b.toNat rest he hm
        hrest hfuel hfree
      rw [← hb] at h1
      exact ⟨blocks2, h1, h2, fun i _ hi => h3 i hi⟩
    · subst hbs
      obtain ⟨hv2, _, hvv, u, hu⟩ := chain_head table cfuel v t hc
      simp only [List.length_cons, Nat.add_sub_cancel] at hrest hfuel
      have htl : t.length = u.length + 1 := by rw [hu]; rfl
      cases fuel with
      | zero => omega
      | succ fuel =>
        have hnemp : rest.isEmpty = false := by
          cases rest with
          | nil => simp at hrest
          | cons a r => rfl
        have hget : fat_get table b = .ok v := by
          have h0 : ¬ (b < 0) := by omega
          simp only [fat_get, h0, if_false, hv]
        have hvin : v.toNat - 2 < blocks.length :=
          hin v.toNat (List.mem_cons_of_mem _ (by rw [hu]; exact List.mem_cons_self _ _))
        have hmul : BLOCK_SIZE * (t.length + m) = BLOCK_SIZE * (t.length - 1 + m) + BLOCK_SIZE := by
          rw [htl]
          simp only [Nat.add_sub_cancel]
          ring
        have htake : (rest.take BLOCK_SIZE).length = BLOCK_SIZE := by
          rw [List.length_take]
          omega
        have hw := fwrite_full_block blocks v.toNat (rest.take BLOCK_SIZE) hv2 hvin htake
        rw [← hvv] at hw
        obtain ⟨blocks2, h1, h2, h3⟩ := ih fuel
          (blocks.set (v.toNat - 2) (.data (rest.take BLOCK_SIZE))) v t (rest.drop BLOCK_SIZE) m
          hc
          (fun x hx => by rw [List.length_set]; exact hin x (List.mem_cons_of_mem _ hx))
          hm (by rw [List.length_drop]; omega) (by omega)
          (fun k hk1 hk2 hk3 => by rw [List.length_set]; exact hfree k hk1 hk2 hk3)
        refine ⟨blocks2, ?_, ?_, ?_⟩
        · simp only [write_loop, hnemp, Bool.false_eq_true, if_false, hget, hne, hw, h1]
        · rw [h2, List.length_set]
        · intro i hi1 hi2
          simp only [List.tail_cons] at hi1
          rw [h3 i (fun hx => hi1 (List.mem_of_mem_tail hx)) hi2]
          apply List.getElem?_set_ne
          intro e
          apply hi1
          rw [hu]
          have : i + 2 = v.toNat := by omega
          rw [this]
          exact List.mem_cons_self _ _

/-- The part of `cs1550_write` behind the search for the file, on a buffer
of at least one block with more bytes behind the first block than the rest of
the chain and the free entries of the table have room for: it returns
`-EPERM` from inside the loop; the root table, the allocation table and the
directory block of the image are as before. -/
theorem write_to_exhausts (d : Disk) (dir : cs1550_directory)
    (dir_entry : cs1550_directory_entry) (j : Nat) (f : cs1550_file_directory)
    (buf : List Nat) (size offset n : Nat) (bs : List Nat)
    (hblock : fread_dir d.blocks dir.nStartBlock = .ok (some dir_entry))
    (hlen : strlen buf = some n) (hn : BLOCK_SIZE ≤ n) (hoff : offset ≤ f.fsize)
    (hchain : chain d.fat.table MAX_FAT_ENTRIES f.nStartBlock = some bs)
    (hq : offset / BLOCK_SIZE < bs.length)
    (hdata : ∀ b ∈ bs, ∃ bytes, fread_data d.blocks (b : Int) = .ok bytes)
    (hfree : ∀ k, START_ALLOC_BLOCK ≤ k → k < MAX_FAT_ENTRIES → d.fat.table[k]? = some 0 →
      k - 2 < d.blocks.length)
    (hdir : dir.nStartBlock.toNat ∉ bs)
    (hdir0 : d.fat.table[dir.nStartBlock.toNat]? ≠ some 0)
    (hmore : BLOCK_SIZE * (bs.length - 1 - offset / BLOCK_SIZE + free_entries d.fat.table)
      < n - (BLOCK_SIZE - offset % BLOCK_SIZE)) :
    ∃ d1, write_to d dir dir_entry j f buf size offset = .ok (-EPERM, d1) ∧
      d1.root = d.root ∧ d1.fat = d.fat ∧
      fread_dir d1.blocks dir.nStartBlock = .ok (some dir_entry) := by
  obtain ⟨c, hc, hwalk, cf, hcchain⟩ :=
    chain_walk d.fat.table (offset / BLOCK_SIZE) MAX_FAT_ENTRIES f.nStartBlock bs hchain hq
  have hcmem : c ∈ bs := List.getElem?_mem hc
  obtain ⟨old, hold⟩ := hdata c hcmem
  obtain ⟨blocks1, hw1, hl1, ho1⟩ := fwrite_in_block_other d.blocks c
    (offset - offset / BLOCK_SIZE * BLOCK_SIZE)
    (buf.take (BLOCK_SIZE - (offset - offset / BLOCK_SIZE * BLOCK_SIZE))) old hold
  have hnlt := strlen_lt buf n hlen
  have hoffb : offset - offset / BLOCK_SIZE * BLOCK_SIZE = offset % BLOCK_SIZE := by
    simp only [BLOCK_SIZE]; omega
  have hmodlt : offset % BLOCK_SIZE < BLOCK_SIZE := Nat.mod_lt _ (by decide)
  have hrl : ((buf.take n).drop
      (n - (n - (BLOCK_SIZE - (offset - offset / BLOCK_SIZE * BLOCK_SIZE))))).length
        = n - (BLOCK_SIZE - offset % BLOCK_SIZE) := by
    rw [List.length_drop, List.length_take, hoffb]
    omega
  have hdl : (bs.drop (offset / BLOCK_SIZE)).length - 1
      = bs.length - 1 - offset / BLOCK_SIZE := by
    rw [List.length_drop]; omega
  have hmul : bs.length - 1 - offset / BLOCK_SIZE + free_entries d.fat.table
      ≤ BLOCK_SIZE * (bs.length - 1 - offset / BLOCK_SIZE + free_entries d.fat.table) :=
    Nat.le_mul_of_pos_left _ (by decide)
  obtain ⟨blocks2, h1, h2, h3⟩ := write_loop_chain d.fat.table cf
    ((buf.take n).drop
      (n - (n - (BLOCK_SIZE - (offset - offset / BLOCK_SIZE * BLOCK_SIZE))))).length
    blocks1 (c : Int) (bs.drop (offset / BLOCK_SIZE))
    ((buf.take n).drop (n - (n - (BLOCK_SIZE - (offset - offset / BLOCK_SIZE * BLOCK_SIZE)))))
    (free_entries d.fat.table) hcchain
    (fun x hx => by
      obtain ⟨bytes, hb⟩ := hdata x (List.mem_of_mem_drop hx)
      rw [hl1]
      exact (fread_data_inside d.blocks x bytes hb).2.1)
    (Nat.le_refl _) (by rw [hrl, hdl]; exact hmore) (by rw [hrl, hdl]; omega)
    (fun k hk1 hk2 hk3 => by rw [hl1]; exact hfree k hk1 hk2 hk3)
  refine ⟨{ d with blocks := blocks2 }, ?_, rfl, rfl, ?_⟩
  · have hoff1 : ¬ (offset > f.fsize) := by omega
    simp only [write_to, read_fat, hlen, hoff1, if_false, hwalk, ge_iff_le, hn, if_true, hw1, h1]
  · unfold fread_dir at hblock ⊢
    have hrb : fread_block blocks2 dir.nStartBlock = fread_block d.blocks dir.nStartBlock := by
      unfold fread_block
      by_cases hd1 : dir.nStartBlock < 0
      · simp only [hd1, if_true]
      · by_cases hd2 : dir.nStartBlock < 2
        · simp only [hd1, hd2, if_true, if_false]
        · simp only [hd1, hd2, if_false, Except.ok.injEq]
          have hi : (dir.nStartBlock - 2).toNat + 2 = dir.nStartBlock.toNat := by omega
          rw [h3 (dir.nStartBlock - 2).toNat
            (by rw [hi]; exact fun hx => hdir (List.mem_of_mem_drop (List.mem_of_mem_tail hx)))
            (by rw [hi]; exact hdir0)]
          apply ho1
          intro e
          apply hdir
          have : dir.nStartBlock.toNat = c := by
            have := (fread_data_inside d.blocks c old hold).1
            omega
          rw [this]; exact hcmem
    rw [hrb]
    exact hblock

/-- The length of a text of `n` bytes `b` with its NUL. -/
theorem strlen_replicate (n b : Nat) (hb : b ≠ 0) :
    strlen (List.replicate n b ++ [0]) = some n := by
  induction n with
  | zero => rfl
  | succ n ih =>
    rw [List.replicate_succ, List.cons_append, strlen, if_neg hb, ih]
    rfl

/-- The file `/d/f.txt` of `disk_one_free`. -/
theorem one_free_file :
    file_at disk_one_free ['d'] ['f'] (some ['t', 'x', 't']) ⟨['d'], 2⟩ (one_file_table 511) 0
      ⟨['f'], ['t', 'x', 't'], 511, 3⟩ :=
  ⟨by decide, by decide, by decide, by decide, by decide,
    fun e he => by cases he; exact ⟨by decide, by decide, by decide⟩,
    by decide, by decide, by decide⟩

/-- The chain of the file of `disk_one_free` is block 3 alone. -/
theorem one_free_chain :
    chain disk_one_free.fat.table MAX_FAT_ENTRIES (3 : Int) = some [3] := by
  decide

/-- Block 3 of `disk_one_free` holds the bytes of the file. -/
theorem one_free_data :
    fread_data disk_one_free.blocks (3 : Int)
      = .ok (List.replicate 511 97 ++ List.replicate (512 - (List.replicate 511 97).length) 0) := by
  decide

/-- The image `disk_one_free` holds the block of its free entry. -/
theorem one_free_inside :
    ∀ k < MAX_FAT_ENTRIES, START_ALLOC_BLOCK ≤ k → disk_one_free.fat.table[k]? = some 0 →
      k - 2 < disk_one_free.blocks.length := by
  decide

/-- The table of `disk_one_free` has one free entry. -/
theorem one_free_entries : free_entries disk_one_free.fat.table = 1 := by
  decide

/-! ## The claims -/

set_option maxRecDepth 100000

/-- C1 fails on the code. The file `/d/f.txt` is created, the three bytes
`abc` are written at offset 0 (the call returns 3), and the read of 3 bytes at
offset 0 returns 512, not 3, with `abc` in the buffer.  Written from `a`, NUL,
`b`, the call returns 1 and stores one byte. -/
theorem fresh_file_round_trip :
    cs1550_mknod disk_one_dir path_f = .ok (0, disk_one_file [] 0) ∧
    cs1550_write (disk_one_file [] 0) path_f [97, 98, 99, 0] 3 0
      = .ok (3, disk_one_file [97, 98, 99] 3) ∧
    cs1550_read (disk_one_file [97, 98, 99] 3) path_f [0, 0, 0] 3 0
      = .ok (512, [97, 98, 99], disk_one_file [97, 98, 99] 3) ∧
    cs1550_write (disk_one_file [] 0) path_f [97, 0, 98, 0] 3 0
      = .ok (1, disk_one_file [97] 1) := by
  decide

/-- C2 fails on the code. Five bytes appended at offset 510 of a file of 510
bytes: the call returns 5 and the entry gets the size 515, but the table is
as before (the chain stays one block), the last three bytes lie at the start
of block 4, which is not in the chain, and the read of 515 bytes at offset 0
returns 512 and leaves the last three bytes of the buffer as they were. -/
theorem append_across_block_end :
    ∃ d1, cs1550_write (disk_one_file (List.replicate 510 120) 510) path_f
        [104, 101, 108, 108, 111, 0] 5 510 = .ok (5, d1) ∧
      d1.fat = (disk_one_file (List.replicate 510 120) 510).fat ∧
      d1.blocks[0]? = some (.dir (one_file_table 515)) ∧
      d1.blocks[1]? = some (.data (List.replicate 510 120 ++ [104, 101])) ∧
      d1.blocks[2]? = some (.data ([108, 108, 111] ++ List.replicate 509 0)) ∧
      cs1550_read d1 path_f (List.replicate 515 0) 515 0
        = .ok (512, List.replicate 510 120 ++ [104, 101, 0, 0, 0], d1) :=
  ⟨image_after (cs1550_write (disk_one_file (List.replicate 510 120) 510) path_f
      [104, 101, 108, 108, 111, 0] 5 510) (disk_one_file (List.replicate 510 120) 510),
    by decide, by decide, by decide, by decide, by decide, by decide⟩

/-- C3, amended. After a call of `cs1550_write` that returns no error, for a
buffer of `n` bytes before its NUL, with `size = n`, at an offset `o` up to
the size `s` of the entry, the entry stored under the path has the size
`max(s, o + n)` when `n ≥ 512` and `o ≠ n`, and when `n < 512` and `o = s`
or `s ≤ n`; when a text of `0 < n < 512` bytes is written at offset 0 of a
longer file, the stored size is `n`: the file is cut to the text. -/
theorem size_update (d : Disk) (dname fname : List Char) (ext : Option (List Char))
    (dir : cs1550_directory) (dir_entry : cs1550_directory_entry) (j : Nat)
    (f : cs1550_file_directory) (buf : List Nat) (n o : Nat) (r : Int) (d1 : Disk)
    (h : file_at d dname fname ext dir dir_entry j f)
    (hbuf : strlen buf = some n) (ho : o ≤ f.fsize)
    (hw : cs1550_write d (file_path dname fname ext) buf n o = .ok (r, d1)) (hr : 0 ≤ r) :
    ∃ dir_entry1 f1, file_at d1 dname fname ext dir dir_entry1 j f1 ∧
      (((BLOCK_SIZE ≤ n ∧ o ≠ n) ∨ (n < BLOCK_SIZE ∧ (o = f.fsize ∨ f.fsize ≤ n))) →
        f1.fsize = max f.fsize (o + n)) ∧
      ((n < BLOCK_SIZE ∧ o = 0 ∧ 0 < n ∧ n < f.fsize) → f1.fsize = n) := by
  rw [write_at_file h] at hw
  obtain ⟨_, hroot, hblock⟩ := write_to_ok d dir dir_entry j f buf n o n r d1 hbuf hw hr
  have hm := find_file_matches _ _ _ _ _ _ h.slot
  have hslot := find_file_set fname ext dir_entry.files 0 j f
    { f with fsize := fsize_stored f.fsize n o n } h.slot hm
  have harith := fsize_stored_eq f.fsize n o ho
  refine ⟨_, { f with fsize := fsize_stored f.fsize n o n },
    ⟨h.dname_ne, h.dname_slash, h.fname_ne, h.fname_dot, h.fname_len, h.ext_ok,
      by rw [hroot]; exact h.in_root, hblock, hslot⟩, harith.1, harith.2⟩

/-- The text `de` appended to the file `/d/f.txt` of three bytes. -/
theorem size_update_witness :
    ∃ dir_entry1 f1,
      file_at (disk_one_file [97, 98, 99, 100, 101] 5) ['d'] ['f'] (some ['t', 'x', 't'])
        ⟨['d'], 2⟩ dir_entry1 0 f1 ∧ f1.fsize = max 3 (3 + 2) :=
  match size_update (disk_one_file [97, 98, 99] 3) ['d'] ['f'] (some ['t', 'x', 't'])
      ⟨['d'], 2⟩ (one_file_table 3) 0 ⟨['f'], ['t', 'x', 't'], 3, 3⟩ [100, 101, 0] 2 3 2
      (disk_one_file [97, 98, 99, 100, 101] 5)
      ⟨by decide, by decide, by decide, by decide, by decide,
        fun e he => by cases he; exact ⟨by decide, by decide, by decide⟩,
        by decide, by decide, by decide⟩
      (by decide) (by decide) (by decide) (by decide) with
  | ⟨e1, f1, hfa, h1, _⟩ => ⟨e1, f1, hfa, h1 (Or.inr ⟨by decide, Or.inl rfl⟩)⟩

/-- C3 as stated fails on its own example: the four bytes `word` written at
offset 0 of the file of 12 bytes `this is text` leave the size 4, not 12. -/
theorem overwrite_shortens :
    cs1550_write (disk_one_file [116, 104, 105, 115, 32, 105, 115, 32, 116, 101, 120, 116] 12)
        path_f [119, 111, 114, 100, 0] 4 0
      = .ok (4, disk_one_file [119, 111, 114, 100] 4) ∧
    (4 : Nat) ≠ max 12 (0 + 4) := by
  decide

/-- C4. For an existing file with entry size `s` and an offset `o > s`,
`cs1550_read` and `cs1550_write` (on a buffer that `strlen` can measure) both
return `-EFBIG`; the read buffer and the whole image are as before. -/
theorem offset_out_of_range (d : Disk) (dname fname : List Char) (ext : Option (List Char))
    (dir : cs1550_directory) (dir_entry : cs1550_directory_entry) (j : Nat)
    (f : cs1550_file_directory) (h : file_at d dname fname ext dir dir_entry j f)
    (rbuf wbuf : List Nat) (size offset : Nat)
    (ho : f.fsize < offset) (hw : (strlen wbuf).isSome) :
    cs1550_read d (file_path dname fname ext) rbuf size offset = .ok (-EFBIG, rbuf, d) ∧
    cs1550_write d (file_path dname fname ext) wbuf size offset = .ok (-EFBIG, d) := by
  constructor
  · rw [read_at_file h]
    simp only [read_from, gt_iff_lt, ho, if_true]
  · rw [write_at_file h]
    obtain ⟨n, hn⟩ := Option.isSome_iff_exists.mp hw
    simp only [write_to, hn, gt_iff_lt, ho, if_true]

/-- The file `/d/f.txt` of three bytes, read and written at offset 4. -/
theorem offset_out_of_range_witness :
    cs1550_read (disk_one_file [97, 98, 99] 3) (file_path ['d'] ['f'] (some ['t', 'x', 't']))
        [0, 0] 2 4 = .ok (-EFBIG, [0, 0], disk_one_file [97, 98, 99] 3) ∧
    cs1550_write (disk_one_file [97, 98, 99] 3) (file_path ['d'] ['f'] (some ['t', 'x', 't']))
        [120, 0] 1 4 = .ok (-EFBIG, disk_one_file [97, 98, 99] 3) :=
  offset_out_of_range (disk_one_file [97, 98, 99] 3) ['d'] ['f'] (some ['t', 'x', 't'])
    ⟨['d'], 2⟩ (one_file_table 3) 0 ⟨['f'], ['t', 'x', 't'], 3, 3⟩
    ⟨by decide, by decide, by decide, by decide, by decide,
      fun e he => by cases he; exact ⟨by decide, by decide, by decide⟩,
      by decide, by decide, by decide⟩
    [0, 0] [120, 0] 2 4 (by decide) (by decide)

/-- C5 fails on the code. On a file of 3 bytes the read of 3 bytes at offset
0 returns 512, and the read of 10 bytes at offset 3, the size of the file,
returns 509, not 0. -/
theorem read_length_short_file :
    cs1550_read (disk_one_file [97, 98, 99] 3) path_f [0, 0, 0] 3 0
      = .ok (512, [97, 98, 99], disk_one_file [97, 98, 99] 3) ∧
    cs1550_read (disk_one_file [97, 98, 99] 3) path_f (List.replicate 10 7) 10 3
      = .ok (509, [0, 0, 0, 7, 7, 7, 7, 7, 7, 7], disk_one_file [97, 98, 99] 3) := by
  decide

/-- C6 fails on the code. Two images with the same root table, the same
allocation table and the same directory block, whose file differs in the
bytes of its second block only: the same read returns 514 on one and 516 on
the other. -/
theorem read_length_depends_on_content :
    (disk_two_blocks [97, 98]).root = (disk_two_blocks [97, 98, 99, 100]).root ∧
    (disk_two_blocks [97, 98]).fat = (disk_two_blocks [97, 98, 99, 100]).fat ∧
    (disk_two_blocks [97, 98]).blocks[0]? = (disk_two_blocks [97, 98, 99, 100]).blocks[0]? ∧
    (cs1550_read (disk_two_blocks [97, 98]) path_f (List.replicate 1024 0) 1024 0).map
      (fun r => r.1) = .ok 514 ∧
    (cs1550_read (disk_two_blocks [97, 98, 99, 100]) path_f (List.replicate 1024 0) 1024 0).map
      (fun r => r.1) = .ok 516 := by
  decide

/-- C7. For a name of 1 to 8 characters without a slash that no slot of the
root table holds, on an image whose root table counts its used slots and has
fewer than 29 of them, whose allocation table has a free entry at an index
from 2 on and which holds the blocks the table can address,
`cs1550_mkdir("/name")` returns 0 and `cs1550_getattr("/name")` on the image
it leaves returns 0 and reports a directory with link count 2. -/
theorem mkdir_then_getattr (d : Disk) (dname : List Char) (st : stat)
    (hne : dname ≠ []) (hlen : dname.length ≤ MAX_FILENAME) (hs : '/' ∉ dname)
    (hnew : ∀ c ∈ d.root.directories, c.dname ≠ dname)
    (hshape : d.root.directories.length = MAX_DIRS_IN_ROOT)
    (hcount : d.root.nDirectories = used_dirs d.root)
    (hlt : used_dirs d.root < MAX_DIRS_IN_ROOT)
    (hfree : ∃ k, START_ALLOC_BLOCK ≤ k ∧ k < MAX_FAT_ENTRIES ∧ d.fat.table[k]? = some 0)
    (himg : MAX_FAT_ENTRIES - 1 ≤ d.blocks.length) :
    ∃ d1, cs1550_mkdir d (dir_path dname) = .ok (0, d1) ∧
      cs1550_getattr d1 (dir_path dname) st = .ok (0, dir_stat) ∧
      dir_stat.st_mode = S_IFDIR ||| 0o755 ∧ dir_stat.st_nlink = 2 := by
  obtain ⟨j, hj, hj2, hj3, _⟩ := first_free_from_some d.fat.table
    (MAX_FAT_ENTRIES - START_ALLOC_BLOCK) START_ALLOC_BLOCK
    (by obtain ⟨k, h1, h2, h3⟩ := hfree
        exact ⟨k, h1, by simp only [MAX_FAT_ENTRIES, START_ALLOC_BLOCK, BLOCK_SIZE, sizeof_short] at *; omega, h3⟩)
  simp only [MAX_FAT_ENTRIES, START_ALLOC_BLOCK, BLOCK_SIZE, sizeof_short] at hj2 hj3 himg
  have hused : used_dirs d.root < d.root.directories.length := by rw [hshape]; exact hlt
  obtain ⟨i, hi, _, hfind⟩ := mkdir_slot d.root.directories ⟨dname, (j : Int)⟩ hnew hused
  obtain ⟨b, hb⟩ := fread_block_inside d.blocks j hj2 (by omega)
  have hw := fwrite_block_inside d.blocks (j + 1) (.dir zero_directory_entry) (by omega) (by omega)
  have hany : d.root.directories.any (fun c => c.dname == dname) = false := by
    rw [List.any_eq_false]
    intro c hc
    simpa using hnew c hc
  have hcap : ¬ (to_size_t d.root.nDirectories ≥ MAX_DIRS_IN_ROOT) := by
    rw [hcount, to_size_t_natCast _ (by simp only [MAX_DIRS_IN_ROOT, BLOCK_SIZE, sizeof_int, MAX_FILENAME, sizeof_long] at hlt; omega)]
    omega
  have hlen1 : ¬ (dname.length > MAX_FILENAME) := by omega
  refine ⟨write_fat (write_root { d with blocks := d.blocks.set (j + 1 - 2) (.dir zero_directory_entry) }
      ⟨d.root.nDirectories + 1, d.root.directories.set i ⟨dname, (j : Int)⟩⟩) ⟨d.fat.table.set j EOF⟩,
    ?_, ?_, rfl, rfl⟩
  · simp only [cs1550_mkdir, dir_path, strtok_leading, strtok_token_end dname '/' hne hs,
      strtok_nil, hlen1, if_false, nonempty_ptr, read_root, read_fat, hcap, hany, hi,
      first_free, hj, hb]
    rw [show ((j : Int) + 1) = ((j + 1 : Nat) : Int) by push_cast; rfl, hw]
    simp only [Bool.false_eq_true, if_false]
  · have hpl : (dir_path dname).length ≠ 1 := by
      cases dname with
      | nil => exact absurd rfl hne
      | cons a t => simp [dir_path]
    have hroot : dir_path dname ≠ ['/'] := by
      cases dname with
      | nil => exact absurd rfl hne
      | cons a t => simp [dir_path]
    have hf := hfind (used_dirs d.root + 1) (Nat.lt_succ_self _)
    simp only at hf
    have hn : (d.root.nDirectories + 1).toNat = used_dirs d.root + 1 := by
      rw [hcount]; omega
    simp only [cs1550_getattr, hpl, ne_eq, not_false_eq_true, if_true,
      sscanf_path_dir dname hne hs hlen,
      hlen1, List.length_nil, gt_iff_lt, Nat.not_lt_zero, or_self, if_false, hroot, hne,
      find_dir_counted, read_root, write_fat, write_root, hn, hf]


/-- The directory `/docs` made on an empty image of 255 blocks. -/
theorem mkdir_then_getattr_witness :
    ∃ d1, cs1550_mkdir (fresh_disk 255) (dir_path ['d', 'o', 'c', 's']) = .ok (0, d1) ∧
      cs1550_getattr d1 (dir_path ['d', 'o', 'c', 's']) zero_stat = .ok (0, dir_stat) ∧
      dir_stat.st_mode = S_IFDIR ||| 0o755 ∧ dir_stat.st_nlink = 2 :=
  mkdir_then_getattr (fresh_disk 255) ['d', 'o', 'c', 's'] zero_stat (by decide) (by decide)
    (by decide) (by decide) (by decide) (by decide) (by decide) ⟨2, by decide, by decide, by decide⟩
    (by decide)

/-- C8, amended. If `cs1550_mkdir("/name")` returns 0 and has made the
directory (the count of the root table went up by one), and the table is not
full afterwards, a second `cs1550_mkdir("/name")` returns `-EEXIST` and leaves
the image as it is. -/
theorem mkdir_twice (d : Disk) (dname : List Char) (d1 : Disk)
    (hne : dname ≠ []) (hlen : dname.length ≤ MAX_FILENAME) (hs : '/' ∉ dname)
    (h1 : cs1550_mkdir d (dir_path dname) = .ok (0, d1))
    (hmade : d1.root.nDirectories = d.root.nDirectories + 1)
    (h0 : 0 ≤ d1.root.nDirectories)
    (hroom : d1.root.nDirectories < MAX_DIRS_IN_ROOT) :
    cs1550_mkdir d1 (dir_path dname) = .ok (-EEXIST, d1) := by
  have hlen1 : ¬ (dname.length > MAX_FILENAME) := by omega
  have hcap : ¬ (to_size_t d1.root.nDirectories ≥ MAX_DIRS_IN_ROOT) := by
    simp only [to_size_t, MAX_DIRS_IN_ROOT, BLOCK_SIZE, sizeof_int, MAX_FILENAME, sizeof_long] at *
    omega
  have hany : d1.root.directories.any (fun c => c.dname == dname) = true := by
    simp only [cs1550_mkdir, dir_path, strtok_leading, strtok_token_end dname '/' hne hs,
      strtok_nil, hlen1, if_false, nonempty_ptr, read_root, read_fat, Bool.false_eq_true] at h1
    repeat' split at h1
    all_goals first
      | (cases h1; done)
      | (simp only [Except.ok.injEq, Prod.mk.injEq] at h1
         obtain ⟨_, rfl⟩ := h1
         first
           | (exfalso; omega)
           | skip)
    simp only [write_fat, write_root]
    exact any_set_self _ _ _ _ (findIdx?_lt_length _ _ _ (by assumption)) (by simp)
  simp only [cs1550_mkdir, dir_path, strtok_leading, strtok_token_end dname '/' hne hs,
    strtok_nil, hlen1, if_false, nonempty_ptr, read_root, hcap, hany, if_true,
    Bool.false_eq_true]


/-- The directory `/z` made next to three others, and made again. -/
theorem mkdir_twice_witness :
    cs1550_mkdir (image_after (cs1550_mkdir (disk_with_dirs 3) (dir_path ['z'])) (disk_with_dirs 3))
        (dir_path ['z'])
      = .ok (-EEXIST,
          image_after (cs1550_mkdir (disk_with_dirs 3) (dir_path ['z'])) (disk_with_dirs 3)) :=
  mkdir_twice (disk_with_dirs 3) ['z']
    (image_after (cs1550_mkdir (disk_with_dirs 3) (dir_path ['z'])) (disk_with_dirs 3))
    (by decide) (by decide) (by decide) (by decide) (by decide) (by decide) (by decide)

/-- C8 as stated fails for the directory that fills the 29th slot: the
second `cs1550_mkdir` returns `-EPERM`, not `-EEXIST`. -/
theorem mkdir_twice_last_slot :
    ∃ d1, cs1550_mkdir (disk_with_dirs 28) (dir_path ['z']) = .ok (0, d1) ∧
      d1.root.nDirectories = 29 ∧ d1.root.directories[28]? = some ⟨['z'], 30⟩ ∧
      cs1550_mkdir d1 (dir_path ['z']) = .ok (-EPERM, d1) ∧ (-EPERM : Int) ≠ -EEXIST :=
  ⟨image_after (cs1550_mkdir (disk_with_dirs 28) (dir_path ['z'])) (disk_with_dirs 28),
    by decide, by decide, by decide, by decide, by decide⟩

/-- C9, amended. On a path `/dname/fname` or `/dname/fname.ext` whose
components are not empty, `dname` without a slash, `fname` and `ext` without a
dot, and in which a component is over its limit (8, 8, 3), `cs1550_readdir`
returns `-ENAMETOOLONG`, having handed `.` and `..` to the filler; when the
directory name is over its limit it does so on `/dname` too, and
`cs1550_mkdir` returns `-ENAMETOOLONG` on both paths; when the file name or
the extension is over its limit `cs1550_mknod`, `cs1550_read` and
`cs1550_write` return `-ENAMETOOLONG`.  No call changes the image. -/
theorem name_too_long (d : Disk) (dname fname : List Char) (ext : Option (List Char))
    (names : List (List Char)) (rbuf wbuf : List Nat) (size offset : Nat)
    (hne : dname ≠ []) (hs : '/' ∉ dname) (hfne : fname ≠ []) (hf : '.' ∉ fname)
    (he : ∀ e, ext = some e → e ≠ [] ∧ '.' ∉ e)
    (hlong : MAX_FILENAME < dname.length ∨ MAX_FILENAME < fname.length
      ∨ MAX_EXTENSION < (ext.getD []).length) :
    cs1550_readdir d (file_path dname fname ext) names
      = .ok (-ENAMETOOLONG, names ++ [['.'], ['.', '.']]) ∧
    (MAX_FILENAME < dname.length →
      cs1550_readdir d (dir_path dname) names
        = .ok (-ENAMETOOLONG, names ++ [['.'], ['.', '.']]) ∧
      cs1550_mkdir d (dir_path dname) = .ok (-ENAMETOOLONG, d) ∧
      cs1550_mkdir d (file_path dname fname ext) = .ok (-ENAMETOOLONG, d)) ∧
    (MAX_FILENAME < fname.length ∨ MAX_EXTENSION < (ext.getD []).length →
      cs1550_mknod d (file_path dname fname ext) = .ok (-ENAMETOOLONG, d) ∧
      cs1550_read d (file_path dname fname ext) rbuf size offset
        = .ok (-ENAMETOOLONG, rbuf, d) ∧
      cs1550_write d (file_path dname fname ext) wbuf size offset
        = .ok (-ENAMETOOLONG, d)) := by
  have hp := strtok_path_file dname fname ext hne hs hfne hf he
  have hd1 : nonempty_ptr (some dname) = true := nonempty_ptr_some dname hne
  have hf1 : nonempty_ptr (some fname) = true := nonempty_ptr_some fname hfne
  have hext : MAX_EXTENSION < (ext.getD []).length → nonempty_ptr ext = true := by
    intro h
    cases ext with
    | none => simp at h
    | some e => exact nonempty_ptr_some e (he e rfl).1
  refine ⟨?_, ?_, ?_⟩
  · simp only [cs1550_readdir, hp, hd1, hf1, Option.getD_some, true_and, gt_iff_lt]
    rcases hlong with h | h | h
    · simp only [h, if_true]
    · by_cases hd : MAX_FILENAME < dname.length
      · simp only [hd, if_true]
      · simp only [hd, h, if_false, if_true]
    · by_cases hd : MAX_FILENAME < dname.length
      · simp only [hd, if_true]
      · by_cases hfl : MAX_FILENAME < fname.length
        · simp only [hd, hfl, if_false, if_true]
        · simp only [hd, hfl, hext h, h, if_false, and_self, if_true]
  · intro h
    refine ⟨?_, ?_, ?_⟩
    · simp only [cs1550_readdir, strtok_path_dir dname hne hs, hd1, Option.getD_some, true_and,
        gt_iff_lt, h, if_true]
    · simp only [cs1550_mkdir, dir_path, strtok_leading, strtok_token_end dname '/' hne hs,
        gt_iff_lt, h, if_true]
    · simp only [cs1550_mkdir, strtok_file_path dname fname ext hne hs, gt_iff_lt, h, if_true]
  · intro h
    have hcheck : (nonempty_ptr ext = true ∧
          (fname.length > MAX_FILENAME ∨ (ext.getD []).length > MAX_EXTENSION)) ∨
        (¬ nonempty_ptr ext = true ∧ fname.length > MAX_FILENAME) := by
      rcases h with h | h
      · by_cases hx : nonempty_ptr ext = true
        · exact Or.inl ⟨hx, Or.inl h⟩
        · exact Or.inr ⟨hx, h⟩
      · exact Or.inl ⟨hext h, Or.inr h⟩
    refine ⟨?_, ?_, ?_⟩
    · simp only [cs1550_mknod, hp, hne, hfne, if_false]
      exact ite_either _ _ _ _ hcheck
    · simp only [cs1550_read, hp, hne, hfne, if_false]
      exact ite_either _ _ _ _ hcheck
    · simp only [cs1550_write, hp, hne, hfne, if_false]
      exact ite_either _ _ _ _ hcheck


/-- The path `/directory/filename9.text`, every component of which is too long. -/
theorem name_too_long_witness :
    cs1550_readdir (fresh_disk 4) (file_path "directory".toList "filename9".toList
        (some "text".toList)) [] = .ok (-ENAMETOOLONG, [] ++ [['.'], ['.', '.']]) ∧
    (cs1550_readdir (fresh_disk 4) (dir_path "directory".toList) []
        = .ok (-ENAMETOOLONG, [] ++ [['.'], ['.', '.']]) ∧
      cs1550_mkdir (fresh_disk 4) (dir_path "directory".toList)
        = .ok (-ENAMETOOLONG, fresh_disk 4) ∧
      cs1550_mkdir (fresh_disk 4) (file_path "directory".toList "filename9".toList
        (some "text".toList)) = .ok (-ENAMETOOLONG, fresh_disk 4)) ∧
    (cs1550_mknod (fresh_disk 4) (file_path "directory".toList "filename9".toList
        (some "text".toList)) = .ok (-ENAMETOOLONG, fresh_disk 4) ∧
      cs1550_read (fresh_disk 4) (file_path "directory".toList "filename9".toList
        (some "text".toList)) [0] 1 0 = .ok (-ENAMETOOLONG, [0], fresh_disk 4) ∧
      cs1550_write (fresh_disk 4) (file_path "directory".toList "filename9".toList
        (some "text".toList)) [120, 0] 1 0 = .ok (-ENAMETOOLONG, fresh_disk 4)) :=
  have h := name_too_long (fresh_disk 4) "directory".toList "filename9".toList
    (some "text".toList) [] [0] [120, 0] 1 0 (by decide) (by decide) (by decide)
    (by decide) (fun e he => by cases he; exact ⟨by decide, by decide⟩) (by decide)
  ⟨h.1, h.2.1 (by decide), h.2.2 (by decide)⟩

/-- On a path `/dname`, `/dname/fname` or `/dname/fname.ext` with a component
that `sscanf` matches in full and that does not fit its array,
`cs1550_getattr` has written past the end of the array before it tests the
lengths: it does not get to return `-ENAMETOOLONG`. -/
theorem getattr_long_name_overflow (d : Disk) (dname fname : List Char)
    (ext : Option (List Char)) (st : stat)
    (hne : dname ≠ []) (hs : '/' ∉ dname) (hfne : fname ≠ []) (hf : '.' ∉ fname)
    (he : ∀ e, ext = some e → ∀ c ∈ e, isspace c = false) :
    (MAX_FILENAME < dname.length →
      cs1550_getattr d (dir_path dname) st = .error .out_of_bounds) ∧
    (MAX_FILENAME < dname.length ∨ MAX_FILENAME < fname.length
        ∨ MAX_EXTENSION < (ext.getD []).length →
      cs1550_getattr d (file_path dname fname ext) st = .error .out_of_bounds) := by
  constructor
  · intro h
    have h1 : sscanf_path (dir_path dname) = .error .out_of_bounds :=
      sscanf_path_overflow _ (by rw [sscanf_fields_dir dname hne hs]; exact Or.inl h)
    simp only [cs1550_getattr, dir_path_length dname hne, ne_eq, not_false_eq_true, if_true, h1]
  · intro h
    have h1 : sscanf_path (file_path dname fname ext) = .error .out_of_bounds :=
      sscanf_path_overflow _ (by rw [sscanf_fields_file dname fname ext hne hs hfne hf he]; exact h)
    simp only [cs1550_getattr, file_path_length, ne_eq, not_false_eq_true, if_true, h1]

/-- The paths `/directory` and `/d/f.text` handed to `cs1550_getattr`. -/
theorem getattr_long_name_overflow_example :
    cs1550_getattr (fresh_disk 4) (dir_path "directory".toList) zero_stat
      = .error .out_of_bounds ∧
    cs1550_getattr (fresh_disk 4) (file_path ['d'] ['f'] (some "text".toList)) zero_stat
      = .error .out_of_bounds := by
  decide

/-- C9 as stated fails for `cs1550_mkdir` on a path whose file name is too
long under a short directory name: the call returns `-EPERM`. -/
theorem mkdir_long_file_name :
    cs1550_mkdir (fresh_disk 4) (file_path ['d'] "filename9".toList none)
      = .ok (-EPERM, fresh_disk 4) ∧
    MAX_FILENAME < "filename9".toList.length ∧ (-EPERM : Int) ≠ -ENAMETOOLONG := by
  decide

/-- C10. The root table has `MAX_DIRS_IN_ROOT` = 29 slots, and no call of
`cs1550_mkdir` on a table with a count of at most 29 takes the count past 29;
on an image whose root table counts its used slots and has 29 of them,
`cs1550_mkdir` of a name of 1 to 8 characters returns `-EPERM` and leaves the
image as it is. -/
theorem root_capacity (d : Disk) (dname : List Char)
    (hne : dname ≠ []) (hlen : dname.length ≤ MAX_FILENAME) (hs : '/' ∉ dname)
    (hcount : d.root.nDirectories = used_dirs d.root)
    (hfull : used_dirs d.root = 29) :
    MAX_DIRS_IN_ROOT = 29 ∧
    cs1550_mkdir d (dir_path dname) = .ok (-EPERM, d) ∧
    ∀ d0 path r d1, 0 ≤ d0.root.nDirectories → d0.root.nDirectories ≤ 29 →
      cs1550_mkdir d0 path = .ok (r, d1) → d1.root.nDirectories ≤ 29 := by
  have hcap : to_size_t d.root.nDirectories ≥ MAX_DIRS_IN_ROOT := by
    rw [hcount, hfull]; decide
  have hlen1 : ¬ (dname.length > MAX_FILENAME) := by omega
  refine ⟨by decide, ?_, ?_⟩
  · simp only [cs1550_mkdir, dir_path, strtok_leading, strtok_token_end dname '/' hne hs,
      strtok_nil, hlen1, if_false, nonempty_ptr, read_root, hcap, if_true, Bool.false_eq_true]
  · intro d0 path r d1 h0 hle h
    have h29 : (MAX_DIRS_IN_ROOT : Int) = 29 := by decide
    have := mkdir_count_le d0 path r d1 h0 (by rw [h29]; exact hle) h
    rw [h29] at this
    exact this

/-- A full root table: `cs1550_mkdir("/z")` is refused. -/
theorem root_capacity_witness :
    MAX_DIRS_IN_ROOT = 29 ∧
    cs1550_mkdir (disk_with_dirs 29) (dir_path ['z']) = .ok (-EPERM, disk_with_dirs 29) ∧
    ∀ d0 path r d1, 0 ≤ d0.root.nDirectories → d0.root.nDirectories ≤ 29 →
      cs1550_mkdir d0 path = .ok (r, d1) → d1.root.nDirectories ≤ 29 :=
  root_capacity (disk_with_dirs 29) ['z'] (by decide) (by decide) (by decide) (by decide)
    (by decide)

/-- C11 fails on the code. With no free entry in the table from index 2 on,
`cs1550_mknod("/d/g.txt")` returns 0 and stores a new entry, with the start
block -1, in the directory block, and `cs1550_mkdir("/e")` goes on to use a
start block it never assigned; only `cs1550_write` of a buffer that needs a
second block returns `-EPERM`. -/
theorem full_table_no_error :
    first_free (disk_full_fat [] 0).fat.table = none ∧
    (∃ d1, cs1550_mknod (disk_full_fat [] 0) path_g = .ok (0, d1) ∧
      d1.blocks[0]? = some (.dir ⟨2, ⟨['f'], ['t', 'x', 't'], 0, 3⟩
        :: ⟨['g'], ['t', 'x', 't'], 0, -1⟩ :: List.replicate 15 ⟨[], [], 0, 0⟩⟩)) ∧
    cs1550_mkdir (disk_full_fat [] 0) (dir_path ['e']) = .error .uninitialised ∧
    (cs1550_write (disk_full_fat [] 0) path_f (List.replicate 600 120 ++ [0]) 600 0).map
      (fun r => (r.1, r.2.fat, r.2.blocks[0]?))
      = .ok (-EPERM, (disk_full_fat [] 0).fat, (disk_full_fat [] 0).blocks[0]?) :=
  ⟨full_fat_no_free,
   ⟨image_after (cs1550_mknod (disk_full_fat [] 0) path_g) (disk_full_fat [] 0),
     full_fat_mknod, full_fat_mknod_block⟩,
   full_fat_mkdir, full_fat_write⟩

/-- C12. The callbacks `cs1550_rmdir`, `cs1550_unlink`, `cs1550_truncate`,
`cs1550_open` and `cs1550_flush` return 0 on every path and every image and
leave the image as it is, so that `cs1550_getattr`, `cs1550_readdir` and
`cs1550_read` give after such a call what they gave before it. -/
theorem no_op_callbacks (d : Disk) (path : List Char) (size : Nat) :
    cs1550_rmdir d path = .ok (0, d) ∧ cs1550_unlink d path = .ok (0, d) ∧
    cs1550_truncate d path size = .ok (0, d) ∧ cs1550_open d path = .ok (0, d) ∧
    cs1550_flush d path = .ok (0, d) ∧
    same_answers (image_after (cs1550_rmdir d path) d) d ∧
    same_answers (image_after (cs1550_unlink d path) d) d ∧
    same_answers (image_after (cs1550_truncate d path size) d) d ∧
    same_answers (image_after (cs1550_open d path) d) d ∧
    same_answers (image_after (cs1550_flush d path) d) d := by
  have h : same_answers d d := fun _ _ _ _ _ _ => ⟨rfl, rfl, rfl⟩
  exact ⟨rfl, rfl, rfl, rfl, rfl, h, h, h, h, h⟩

/-- C13. On every image, for a path `/d/s` with `d` of 1 to 8 characters
without a slash and `s` holding a character other than a slash,
`cs1550_mkdir` returns `-EPERM` and leaves the image as it is. -/
theorem mkdir_rejects_nesting (d : Disk) (dname s : List Char)
    (hne : dname ≠ []) (hlen : dname.length ≤ MAX_FILENAME) (hs : '/' ∉ dname)
    (hsub : ∃ x ∈ s, x ≠ '/') :
    cs1550_mkdir d ('/' :: (dname ++ '/' :: s)) = .ok (-EPERM, d) := by
  obtain ⟨tok, htok, htne⟩ := strtok_some s '/' hsub
  have hlen1 : ¬ (dname.length > MAX_FILENAME) := by omega
  simp only [cs1550_mkdir, strtok_dir_rest dname s hne hs, hlen1, if_false, htok,
    nonempty_ptr_some tok htne, if_true]

/-- The path `/docs/sub` on an image without the directory and on one with it. -/
theorem mkdir_rejects_nesting_witness :
    cs1550_mkdir (fresh_disk 4) ('/' :: (['d', 'o', 'c', 's'] ++ '/' :: ['s', 'u', 'b']))
      = .ok (-EPERM, fresh_disk 4) :=
  mkdir_rejects_nesting (fresh_disk 4) ['d', 'o', 'c', 's'] ['s', 'u', 'b'] (by decide)
    (by decide) (by decide) ⟨'s', by decide, by decide⟩

/-- C14, amended. On every image `cs1550_mknod` returns `-EPERM` on a path
`/dir` without a file component and 0 on the root path `/`; both leave the
image as it is. -/
theorem mknod_needs_file (d : Disk) (dname : List Char)
    (hne : dname ≠ []) (hs : '/' ∉ dname) :
    cs1550_mknod d (dir_path dname) = .ok (-EPERM, d) ∧ cs1550_mknod d ['/'] = .ok (0, d) := by
  constructor
  · simp only [cs1550_mknod, strtok_path_dir dname hne hs, hne, if_false]
  · rfl

/-- The path `/docs`. -/
theorem mknod_needs_file_witness :
    cs1550_mknod (fresh_disk 4) (dir_path ['d', 'o', 'c', 's']) = .ok (-EPERM, fresh_disk 4) ∧
    cs1550_mknod (fresh_disk 4) ['/'] = .ok (0, fresh_disk 4) :=
  mknod_needs_file (fresh_disk 4) ['d', 'o', 'c', 's'] (by decide) (by decide)

/-- C14 as stated fails on the root path: `cs1550_mknod("/")` returns 0, not
`-EPERM`. -/
theorem mknod_root_path :
    cs1550_mknod disk_one_dir ['/'] = .ok (0, disk_one_dir) ∧ (0 : Int) ≠ -EPERM := by
  decide

/-- C15 fails on the code. For the path `/e/f.txt` on an image whose root
table holds the directory `d` only, `cs1550_mknod` tests the name of a
directory entry it never assigned; and on no image and no path does it return
`-ENOENT`. -/
theorem mknod_missing_directory :
    cs1550_mknod disk_one_dir (file_path ['e'] ['f'] (some ['t', 'x', 't']))
      = .error .uninitialised ∧
    ∀ d path d1, cs1550_mknod d path ≠ .ok (-ENOENT, d1) :=
  ⟨by decide, mknod_never_enoent⟩

/-- C16 fails on the code. In the directory `d` of `disk_one_dir`,
`cs1550_mknod("/d/f.a b")` returns 0 and stores the entry with the name `f`
and the extension `a b`, and `cs1550_getattr` on the same path, whose `%s`
stops at the blank and reads the extension `a`, returns `-ENOENT`;
`cs1550_mknod("/d/a.b.c")` returns 0 and stores the entry `a.b`, and
`cs1550_getattr` on the same path, which reads the extension `b.c`, returns
`-ENOENT`. -/
theorem mknod_then_getattr_enoent :
    (∃ d1, cs1550_mknod disk_one_dir ['/', 'd', '/', 'f', '.', 'a', ' ', 'b'] = .ok (0, d1) ∧
      (d1.blocks[0]?.bind Block.asDir).map (fun e => e.files[0]?)
        = some (some ⟨['f'], ['a', ' ', 'b'], 0, 3⟩) ∧
      d1.fat.table[3]? = some EOF ∧
      cs1550_getattr d1 ['/', 'd', '/', 'f', '.', 'a', ' ', 'b'] zero_stat
        = .ok (-ENOENT, zero_stat)) ∧
    (∃ d1, cs1550_mknod disk_one_dir ['/', 'd', '/', 'a', '.', 'b', '.', 'c'] = .ok (0, d1) ∧
      (d1.blocks[0]?.bind Block.asDir).map (fun e => e.files[0]?)
        = some (some ⟨['a'], ['b'], 0, 3⟩) ∧
      d1.fat.table[3]? = some EOF ∧
      cs1550_getattr d1 ['/', 'd', '/', 'a', '.', 'b', '.', 'c'] zero_stat
        = .ok (-ENOENT, zero_stat)) :=
  ⟨⟨image_after (cs1550_mknod disk_one_dir ['/', 'd', '/', 'f', '.', 'a', ' ', 'b']) disk_one_dir,
      by decide, by decide, by decide, by decide⟩,
    ⟨image_after (cs1550_mknod disk_one_dir ['/', 'd', '/', 'a', '.', 'b', '.', 'c']) disk_one_dir,
      by decide, by decide, by decide, by decide⟩⟩

/-- On names that the two parsers read alike: on an image whose used root
slots are the first `nDirectories` ones and whose table has a free entry from
index 2 on, when `cs1550_mknod` on `/d/name` or `/d/name.ext` (`d` of at most 8
characters, `name` without a dot, `ext` without a dot and without white space)
returns 0 and has changed the image, `cs1550_getattr` on the same path
returns 0 and reports a regular file with link count 1 and size 0; the entry
stored in the block of `d` has the size 0 and a start block `k` from 2 on that
was free in the table before and is the end of a chain after. -/
theorem mknod_then_getattr (d d1 : Disk) (dname fname : List Char) (ext : Option (List Char))
    (st : stat) (hroot : root_compact d.root)
    (hne : dname ≠ []) (hs : '/' ∉ dname) (hdlen : dname.length ≤ MAX_FILENAME)
    (hfne : fname ≠ []) (hf : '.' ∉ fname)
    (he : ∀ e, ext = some e → e ≠ [] ∧ '.' ∉ e ∧ ∀ c ∈ e, isspace c = false)
    (hfree : ∃ k, START_ALLOC_BLOCK ≤ k ∧ k < MAX_FAT_ENTRIES ∧ d.fat.table[k]? = some 0)
    (hmk : cs1550_mknod d (file_path dname fname ext) = .ok (0, d1)) (hnew : d1 ≠ d) :
    cs1550_getattr d1 (file_path dname fname ext) st = .ok (0, ⟨S_IFREG ||| 0o666, 1, 0⟩) ∧
    ∃ (dir : cs1550_directory) (dir_entry1 : cs1550_directory_entry) (i k : Nat),
      d1.root.directories.find? (fun c => dname == c.dname) = some dir ∧
      fread_dir d1.blocks dir.nStartBlock = .ok (some dir_entry1) ∧
      dir_entry1.files[i]? = some ⟨fname, ext.getD [], 0, (k : Int)⟩ ∧
      START_ALLOC_BLOCK ≤ k ∧ k < MAX_FAT_ENTRIES ∧
      d.fat.table[k]? = some 0 ∧ d1.fat.table[k]? = some EOF := by
  obtain ⟨dir, dir_entry, i, hdir, hblock, hn, hflen, helen, hscan⟩ :=
    mknod_inv d d1 dname fname ext hne hs hfne hf (fun e h => ⟨(he e h).1, (he e h).2.1⟩) hmk hnew
  have hno := mknod_scan_inv fname ext dir_entry.files 0 none (some i) hscan
  have hfwd := mknod_scan_no_dup fname ext dir_entry.files 0 none hno
  rw [hscan] at hfwd
  simp only [Except.ok.injEq, Prod.mk.injEq, and_true] at hfwd
  have hi : i < dir_entry.files.length :=
    findIdx?_lt_length free_slot dir_entry.files i hfwd.symm
  obtain ⟨k, hk, hk2, hk3, hk4⟩ := first_free_from_some d.fat.table
    (MAX_FAT_ENTRIES - START_ALLOC_BLOCK) START_ALLOC_BLOCK
    (by obtain ⟨k, h1, h2, h3⟩ := hfree
        exact ⟨k, h1, by simp only [MAX_FAT_ENTRIES, START_ALLOC_BLOCK, BLOCK_SIZE,
          sizeof_short] at *; omega, h3⟩)
  have hcr := mknod_creates d dname fname ext dir dir_entry i hne hs hfne hf hflen
    (fun e h => ⟨(he e h).1, (he e h).2.1, helen e h⟩) hdir hblock hn hno hfwd.symm
  rw [hmk] at hcr
  simp only [first_free, hk, Except.ok.injEq, Prod.mk.injEq, true_and] at hcr
  subst hcr
  have hfw := fwrite_block_of_fread_dir d.blocks dir.nStartBlock dir_entry hblock
    (.dir ⟨dir_entry.nFiles + 1, dir_entry.files.set i ⟨fname, ext.getD [], 0, (k : Int)⟩⟩)
  have hrd := fread_dir_fwrite_block _ _ _ _ hfw
  have hfound : (dir_entry.files.set i ⟨fname, ext.getD [], 0, (k : Int)⟩).find?
      (fun f => f.fname == fname && f.fext == ext.getD [])
        = some ⟨fname, ext.getD [], 0, (k : Int)⟩ := by
    apply find?_set_of_none _ _ _ _ _ hi (by simp)
    intro f hfm
    cases hx : (f.fname == fname && f.fext == ext.getD [])
    · rfl
    · simp only [Bool.and_eq_true, beq_iff_eq] at hx
      obtain ⟨e, he1, he2⟩ := hno f hfm hx.1
      subst he1
      exact absurd hx.2 he2
  have hk1 : ¬ ((k : Int) = -1) := by omega
  have hdir1 : d.root.directories.find? (fun c => c.dname == dname) = some dir := by
    rw [← find?_beq_comm]; exact hdir
  have hga := getattr_file_path
    ⟨d.root, ⟨d.fat.table.set k EOF⟩, d.blocks.set (dir.nStartBlock - 2).toNat
      (.dir ⟨dir_entry.nFiles + 1, dir_entry.files.set i ⟨fname, ext.getD [], 0, (k : Int)⟩⟩)⟩
    st dname fname ext hroot hne hs hdlen hfne hf hflen
    (fun e h => ⟨(he e h).2.2, helen e h⟩)
  simp only [hdir1, hrd, hfound, hk1, if_false] at hga
  refine ⟨hga, dir, _, i, k, hdir, hrd, ?_, ?_, ?_, hk4, ?_⟩
  · exact List.getElem?_set_self hi
  · exact hk2
  · simp only [MAX_FAT_ENTRIES, START_ALLOC_BLOCK, BLOCK_SIZE, sizeof_short] at hk3 ⊢; omega
  · exact getElem?_set_self_of_getElem? _ _ _ _ hk4

/-- The file `/d/f.txt` made in the directory `d` of `disk_one_dir`. -/
theorem mknod_then_getattr_witness :
    cs1550_getattr (disk_one_file [] 0) path_f zero_stat
      = .ok (0, ⟨S_IFREG ||| 0o666, 1, 0⟩) ∧
    ∃ (dir : cs1550_directory) (dir_entry1 : cs1550_directory_entry) (i k : Nat),
      (disk_one_file [] 0).root.directories.find? (fun c => ['d'] == c.dname) = some dir ∧
      fread_dir (disk_one_file [] 0).blocks dir.nStartBlock = .ok (some dir_entry1) ∧
      dir_entry1.files[i]? = some ⟨['f'], (some ['t', 'x', 't']).getD [], 0, (k : Int)⟩ ∧
      START_ALLOC_BLOCK ≤ k ∧ k < MAX_FAT_ENTRIES ∧
      disk_one_dir.fat.table[k]? = some 0 ∧ (disk_one_file [] 0).fat.table[k]? = some EOF :=
  mknod_then_getattr disk_one_dir (disk_one_file [] 0) ['d'] ['f'] (some ['t', 'x', 't'])
    zero_stat (by unfold root_compact; decide) (by decide) (by decide) (by decide) (by decide)
    (by decide) (fun e he => by cases he; exact ⟨by decide, by decide, by decide⟩)
    ⟨3, by decide, by decide, by decide⟩ (by decide) (by decide)

/-- C17, amended. In a directory whose count is below 17, `cs1550_mknod` on
`/d/name.ext` with an extension returns `-EEXIST` and leaves the image as it
is when an entry has the name and the extension; when none has them, one has
the name without extension and a slot is free, it returns 0 and stores the
entry `name.ext` in the first free slot. -/
theorem mknod_duplicate (d : Disk) (dname fname e : List Char)
    (dir : cs1550_directory) (dir_entry : cs1550_directory_entry)
    (hne : dname ≠ []) (hs : '/' ∉ dname) (hfne : fname ≠ []) (hf : '.' ∉ fname)
    (hflen : fname.length ≤ MAX_FILENAME)
    (hene : e ≠ []) (hedot : '.' ∉ e) (helen : e.length ≤ MAX_EXTENSION)
    (hdir : d.root.directories.find? (fun c => dname == c.dname) = some dir)
    (hblock : fread_dir d.blocks dir.nStartBlock = .ok (some dir_entry))
    (h0 : 0 ≤ dir_entry.nFiles) (hn : dir_entry.nFiles < MAX_FILES_IN_DIR) :
    ((∃ f ∈ dir_entry.files, f.fname = fname ∧ f.fext = e) →
      cs1550_mknod d (file_path dname fname (some e)) = .ok (-EEXIST, d)) ∧
    ((∀ f ∈ dir_entry.files, ¬ (f.fname = fname ∧ f.fext = e)) →
      (∃ f ∈ dir_entry.files, f.fname = fname ∧ f.fext = []) →
      (∃ f ∈ dir_entry.files, f.fname = [] ∧ f.fext = []) →
      ∃ (d1 : Disk) (i : Nat) (start : Int),
        cs1550_mknod d (file_path dname fname (some e)) = .ok (0, d1) ∧
        List.findIdx? free_slot dir_entry.files 0 = some i ∧
        fread_dir d1.blocks dir.nStartBlock = .ok (some ⟨dir_entry.nFiles + 1,
          dir_entry.files.set i ⟨fname, e, 0, start⟩⟩)) := by
  have hp := strtok_path_file dname fname (some e) hne hs hfne hf
    (fun x h => by cases h; exact ⟨hene, hedot⟩)
  have hc := name_checks_pass fname (some e) hflen
    (fun x h => by cases h; exact ⟨hene, hedot, helen⟩)
  have hdn : dir.dname ≠ [] := by
    have := List.find?_some hdir
    simp only [beq_iff_eq] at this
    rw [← this]; exact hne
  have hcap : to_size_t dir_entry.nFiles < MAX_FILES_IN_DIR := by
    simp only [to_size_t, MAX_FILES_IN_DIR, BLOCK_SIZE, sizeof_int, MAX_FILENAME, MAX_EXTENSION,
      sizeof_size_t, sizeof_long] at *
    omega
  have hcap1 : ¬ (to_size_t dir_entry.nFiles ≥ MAX_FILES_IN_DIR) := by omega
  constructor
  · intro hdup
    obtain ⟨idx, hscan⟩ := mknod_scan_dup fname e dir_entry.files 0 none hdup
    simp only [cs1550_mknod, hp, hne, hfne, if_false, hc.1, hc.2, read_root, read_fat, hdir, hdn,
      hblock, hcap1, hscan]
  · intro hno _ hslot
    have hno1 : ∀ f ∈ dir_entry.files, f.fname = fname → ∃ x, some e = some x ∧ f.fext ≠ x :=
      fun f hfm hname => ⟨e, rfl, fun hx => hno f hfm ⟨hname, hx⟩⟩
    have hex : ∃ x, x ∈ dir_entry.files ∧ free_slot x = true := by
      obtain ⟨f, hfm, h1, h2⟩ := hslot
      exact ⟨f, hfm, by simp only [free_slot, h1, h2, beq_self_eq_true, Bool.and_self]⟩
    obtain ⟨i, hi⟩ : ∃ i, List.findIdx? free_slot dir_entry.files 0 = some i := by
      rw [List.findIdx?_eq_some_of_exists hex]
      exact ⟨_, rfl⟩
    have hcr := mknod_creates d dname fname (some e) dir dir_entry i hne hs hfne hf hflen
      (fun x h => by cases h; exact ⟨hene, hedot, helen⟩) hdir hblock hcap hno1 hi
    refine ⟨_, i, (match first_free d.fat.table with
      | some k => (k : Int)
      | none => -1), hcr, hi, ?_⟩
    exact fread_dir_fwrite_block _ _ _ _
      (fwrite_block_of_fread_dir d.blocks dir.nStartBlock dir_entry hblock _)

/-- The file `/d/f.txt` made again, and made next to the file `/d/f`. -/
theorem mknod_duplicate_witness :
    cs1550_mknod (disk_one_file [] 0) (file_path ['d'] ['f'] (some ['t', 'x', 't']))
      = .ok (-EEXIST, disk_one_file [] 0) ∧
    ∃ (d1 : Disk) (i : Nat) (start : Int),
      cs1550_mknod disk_no_ext (file_path ['d'] ['f'] (some ['t', 'x', 't'])) = .ok (0, d1) ∧
      List.findIdx? free_slot (⟨['f'], [], 0, 3⟩ :: List.replicate 16 ⟨[], [], 0, 0⟩) 0 = some i ∧
      fread_dir d1.blocks 2 = .ok (some ⟨1 + 1,
        (⟨['f'], [], 0, 3⟩ :: List.replicate 16 ⟨[], [], 0, 0⟩).set i
          ⟨['f'], ['t', 'x', 't'], 0, start⟩⟩) :=
  ⟨(mknod_duplicate (disk_one_file [] 0) ['d'] ['f'] ['t', 'x', 't'] ⟨['d'], 2⟩
      (one_file_table 0) (by decide) (by decide) (by decide) (by decide) (by decide) (by decide)
      (by decide) (by decide) (by decide) (by decide) (by decide) (by decide)).1
      ⟨⟨['f'], ['t', 'x', 't'], 0, 3⟩, by decide, rfl, rfl⟩,
   (mknod_duplicate disk_no_ext ['d'] ['f'] ['t', 'x', 't'] ⟨['d'], 2⟩
      ⟨1, ⟨['f'], [], 0, 3⟩ :: List.replicate 16 ⟨[], [], 0, 0⟩⟩
      (by decide) (by decide) (by decide) (by decide) (by decide) (by decide)
      (by decide) (by decide) (by decide) (by decide) (by decide) (by decide)).2
      (by decide) ⟨⟨['f'], [], 0, 3⟩, by decide, rfl, rfl⟩
      ⟨⟨[], [], 0, 0⟩, by decide, rfl, rfl⟩⟩

/-- C17 as stated fails in a full directory: `cs1550_mknod` on the existing
`/d/a.txt` returns `-EPERM`, not `-EEXIST`. -/
theorem mknod_duplicate_full_directory :
    cs1550_mknod disk_full_dir (file_path ['d'] ['a'] (some ['t', 'x', 't']))
      = .ok (-EPERM, disk_full_dir) ∧
    disk_full_dir.blocks[0]?.bind Block.asDir
      = some ⟨17, (List.range 17).map
          (fun i => ⟨[Char.ofNat (97 + i)], ['t', 'x', 't'], 0, (i : Int) + 3⟩)⟩ ∧
    (-EPERM : Int) ≠ -EEXIST := by
  decide

/-- What `cs1550_getattr` returns on an image whose used root slots are the
first `nDirectories` ones, for names within the limits: 0 with the attributes
of a directory on `/`; on `/d`, `-ENOENT` when no slot of the root table is
named `d` and the attributes of a directory when one is; on `/d/name[.ext]`,
`-ENOENT` when no slot is named `d` and, when the block of `d` is a directory
table, `-ENOENT` when no entry has the name and extension; for the first entry
that has them, `-ENOENT` when the start block of the entry is -1 and otherwise
0 with the attributes of a regular file whose `st_size` is the `fsize` of the
entry. -/
theorem getattr_classification (d : Disk) (st : stat) (dname fname : List Char)
    (ext : Option (List Char)) (hroot : root_compact d.root)
    (hne : dname ≠ []) (hs : '/' ∉ dname) (hdlen : dname.length ≤ MAX_FILENAME)
    (hfne : fname ≠ []) (hf : '.' ∉ fname) (hflen : fname.length ≤ MAX_FILENAME)
    (he : ∀ e, ext = some e → (∀ c ∈ e, isspace c = false) ∧ e.length ≤ MAX_EXTENSION) :
    cs1550_getattr d ['/'] st = .ok (0, dir_stat) ∧
    ((∀ c ∈ d.root.directories, c.dname ≠ dname) →
      cs1550_getattr d (dir_path dname) st = .ok (-ENOENT, zero_stat) ∧
      cs1550_getattr d (file_path dname fname ext) st = .ok (-ENOENT, zero_stat)) ∧
    (∀ dir, d.root.directories.find? (fun c => c.dname == dname) = some dir →
      cs1550_getattr d (dir_path dname) st = .ok (0, dir_stat) ∧
      ∀ dir_entry, fread_dir d.blocks dir.nStartBlock = .ok (some dir_entry) →
        ((∀ f ∈ dir_entry.files, ¬ (f.fname = fname ∧ f.fext = ext.getD [])) →
          cs1550_getattr d (file_path dname fname ext) st = .ok (-ENOENT, zero_stat)) ∧
        (∀ f, dir_entry.files.find? (fun f => f.fname == fname && f.fext == ext.getD [])
            = some f →
          cs1550_getattr d (file_path dname fname ext) st
            = if f.nStartBlock = -1 then .ok (-ENOENT, zero_stat)
              else .ok (0, ⟨S_IFREG ||| 0o666, 1, f.fsize⟩))) := by
  have hd := getattr_dir_path d st dname hroot hne hs hdlen
  have hfp := getattr_file_path d st dname fname ext hroot hne hs hdlen hfne hf hflen he
  refine ⟨rfl, ?_, ?_⟩
  · intro hno
    have hnone : d.root.directories.find? (fun c => c.dname == dname) = none := by
      rw [List.find?_eq_none]
      intro c hc
      simpa using hno c hc
    rw [hd, hfp, hnone]
    exact ⟨rfl, rfl⟩
  · intro dir hdir
    rw [hd, hfp, hdir]
    refine ⟨rfl, ?_⟩
    intro dir_entry hblock
    simp only [hblock]
    constructor
    · intro hno
      have hnone : dir_entry.files.find? (fun f => f.fname == fname && f.fext == ext.getD [])
          = none := by
        rw [List.find?_eq_none]
        intro f hfm
        simpa using hno f hfm
      rw [hnone]
    · intro f hfound
      rw [hfound]

/-- The attributes of `/`, of `/d` and of `/d/f.txt`, a file of three bytes. -/
theorem getattr_classification_witness :
    cs1550_getattr (disk_one_file [97, 98, 99] 3) ['/'] zero_stat = .ok (0, dir_stat) ∧
    cs1550_getattr (disk_one_file [97, 98, 99] 3) (dir_path ['d']) zero_stat
      = .ok (0, dir_stat) ∧
    cs1550_getattr (disk_one_file [97, 98, 99] 3)
        (file_path ['d'] ['f'] (some ['t', 'x', 't'])) zero_stat
      = (if (3 : Int) = -1 then .ok (-ENOENT, zero_stat)
         else .ok (0, ⟨S_IFREG ||| 0o666, 1, 3⟩)) :=
  have h := getattr_classification (disk_one_file [97, 98, 99] 3) zero_stat ['d'] ['f']
    (some ['t', 'x', 't']) (by unfold root_compact; decide) (by decide) (by decide) (by decide)
    (by decide) (by decide) (by decide)
    (fun e he => by cases he; exact ⟨by decide, by decide⟩)
  have h3 := h.2.2 ⟨['d'], 2⟩ (by decide)
  ⟨h.1, h3.1, (h3.2 (one_file_table 3) (by decide)).2 ⟨['f'], ['t', 'x', 't'], 3, 3⟩ (by decide)⟩

/-- C18 fails on the code. On the image with a full allocation table
`cs1550_mknod("/d/g.txt")` returns 0 and stores the entry `g.txt` with the
start block -1 in the block of `d`; `cs1550_readdir("/d")` lists `g.txt`, and
`cs1550_getattr("/d/g.txt")` takes the start block -1 for its own mark of a
file that was not found and returns `-ENOENT`. -/
theorem getattr_start_block_sentinel :
    ∃ d1, cs1550_mknod (disk_full_fat [] 0) path_g = .ok (0, d1) ∧
      (d1.blocks[0]?.bind Block.asDir).map (fun e => e.files[1]?)
        = some (some ⟨['g'], ['t', 'x', 't'], 0, -1⟩) ∧
      cs1550_readdir d1 (dir_path ['d']) []
        = .ok (0, [['.'], ['.', '.'], "f.txt".toList, "g.txt".toList]) ∧
      cs1550_getattr d1 path_g zero_stat = .ok (-ENOENT, zero_stat) :=
  ⟨image_after (cs1550_mknod (disk_full_fat [] 0) path_g) (disk_full_fat [] 0),
    by decide, by decide, by decide, by decide⟩

/-- C19. On every image `cs1550_readdir("/")` returns 0 and hands to the
filler `.`, `..` and then the name of every slot of the root table whose name
is not empty, in the order of the slots, and nothing else. -/
theorem readdir_root (d : Disk) (buf : List (List Char)) :
    cs1550_readdir d ['/'] buf
      = .ok (0, buf ++ [['.'], ['.', '.']]
          ++ (d.root.directories.filter (fun c => c.dname != [])).map (fun c => c.dname)) := by
  rfl

/-- C20 fails on the code. For the directory `d` that holds the file
`notes.txt`, `cs1550_readdir("/d")` puts the nine characters of `notes.txt`
and their NUL into the nine bytes of `filename_copy`. -/
theorem readdir_name_overflow :
    cs1550_readdir disk_notes (dir_path ['d']) [] = .error .out_of_bounds ∧
    MAX_FILENAME + 1 < (['n', 'o', 't', 'e', 's'] ++ '.' :: ['t', 'x', 't']).length + 1 := by
  decide

/-- C21 fails on the code. On every image, for a path `/d` without a file
component, `cs1550_read` and `cs1550_write` return `-EEXIST`, which is not
`-EISDIR`; the buffer of the read and the image are as before. -/
theorem read_write_directory (d : Disk) (dname : List Char) (rbuf wbuf : List Nat)
    (size offset : Nat) (hne : dname ≠ []) (hs : '/' ∉ dname) :
    cs1550_read d (dir_path dname) rbuf size offset = .ok (-EEXIST, rbuf, d) ∧
    cs1550_write d (dir_path dname) wbuf size offset = .ok (-EEXIST, d) ∧
    (-EEXIST : Int) ≠ -EISDIR := by
  refine ⟨?_, ?_, by decide⟩
  · simp only [cs1550_read, strtok_path_dir dname hne hs, hne, if_false]
  · simp only [cs1550_write, strtok_path_dir dname hne hs, hne, if_false]

/-- The path `/d` of the directory that holds `f.txt`. -/
theorem read_write_directory_witness :
    cs1550_read (disk_one_file [97, 98, 99] 3) (dir_path ['d']) [0, 0] 2 0
      = .ok (-EEXIST, [0, 0], disk_one_file [97, 98, 99] 3) ∧
    cs1550_write (disk_one_file [97, 98, 99] 3) (dir_path ['d']) [120, 0] 1 0
      = .ok (-EEXIST, disk_one_file [97, 98, 99] 3) ∧
    (-EEXIST : Int) ≠ -EISDIR :=
  read_write_directory (disk_one_file [97, 98, 99] 3) ['d'] [0, 0] [120, 0] 2 0 (by decide)
    (by decide)

/-- C22 fails on the code. `cs1550_read` and `cs1550_write` return `-ENOENT`
for no path on no image; for the file `/d/g.txt` missing from the directory
`d` they use the entry `file_dir` that was never assigned, and for the file
`/e/f.txt` of a missing directory `e` the entry `dir` that was never assigned. -/
theorem read_write_never_enoent (d : Disk) (path : List Char) (rbuf wbuf : List Nat)
    (size offset : Nat) :
    (∀ buf1 d1, cs1550_read d path rbuf size offset ≠ .ok (-ENOENT, buf1, d1)) ∧
    (∀ d1, cs1550_write d path wbuf size offset ≠ .ok (-ENOENT, d1)) ∧
    cs1550_read (disk_one_file [97, 98, 99] 3) path_g [0, 0] 2 0 = .error .uninitialised ∧
    cs1550_write (disk_one_file [97, 98, 99] 3) path_g [120, 0] 1 0 = .error .uninitialised ∧
    cs1550_read (disk_one_file [97, 98, 99] 3) (file_path ['e'] ['f'] (some ['t', 'x', 't']))
      [0, 0] 2 0 = .error .uninitialised ∧
    cs1550_write (disk_one_file [97, 98, 99] 3) (file_path ['e'] ['f'] (some ['t', 'x', 't']))
      [120, 0] 1 0 = .error .uninitialised := by
  refine ⟨?_, ?_, by decide, by decide, by decide, by decide⟩
  · intro buf1 d1 h
    unfold cs1550_read at h
    simp only at h
    repeat' split at h
    all_goals first
      | cases h
      | exact read_from_never_enoent _ _ _ _ _ _ h
  · intro d1 h
    unfold cs1550_write at h
    simp only at h
    repeat' split at h
    all_goals first
      | cases h
      | exact write_to_never_enoent _ _ _ _ _ _ _ _ _ h

/-- C23 as stated fails. A write of 514 bytes at offset 511 of the
one-block file `/d/f.txt`, with one free entry (index 4) in the table: one
byte goes to block 3, the loop claims block 4 for the next 512 bytes and links
it to block 3, no entry is free for the last byte, and the call returns
`-EPERM`.  The table of the image is as before: entry 4 is still free and
entry 3 still ends the chain; the directory block is as before as well. -/
theorem no_space_table_not_stored :
    first_free disk_one_free.fat.table = some 4 ∧
    ∃ d1, cs1550_write disk_one_free path_f (List.replicate 514 120 ++ [0]) 514 511
        = .ok (-EPERM, d1) ∧
      d1.fat = disk_one_free.fat ∧ d1.fat.table[4]? = some 0 ∧ d1.fat.table[3]? = some EOF ∧
      d1.blocks[0]? = disk_one_free.blocks[0]? :=
  ⟨by decide,
    image_after (cs1550_write disk_one_free path_f (List.replicate 514 120 ++ [0]) 514 511)
      disk_one_free,
    by decide, by decide, by decide, by decide, by decide⟩

/-- C23, amended. For a file `/dname/fname[.ext]` whose chain `bs` in the
allocation table holds the block of `offset`, whose blocks hold data, on an
image that holds the blocks of the free entries of the table and whose
directory block is neither free nor in the chain: when the buffer holds
`n ≥ 512` bytes and more bytes are left behind its first block than the rest
of the chain and the free entries have room for, `cs1550_write` claims the
free entries in its loop, runs out of them and returns `-EPERM`; the root
table and the allocation table of the image are as before the call, so that
no entry the loop has claimed and linked is stored, and the path leads to the
same entry of the same directory block as before, so that the entry keeps its
size. -/
theorem no_space_keeps_table (d : Disk) (dname fname : List Char) (ext : Option (List Char))
    (dir : cs1550_directory) (dir_entry : cs1550_directory_entry) (j : Nat)
    (f : cs1550_file_directory) (buf : List Nat) (size offset n : Nat) (bs : List Nat)
    (hfile : file_at d dname fname ext dir dir_entry j f)
    (hlen : strlen buf = some n) (hn : BLOCK_SIZE ≤ n) (hoff : offset ≤ f.fsize)
    (hchain : chain d.fat.table MAX_FAT_ENTRIES f.nStartBlock = some bs)
    (hq : offset / BLOCK_SIZE < bs.length)
    (hdata : ∀ b ∈ bs, ∃ bytes, fread_data d.blocks (b : Int) = .ok bytes)
    (hfree : ∀ k, START_ALLOC_BLOCK ≤ k → k < MAX_FAT_ENTRIES → d.fat.table[k]? = some 0 →
      k - 2 < d.blocks.length)
    (hdir : dir.nStartBlock.toNat ∉ bs)
    (hdir0 : d.fat.table[dir.nStartBlock.toNat]? ≠ some 0)
    (hmore : BLOCK_SIZE * (bs.length - 1 - offset / BLOCK_SIZE + free_entries d.fat.table)
      < n - (BLOCK_SIZE - offset % BLOCK_SIZE)) :
    ∃ d1, cs1550_write d (file_path dname fname ext) buf size offset = .ok (-EPERM, d1) ∧
      d1.root = d.root ∧ d1.fat = d.fat ∧
      file_at d1 dname fname ext dir dir_entry j f := by
  obtain ⟨d1, h1, h2, h3, h4⟩ := write_to_exhausts d dir dir_entry j f buf size offset n bs
    hfile.block hlen hn hoff hchain hq hdata hfree hdir hdir0 hmore
  refine ⟨d1, ?_, h2, h3, ?_⟩
  · rw [write_at_file hfile]; exact h1
  · exact ⟨hfile.dname_ne, hfile.dname_slash, hfile.fname_ne, hfile.fname_dot, hfile.fname_len,
      hfile.ext_ok, by rw [h2]; exact hfile.in_root, h4, hfile.slot⟩

/-- The write of 514 bytes at offset 511 of `/d/f.txt`, a file of one block,
with one free entry in the table. -/
theorem no_space_keeps_table_witness :
    ∃ d1, cs1550_write disk_one_free (file_path ['d'] ['f'] (some ['t', 'x', 't']))
        (List.replicate 514 120 ++ [0]) 514 511 = .ok (-EPERM, d1) ∧
      d1.root = disk_one_free.root ∧ d1.fat = disk_one_free.fat ∧
      file_at d1 ['d'] ['f'] (some ['t', 'x', 't']) ⟨['d'], 2⟩ (one_file_table 511) 0
        ⟨['f'], ['t', 'x', 't'], 511, 3⟩ :=
  no_space_keeps_table disk_one_free ['d'] ['f'] (some ['t', 'x', 't']) ⟨['d'], 2⟩
    (one_file_table 511) 0 ⟨['f'], ['t', 'x', 't'], 511, 3⟩ (List.replicate 514 120 ++ [0])
    514 511 514 [3] one_free_file (strlen_replicate 514 120 (by decide)) (by decide) (by decide)
    one_free_chain (by decide)
    (fun b hb => by cases List.mem_singleton.mp hb; exact ⟨_, one_free_data⟩)
    (fun k h1 h2 h3 => one_free_inside k h2 h1 h3)
    (by decide) (by decide) (by rw [one_free_entries]; decide)

/-- C24. On an image whose table has a free entry with an index from 2 up to
255, the scan finds the least such index `j`.  A `cs1550_mkdir` that changes
the image gives the new directory the start block `j`, a `cs1550_mknod` that
changes the image gives the new file the start block `j`, and both leave a
table with the end-of-chain mark at `j` and every other entry as it was.  A
round of the loop of `cs1550_write` that stands at the end `tail` of the chain
goes on with block `j` and a table with `j` at `tail`, the end-of-chain mark
at `j` and every other entry as it was. -/
theorem first_fit (d : Disk)
    (hfree : ∃ k, 2 ≤ k ∧ k < 256 ∧ d.fat.table[k]? = some 0) :
    ∃ j, first_free d.fat.table = some j ∧ 2 ≤ j ∧ j < 256 ∧ d.fat.table[j]? = some 0 ∧
      (∀ k, 2 ≤ k → k < j → d.fat.table[k]? ≠ some 0) ∧
      (∀ path r d1, cs1550_mkdir d path = .ok (r, d1) → d1 ≠ d →
        (∃ i directory, d1.root.directories = d.root.directories.set i ⟨directory, j⟩) ∧
        d1.fat.table[j]? = some EOF ∧ ∀ k, k ≠ j → d1.fat.table[k]? = d.fat.table[k]?) ∧
      (∀ path r d1, cs1550_mknod d path = .ok (r, d1) → d1 ≠ d →
        (∃ (dir : cs1550_directory) (dir_entry : cs1550_directory_entry) (i : Nat)
            (fname fext : List Char),
          dir ∈ d.root.directories ∧
          fread_dir d.blocks dir.nStartBlock = .ok (some dir_entry) ∧
          fread_dir d1.blocks dir.nStartBlock
            = .ok (some ⟨dir_entry.nFiles + 1, dir_entry.files.set i ⟨fname, fext, 0, j⟩⟩)) ∧
        d1.fat.table[j]? = some EOF ∧ ∀ k, k ≠ j → d1.fat.table[k]? = d.fat.table[k]?) ∧
      (∀ (fuel : Nat) (blocks : List Block) (tail : Nat) (rest : List Nat),
        rest ≠ [] → d.fat.table[tail]? = some EOF →
        ∃ table1, table1[j]? = some EOF ∧ table1[tail]? = some (j : Int) ∧
          (∀ k, k ≠ j → k ≠ tail → table1[k]? = d.fat.table[k]?) ∧
          write_loop (fuel + 1) d.fat.table blocks tail rest
            = match fwrite_in_block blocks j 0 (rest.take BLOCK_SIZE) with
              | .error e => .error e
              | .ok blocks1 => write_loop fuel table1 blocks1 j (rest.drop BLOCK_SIZE)) := by
  obtain ⟨j, hj⟩ := first_free_some d.fat.table hfree
  obtain ⟨m1, m2, m3, m4⟩ := first_free_min d.fat.table j hj
  have hjlen : j < d.fat.table.length := by
    by_contra hcon
    rw [List.getElem?_eq_none (by omega)] at m3
    cases m3
  refine ⟨j, hj, m1, m2, m3, m4, ?_, ?_, ?_⟩
  · intro path r d1 hmk hnew
    rcases mkdir_cases d path r d1 hmk with
      h | ⟨directory, i, j1, b, blocks1, _, _, _, hff, _, _, _, hd1⟩
    · exact absurd h hnew
    · rw [hj] at hff
      cases hff
      subst hd1
      refine ⟨⟨i, directory, rfl⟩, ?_, ?_⟩
      · exact List.getElem?_set_self hjlen
      · intro k hk
        exact List.getElem?_set_ne (Ne.symm hk)
  · intro path r d1 hmk hnew
    rcases mknod_cases d path r d1 hmk with
      h | ⟨fn, fe, dir, dir_entry, i, _, hmem, _, hblock, _, _, hd1⟩
    · exact absurd h hnew
    · simp only [hj] at hd1
      subst hd1
      refine ⟨⟨dir, dir_entry, i, fn, (if nonempty_ptr fe = true then fe.getD [] else []), hmem,
        hblock, ?_⟩, ?_, ?_⟩
      · exact fread_dir_fwrite_block d.blocks _ dir.nStartBlock _
          (fwrite_block_of_fread_dir d.blocks dir.nStartBlock dir_entry hblock _)
      · exact List.getElem?_set_self hjlen
      · intro k hk
        exact List.getElem?_set_ne (Ne.symm hk)
  · intro fuel blocks tail rest hrest htail
    have htj : tail ≠ j := by
      intro e
      rw [e, m3] at htail
      cases htail
    have htlen : tail < d.fat.table.length := by
      by_contra hcon
      rw [List.getElem?_eq_none (by omega)] at htail
      cases htail
    refine ⟨(d.fat.table.set tail j).set j EOF, ?_, ?_, ?_, ?_⟩
    · exact List.getElem?_set_self (by simpa using hjlen)
    · rw [List.getElem?_set_ne (Ne.symm htj)]
      exact List.getElem?_set_self htlen
    · intro k h1 h2
      rw [List.getElem?_set_ne (Ne.symm h1), List.getElem?_set_ne (Ne.symm h2)]
    · have hemp : rest.isEmpty = false := by
        cases rest with
        | nil => exact absurd rfl hrest
        | cons a t => rfl
      have hget : fat_get d.fat.table (tail : Int) = .ok EOF := by
        have h0 : ¬ ((tail : Int) < 0) := by omega
        simp only [fat_get, h0, if_false, Int.toNat_ofNat, htail]
      simp only [write_loop, hemp, hget, hj, if_true, Int.toNat_ofNat]
      rfl

/-- The image with the directory `d` alone: block 3 is the first free one. -/
theorem first_fit_witness :
    (∃ k, 2 ≤ k ∧ k < 256 ∧ disk_one_dir.fat.table[k]? = some 0) ∧
    ∃ j, first_free disk_one_dir.fat.table = some j ∧ 2 ≤ j ∧ j < 256 ∧
      disk_one_dir.fat.table[j]? = some 0 ∧
      (∀ k, 2 ≤ k → k < j → disk_one_dir.fat.table[k]? ≠ some 0) ∧
      (∀ path r d1, cs1550_mkdir disk_one_dir path = .ok (r, d1) → d1 ≠ disk_one_dir →
        (∃ i directory,
          d1.root.directories = disk_one_dir.root.directories.set i ⟨directory, j⟩) ∧
        d1.fat.table[j]? = some EOF ∧
        ∀ k, k ≠ j → d1.fat.table[k]? = disk_one_dir.fat.table[k]?) ∧
      (∀ path r d1, cs1550_mknod disk_one_dir path = .ok (r, d1) → d1 ≠ disk_one_dir →
        (∃ (dir : cs1550_directory) (dir_entry : cs1550_directory_entry) (i : Nat)
            (fname fext : List Char),
          dir ∈ disk_one_dir.root.directories ∧
          fread_dir disk_one_dir.blocks dir.nStartBlock = .ok (some dir_entry) ∧
          fread_dir d1.blocks dir.nStartBlock
            = .ok (some ⟨dir_entry.nFiles + 1, dir_entry.files.set i ⟨fname, fext, 0, j⟩⟩)) ∧
        d1.fat.table[j]? = some EOF ∧
        ∀ k, k ≠ j → d1.fat.table[k]? = disk_one_dir.fat.table[k]?) ∧
      (∀ (fuel : Nat) (blocks : List Block) (tail : Nat) (rest : List Nat),
        rest ≠ [] → disk_one_dir.fat.table[tail]? = some EOF →
        ∃ table1, table1[j]? = some EOF ∧ table1[tail]? = some (j : Int) ∧
          (∀ k, k ≠ j → k ≠ tail → table1[k]? = disk_one_dir.fat.table[k]?) ∧
          write_loop (fuel + 1) disk_one_dir.fat.table blocks tail rest
            = match fwrite_in_block blocks j 0 (rest.take BLOCK_SIZE) with
              | .error e => .error e
              | .ok blocks1 => write_loop fuel table1 blocks1 j (rest.drop BLOCK_SIZE)) :=
  ⟨⟨3, by decide, by decide, by decide⟩,
    first_fit disk_one_dir ⟨3, by decide, by decide, by decide⟩⟩

/-- C25 fails on the code. For the one-block file `/d/f.txt` of 512 bytes and
the offset 512, the walk of one link from the start block 3 ends with the
block number -1, the end-of-chain mark, without an error, and `cs1550_read`
and `cs1550_write` go on to seek to block -1; neither returns an error code. -/
theorem chain_walk_takes_eof :
    fat_walk (disk_one_file (List.replicate 512 120) 512).fat.table (512 / BLOCK_SIZE) 3
      = .ok EOF ∧
    cs1550_read (disk_one_file (List.replicate 512 120) 512) path_f (List.replicate 600 0) 10 512
      = .error .outside_image ∧
    cs1550_write (disk_one_file (List.replicate 512 120) 512) path_f [97, 0] 1 512
      = .error .outside_image := by
  decide

/-- C26 fails on the code. The image `disk_full_chain` is well formed and has
no free block.  `cs1550_mknod("/d/g.txt")` returns 0 on it and stores the
entry `g.txt` with the start block -1, which is no index of the table: the
image it leaves is not well formed. -/
theorem mknod_breaks_well_formedness :
    fat_well_formed disk_full_chain = true ∧
    ∃ d1, cs1550_mknod disk_full_chain path_g = .ok (0, d1) ∧
      start_blocks d1 = [2, 3, -1] ∧ fat_well_formed d1 = false := by
  have hmk := mknod_creates disk_full_chain ['d'] ['g'] (some ['t', 'x', 't']) ⟨['d'], 2⟩
    ⟨1, ⟨['f'], ['t', 'x', 't'], 253 * 512, 3⟩ :: List.replicate 16 ⟨[], [], 0, 0⟩⟩ 1
    (by decide) (by decide) (by decide) (by decide) (by decide) (by decide) (by decide)
    (by decide) (by decide) (by decide) (by decide)
  simp only [full_chain_no_free] at hmk
  refine ⟨full_chain_well_formed, _, hmk, ?_, ?_⟩
  · decide
  · exact not_well_formed_of_start _ (-1) (by decide) (by decide)

/-- C27 fails on the code. `cs1550_mkdir("/e")` on an image whose first free
block, block 2, holds an old directory table: the call returns 0 and gives the
directory the start block 2, block 2 is as before, block 3 is the one that is
zeroed, and `cs1550_readdir("/e")` lists the old entry. -/
theorem mkdir_zeroes_next_block :
    ∃ d1, cs1550_mkdir disk_stale (dir_path ['e']) = .ok (0, d1) ∧
      d1.root.directories[0]? = some ⟨['e'], 2⟩ ∧
      d1.blocks[0]? = disk_stale.blocks[0]? ∧
      disk_stale.blocks[1]? = some (.data ([7, 7, 7] ++ List.replicate 509 0)) ∧
      d1.blocks[1]? = some (.dir zero_directory_entry) ∧
      cs1550_readdir d1 (dir_path ['e']) []
        = .ok (0, [['.'], ['.', '.'], ['o', 'l', 'd', '.', 't', 'x', 't']]) :=
  ⟨image_after (cs1550_mkdir disk_stale (dir_path ['e'])) disk_stale,
    by decide, by decide, by decide, by decide, by decide, by decide⟩

/-- C28 fails on the code. The two bytes `de` written at offset 3 of
`/d/f.txt` (block 3): the call returns 2, and the first three bytes of block
4, which belongs to `/d/g.txt`, turn from `xyz` into zeros. -/
theorem write_spills_into_next_block :
    ∃ d1, cs1550_write disk_two_files path_f [100, 101, 0] 2 3 = .ok (2, d1) ∧
      d1.fat = disk_two_files.fat ∧
      disk_two_files.blocks[2]? = some (.data ([120, 121, 122] ++ List.replicate 509 0)) ∧
      d1.blocks[2]? = some (.data zero_data) ∧
      d1.blocks[1]? = some (.data ([97, 98, 99, 100, 101] ++ List.replicate 507 0)) :=
  ⟨image_after (cs1550_write disk_two_files path_f [100, 101, 0] 2 3) disk_two_files,
    by decide, by decide, by decide, by decide, by decide⟩

/-- C29. A call of `cs1550_mknod` that returns and has changed the image has
stored one entry (with a name) in a directory block: in the slot `i` that was
the first one with neither name nor extension, with the count `nFiles` one
higher and every other slot as it was.  Every other block of the image and the
root table are as before, and an entry of the allocation table that differs
is the first free one, which is the start block of the new entry. -/
theorem mknod_insertion (d : Disk) (path : List Char) (r : Int) (d1 : Disk)
    (hmk : cs1550_mknod d path = .ok (r, d1)) (hnew : d1 ≠ d) :
    ∃ (dir : cs1550_directory) (dir_entry : cs1550_directory_entry) (i : Nat)
        (f new : cs1550_file_directory),
      r = 0 ∧ dir ∈ d.root.directories ∧
      fread_dir d.blocks dir.nStartBlock = .ok (some dir_entry) ∧
      fread_dir d1.blocks dir.nStartBlock
        = .ok (some ⟨dir_entry.nFiles + 1, dir_entry.files.set i new⟩) ∧
      dir_entry.files[i]? = some f ∧ free_slot f = true ∧
      (∀ m g, m < i → dir_entry.files[m]? = some g → free_slot g = false) ∧
      (dir_entry.files.set i new)[i]? = some new ∧ new.fname ≠ [] ∧
      (∀ m, m ≠ i → (dir_entry.files.set i new)[m]? = dir_entry.files[m]?) ∧
      (∀ m, m ≠ (dir.nStartBlock - 2).toNat → d1.blocks[m]? = d.blocks[m]?) ∧
      d1.root = d.root ∧
      (∀ k, d1.fat.table[k]? ≠ d.fat.table[k]? →
        first_free d.fat.table = some k ∧ new.nStartBlock = k) := by
  rcases mknod_cases d path r d1 hmk with
    h | ⟨fn, fe, dir, dir_entry, i, hfn, hmem, _, hblock, hscan, hr, hd1⟩
  · exact absurd h hnew
  · have hslot := mknod_scan_slot fn fe dir_entry.files i hscan
    rw [List.findIdx?_eq_some_iff_getElem] at hslot
    obtain ⟨hi, hfree, hmin⟩ := hslot
    subst hd1
    refine ⟨dir, dir_entry, i, dir_entry.files[i],
      ⟨fn, if nonempty_ptr fe = true then fe.getD [] else [], 0,
        (match first_free d.fat.table with
         | some k => (k : Int)
         | none => -1)⟩,
      hr, hmem, hblock, ?_, ?_, hfree, ?_, ?_, hfn, ?_, ?_, rfl, ?_⟩
    · exact fread_dir_fwrite_block d.blocks _ dir.nStartBlock _
        (fwrite_block_of_fread_dir d.blocks dir.nStartBlock dir_entry hblock _)
    · exact List.getElem?_eq_getElem hi
    · intro m g hm hg
      have hml : m < dir_entry.files.length := by omega
      rw [List.getElem?_eq_getElem hml] at hg
      cases hg
      have := hmin m hm
      simpa using this
    · exact List.getElem?_set_self hi
    · intro m hm
      exact List.getElem?_set_ne (Ne.symm hm)
    · intro m hm
      exact List.getElem?_set_ne (Ne.symm hm)
    · intro k hk
      cases hff : first_free d.fat.table with
      | none => simp only [hff] at hk; exact absurd rfl hk
      | some k1 =>
        simp only [hff] at hk
        by_cases hkk : k1 = k
        · subst hkk; exact ⟨rfl, rfl⟩
        · exact absurd (List.getElem?_set_ne hkk) hk

/-- The call `cs1550_mknod("/d/f.txt")` on the image with the directory `d`
alone. -/
theorem mknod_insertion_witness :
    ∃ (dir : cs1550_directory) (dir_entry : cs1550_directory_entry) (i : Nat)
        (f new : cs1550_file_directory),
      (0 : Int) = 0 ∧ dir ∈ disk_one_dir.root.directories ∧
      fread_dir disk_one_dir.blocks dir.nStartBlock = .ok (some dir_entry) ∧
      fread_dir (image_after (cs1550_mknod disk_one_dir path_f) disk_one_dir).blocks
          dir.nStartBlock
        = .ok (some ⟨dir_entry.nFiles + 1, dir_entry.files.set i new⟩) ∧
      dir_entry.files[i]? = some f ∧ free_slot f = true ∧
      (∀ m g, m < i → dir_entry.files[m]? = some g → free_slot g = false) ∧
      (dir_entry.files.set i new)[i]? = some new ∧ new.fname ≠ [] ∧
      (∀ m, m ≠ i → (dir_entry.files.set i new)[m]? = dir_entry.files[m]?) ∧
      (∀ m, m ≠ (dir.nStartBlock - 2).toNat →
        (image_after (cs1550_mknod disk_one_dir path_f) disk_one_dir).blocks[m]?
          = disk_one_dir.blocks[m]?) ∧
      (image_after (cs1550_mknod disk_one_dir path_f) disk_one_dir).root = disk_one_dir.root ∧
      (∀ k, (image_after (cs1550_mknod disk_one_dir path_f) disk_one_dir).fat.table[k]?
          ≠ disk_one_dir.fat.table[k]? →
        first_free disk_one_dir.fat.table = some k ∧ new.nStartBlock = k) :=
  mknod_insertion disk_one_dir path_f 0
    (image_after (cs1550_mknod disk_one_dir path_f) disk_one_dir) (by decide) (by decide)

/-- C30. From an image of zero blocks with an empty root table, whatever its
allocation table, every sequence of `cs1550_mkdir` and `cs1550_mknod` calls
that runs to its end leaves an image whose tables are in order: in the root
table the names of the used slots are pairwise distinct and `nDirectories` is
their number, at most 29; the block of every directory is read as a table in
which the pairs of name and extension of the used slots are pairwise distinct
and `nFiles` is their number, at most 17. -/
theorem table_invariants (fat : cs1550_fat_block) (n : Nat) (cs : List fs_call) (d : Disk)
    (h : run_calls { fresh_disk n with fat := fat } cs = .ok d) : tables_ok d :=
  tables_ok_of_inv d (tables_inv_run cs _ d (tables_inv_zeroed fat n) h)

/-- The calls `mkdir /a`, `mknod /a/f.txt`, `mkdir /b`, `mknod /a/g`,
`mkdir /a` and `mknod /b/f.txt` on an image of eight zero blocks. -/
theorem table_invariants_witness :
    tables_ok (image_of (run_calls { fresh_disk 8 with fat := ⟨List.replicate 256 0⟩ }
      [.mkdir (dir_path ['a']), .mknod (file_path ['a'] ['f'] (some ['t', 'x', 't'])),
       .mkdir (dir_path ['b']), .mknod (file_path ['a'] ['g'] none), .mkdir (dir_path ['a']),
       .mknod (file_path ['b'] ['f'] (some ['t', 'x', 't']))]) (fresh_disk 0)) :=
  table_invariants ⟨List.replicate 256 0⟩ 8
    [.mkdir (dir_path ['a']), .mknod (file_path ['a'] ['f'] (some ['t', 'x', 't'])),
     .mkdir (dir_path ['b']), .mknod (file_path ['a'] ['g'] none), .mkdir (dir_path ['a']),
     .mknod (file_path ['b'] ['f'] (some ['t', 'x', 't']))] _ (by decide)

/-- C31. With the sizes of an LP64 target, `MAX_DIRS_IN_ROOT` is 29 and
`MAX_FILES_IN_DIR` is 17, the entries take 17 and 29 bytes, and these counts
are the largest for which the count field and the entries fit in a block; the
padding makes `struct cs1550_root_directory` and
`struct cs1550_directory_entry` 512 bytes long, and the allocation table has
256 entries and takes 512 bytes. -/
theorem on_disk_capacities :
    MAX_DIRS_IN_ROOT = (512 - 4) / (9 + 8) ∧ MAX_DIRS_IN_ROOT = 29 ∧
    MAX_FILES_IN_DIR = (512 - 4) / (9 + 4 + 8 + 8) ∧ MAX_FILES_IN_DIR = 17 ∧
    sizeof_cs1550_directory = 17 ∧ sizeof_cs1550_file_directory = 29 ∧
    (∀ n, sizeof_int + n * sizeof_cs1550_directory ≤ BLOCK_SIZE ↔ n ≤ MAX_DIRS_IN_ROOT) ∧
    (∀ n, sizeof_int + n * sizeof_cs1550_file_directory ≤ BLOCK_SIZE ↔ n ≤ MAX_FILES_IN_DIR) ∧
    root_directory_padding = 15 ∧ directory_entry_padding = 15 ∧
    sizeof_cs1550_root_directory = BLOCK_SIZE ∧ sizeof_cs1550_directory_entry = BLOCK_SIZE ∧
    MAX_FAT_ENTRIES = 512 / 2 ∧ MAX_FAT_ENTRIES = 256 ∧ sizeof_cs1550_fat_block = BLOCK_SIZE := by
  refine ⟨by decide, by decide, by decide, by decide, by decide, by decide, ?_, ?_, by decide,
    by decide, by decide, by decide, by decide, by decide, by decide⟩
  · intro n
    have h1 : sizeof_int = 4 := rfl
    have h2 : sizeof_cs1550_directory = 17 := rfl
    have h3 : BLOCK_SIZE = 512 := rfl
    have h4 : MAX_DIRS_IN_ROOT = 29 := by decide
    rw [h1, h2, h3, h4]
    omega
  · intro n
    have h1 : sizeof_int = 4 := rfl
    have h2 : sizeof_cs1550_file_directory = 29 := rfl
    have h3 : BLOCK_SIZE = 512 := rfl
    have h4 : MAX_FILES_IN_DIR = 17 := by decide
    rw [h1, h2, h3, h4]
    omega

/-- C32. From an image with the zeroed root table, whatever its allocation
table and its blocks, every sequence of calls of the callbacks that runs to
its end leaves a root table in which slot `i` has a name exactly when
`i < nDirectories`; the loop of `cs1550_getattr` over the first `nDirectories`
slots then finds for every name what the loops of `cs1550_readdir`,
`cs1550_mknod`, `cs1550_read` and `cs1550_write` over all slots find. -/
theorem used_slots_first (fat : cs1550_fat_block) (blocks : List Block) (ops : List fs_op)
    (d : Disk) (h : run_ops (zeroed_root_disk fat blocks) ops = .ok d) :
    d.root.directories.length = MAX_DIRS_IN_ROOT ∧
    (∀ (i : Nat) (c : cs1550_directory), d.root.directories[i]? = some c →
      (c.dname ≠ [] ↔ (i : Int) < d.root.nDirectories)) ∧
    ∀ directory : List Char, directory ≠ [] →
      find_dir_counted d.root directory
        = .ok (d.root.directories.find? (fun c => directory == c.dname)) := by
  obtain ⟨h1, h2⟩ := zeroed_root_compact fat blocks
  obtain ⟨h3, h4⟩ := run_ops_root ops _ d h1 h2 h
  refine ⟨h3, root_compact_slot d.root h4, ?_⟩
  intro directory hne
  rw [find_dir_counted_eq d.root directory h4 hne, find?_beq_comm]

/-- The sequence `ops_example` on an image of eight zero blocks. -/
theorem used_slots_first_witness :
    disk_after_ops.root.directories.length = MAX_DIRS_IN_ROOT ∧
    (∀ (i : Nat) (c : cs1550_directory), disk_after_ops.root.directories[i]? = some c →
      (c.dname ≠ [] ↔ (i : Int) < disk_after_ops.root.nDirectories)) ∧
    ∀ directory : List Char, directory ≠ [] →
      find_dir_counted disk_after_ops.root directory
        = .ok (disk_after_ops.root.directories.find? (fun c => directory == c.dname)) :=
  used_slots_first ⟨List.replicate MAX_FAT_ENTRIES 0⟩ (List.replicate 8 (.data zero_data))
    ops_example disk_after_ops (by decide)

/-- C33. On every image and for every path, buffer, size and offset, a call of
`cs1550_read` that returns leaves the image as it was: the root table, the
allocation table and every block. -/
theorem read_is_read_only (d : Disk) (path : List Char) (buf : List Nat) (size offset : Nat)
    (r : Int) (buf1 : List Nat) (d1 : Disk)
    (h : cs1550_read d path buf size offset = .ok (r, buf1, d1)) :
    d1 = d ∧ d1.root = d.root ∧ d1.fat = d.fat ∧ ∀ k : Nat, d1.blocks[k]? = d.blocks[k]? := by
  have := read_keeps_image d path buf size offset r buf1 d1 h
  subst this
  exact ⟨rfl, rfl, rfl, fun _ => rfl⟩

/-- The read of `/d/f.txt` at offset 0 on the image with the file `abc`. -/
theorem read_is_read_only_witness :
    image_after ((cs1550_read (disk_one_file [97, 98, 99] 3) path_f (List.replicate 600 0) 3
        0).map (fun x => (x.1, x.2.2))) (fresh_disk 0) = disk_one_file [97, 98, 99] 3 ∧
    (image_after ((cs1550_read (disk_one_file [97, 98, 99] 3) path_f (List.replicate 600 0) 3
        0).map (fun x => (x.1, x.2.2))) (fresh_disk 0)).root
      = (disk_one_file [97, 98, 99] 3).root ∧
    (image_after ((cs1550_read (disk_one_file [97, 98, 99] 3) path_f (List.replicate 600 0) 3
        0).map (fun x => (x.1, x.2.2))) (fresh_disk 0)).fat
      = (disk_one_file [97, 98, 99] 3).fat ∧
    ∀ k : Nat, (image_after ((cs1550_read (disk_one_file [97, 98, 99] 3) path_f
        (List.replicate 600 0) 3 0).map (fun x => (x.1, x.2.2))) (fresh_disk 0)).blocks[k]?
      = (disk_one_file [97, 98, 99] 3).blocks[k]? :=
  read_is_read_only (disk_one_file [97, 98, 99] 3) path_f (List.replicate 600 0) 3 0 512
    ([97, 98, 99] ++ List.replicate 597 0)
    (image_after ((cs1550_read (disk_one_file [97, 98, 99] 3) path_f (List.replicate 600 0) 3
      0).map (fun x => (x.1, x.2.2))) (fresh_disk 0)) (by decide)

/-- C34 fails on the code. For `/d/.x` the `sscanf` of `cs1550_getattr`
reads the directory `d` and no file name, the `strtok` calls give the file
name `x`; for `/d/a.b.c` the `sscanf` reads the extension `b.c`, the `strtok`
calls give the extension `b`; for `/d/f.a b` the `sscanf` reads the extension
`a`, the `strtok` calls give the extension `a b`. -/
theorem parsers_disagree :
    sscanf_path ['/', 'd', '/', '.', 'x'] = .ok (['d'], [], []) ∧
    strtok_triple ['/', 'd', '/', '.', 'x'] = (['d'], ['x'], []) ∧
    sscanf_path ['/', 'd', '/', 'a', '.', 'b', '.', 'c'] = .ok (['d'], ['a'], ['b', '.', 'c']) ∧
    strtok_triple ['/', 'd', '/', 'a', '.', 'b', '.', 'c'] = (['d'], ['a'], ['b']) ∧
    sscanf_path ['/', 'd', '/', 'f', '.', 'a', ' ', 'b'] = .ok (['d'], ['f'], ['a']) ∧
    strtok_triple ['/', 'd', '/', 'f', '.', 'a', ' ', 'b'] = (['d'], ['f'], ['a', ' ', 'b']) := by
  decide

/-- For a path `/d`, `/d/f` or `/d/f.e` whose directory `d` has no slash and
at most 8 characters, whose file name `f` has no dot and at most 8 characters
and whose extension `e` has neither a dot nor white space and at most 3
characters, none of them empty, the `sscanf` of `cs1550_getattr` and the
`strtok` calls of `cs1550_mknod`, `cs1550_read` and `cs1550_write` read the
same three components. -/
theorem parsers_agree (dname fname : List Char) (ext : Option (List Char))
    (hne : dname ≠ []) (hs : '/' ∉ dname) (hdlen : dname.length ≤ MAX_FILENAME)
    (hfne : fname ≠ []) (hf : '.' ∉ fname) (hflen : fname.length ≤ MAX_FILENAME)
    (he : ∀ e, ext = some e →
      e ≠ [] ∧ '.' ∉ e ∧ (∀ c ∈ e, isspace c = false) ∧ e.length ≤ MAX_EXTENSION) :
    sscanf_path (dir_path dname) = .ok (strtok_triple (dir_path dname)) ∧
    sscanf_path (dir_path dname) = .ok (dname, [], []) ∧
    sscanf_path (file_path dname fname ext) = .ok (strtok_triple (file_path dname fname ext)) ∧
    sscanf_path (file_path dname fname ext) = .ok (dname, fname, ext.getD []) := by
  have h1 := sscanf_path_dir dname hne hs hdlen
  have h2 := strtok_path_dir dname hne hs
  have h3 := sscanf_path_file dname fname ext hne hs hdlen hfne hf hflen
    (fun e h => ⟨(he e h).2.2.1, (he e h).2.2.2⟩)
  have h4 := strtok_path_file dname fname ext hne hs hfne hf
    (fun e h => ⟨(he e h).1, (he e h).2.1⟩)
  refine ⟨?_, h1, ?_, h3⟩
  · rw [h1]; simp only [strtok_triple, h2, Option.getD_some, Option.getD_none]
  · rw [h3]; simp only [strtok_triple, h4, Option.getD_some]

/-- The paths `/d` and `/d/f.txt`. -/
theorem parsers_agree_example :
    sscanf_path (dir_path ['d']) = .ok (strtok_triple (dir_path ['d'])) ∧
    sscanf_path (dir_path ['d']) = .ok (['d'], [], []) ∧
    sscanf_path (file_path ['d'] ['f'] (some ['t', 'x', 't']))
      = .ok (strtok_triple (file_path ['d'] ['f'] (some ['t', 'x', 't']))) ∧
    sscanf_path (file_path ['d'] ['f'] (some ['t', 'x', 't']))
      = .ok (['d'], ['f'], (some ['t', 'x', 't']).getD []) :=
  parsers_agree ['d'] ['f'] (some ['t', 'x', 't']) (by decide) (by decide) (by decide)
    (by decide) (by decide) (by decide) (fun e he => by cases he; decide)

/-- C35. For `ms < 0`, `sleep_ms(ms)` calls `nanosleep` not once.  For
`ms ≥ 0` it returns, every `tv_nsec` it hands to `nanosleep` is between 0 and
999999999, the values sum up to `ms * 1000000` nanoseconds, and for `ms > 999`
the number of calls is `⌈ms / 999⌉`, for `ms ≤ 999` it is one. -/
theorem sleep_ms_sleeps (ms : Int) :
    (ms < 0 → sleep_ms ms = some []) ∧
    (0 ≤ ms → ∃ l, sleep_ms ms = some l ∧ (∀ v ∈ l, 0 ≤ v ∧ v ≤ 999999999) ∧
      l.sum = ms * 1000000 ∧ (ms > 999 → (l.length : Int) = (ms + 998) / 999) ∧
      (ms ≤ 999 → l.length = 1)) := by
  constructor
  · intro h
    simp only [sleep_ms, h, if_true]
  · intro h0
    have hneg : ¬ (ms < 0) := by omega
    by_cases hle : ms ≤ 999
    · refine ⟨[ms * 1000000], by simp only [sleep_ms, hneg, if_false, hle, if_true], ?_, ?_,
        fun h => by omega, fun _ => rfl⟩
      · intro v hv
        rw [List.mem_singleton] at hv
        rw [hv]; omega
      · simp only [List.sum_cons, List.sum_nil]; omega
    · obtain ⟨l, e1, e2, e3, e4⟩ := sleep_loop_spec ms.toNat ms h0 (by omega)
      refine ⟨l, by simp only [sleep_ms, hneg, hle, if_false, e1], ?_, e3, fun _ => e4,
        fun h => absurd h hle⟩
      intro v hv
      have := e2 v hv
      omega

/-- The call `sleep_ms(2500)`: three calls of `nanosleep`, with 999, 999 and
502 milliseconds. -/
theorem sleep_ms_sleeps_witness :
    ∃ l, sleep_ms 2500 = some l ∧ (∀ v ∈ l, 0 ≤ v ∧ v ≤ 999999999) ∧
      l.sum = 2500 * 1000000 ∧ ((2500 : Int) > 999 → (l.length : Int) = (2500 + 998) / 999) ∧
      ((2500 : Int) ≤ 999 → l.length = 1) :=
  (sleep_ms_sleeps 2500).2 (by decide)

/-- C36 fails on the code. On a screen of 4 by 3 pixels, `draw_pixel(4, 0, c)`
stores the colour at index 4, the first pixel of row 1, although `x = 4` is
not below `xres_virtual`, and `draw_pixel(0, 3, c)` stores at index 12, which
is not below `xres_virtual * yres_virtual`; the test of the function lets
`x = xres_virtual` and `y = yres_virtual` pass.  Within the screen the store
goes to index `y * xres_virtual + x`. -/
theorem draw_pixel_off_screen :
    draw_pixel 4 3 (List.replicate 12 0) 4 0 9
      = .ok [0, 0, 0, 0, 9, 0, 0, 0, 0, 0, 0, 0] ∧
    draw_pixel 4 3 (List.replicate 12 0) 0 3 9 = .error .out_of_bounds ∧
    draw_pixel 4 3 (List.replicate 12 0) 5 0 9 = .ok (List.replicate 12 0) ∧
    draw_pixel 4 3 (List.replicate 12 0) 3 2 9
      = .ok [0, 0, 0, 0, 0, 0, 0, 0, 0, 0, 0, 9] := by
  decide

end CS1550
